import Mathlib


/-!
Shallow embedding of the wide-dataset builder and hourly aggregator of
pyCLIF (src/pyclif/utils/wide_dataset.py), together with proofs settling
the claims about them.

Modelling conventions:
* timestamps are integers counting seconds (pandas Timestamp, tz-naive);
  a missing timestamp (NaT) is `Option.none`;
* numeric measurement cells are integers wrapped in `Option` (None/NaN is
  `none`); aggregated output values are rationals (pandas produces floats
  for mean/median) in the tagged union `HVal`;
* a pandas DataFrame with a dynamic column set is a list of column names
  plus a list of rows; a row built as a python dict is kept as its write
  log (`HRow`), whose observable lookup (`rowGet`, last write wins) and
  key order (first insertion wins, `rowKeys`) coincide with dict
  semantics;
* `convert_wide_to_hourly` mutates its `aggregation_config` argument in
  place; the embedding passes that state explicitly and returns the final
  config next to the result (`ConvOut`);
* exceptions (`raise ValueError`, pandas `KeyError`, failing integer
  casts) are `Except.error`.
-/

namespace PyCLIF

abbrev ColName := String

/-- First-occurrence duplicate removal (order of SQL `SELECT DISTINCT` as
scanned, pandas `Series.unique`, and python dict key order). -/
def dedupAux {α : Type} [DecidableEq α] : List α → List α → List α
  | _, [] => []
  | seen, a :: l => if a ∈ seen then dedupAux seen l else a :: dedupAux (a :: seen) l

def dedupF {α : Type} [DecidableEq α] (l : List α) : List α := dedupAux [] l

/-- `re.sub(r'[^a-zA-Z0-9_]', '_', s)` applied per character. -/
def sanitizeChar (c : Char) : Char :=
  if c.isAlpha ∨ c.isDigit ∨ c = '_' then c else '_'

/-- `re.sub(r'[^a-zA-Z0-9_]', '_', s)`. -/
def sanitize (s : String) : String := String.mk (s.data.map sanitizeChar)

/-! ## The hourly aggregator (`convert_wide_to_hourly`, lines 519-697) -/

/-- One row of the wide event table handed to the aggregator: the
`event_time` column is a timestamp in seconds (none = NaT), the
`hospitalization_id` a number, and the remaining data columns live in an
association list of numeric cells. -/
structure WRow where
  hosp : Nat
  et : Option Int
  cells : List (ColName × Option Int)
deriving DecidableEq, Repr

/-- The wide table: its column-name list and its rows. Whether the columns
`event_time` / `hospitalization_id` / `day_number` are present is read off
`cols`, mirroring the `in wide_df.columns` validation of the source. -/
structure WideDF where
  cols : List ColName
  rows : List WRow
deriving DecidableEq, Repr

/-- `aggregation_config`: a python dict from method name to column list,
kept in insertion order. -/
abbrev AggConfig := List (String × List ColName)

/-- Output cell values: rationals (floats), the hospitalization id, hour
timestamps, and null (NaN). -/
inductive HVal where
  | num : ℚ → HVal
  | nat : Nat → HVal
  | time : Int → HVal
  | null : HVal
deriving DecidableEq, Repr

def hvalOfOpt : Option Int → HVal
  | some v => HVal.num (v : ℚ)
  | none => HVal.null

/-- A result row, as the write log of the python dict `row_data`. -/
abbrev HRow := List (ColName × HVal)

/-- Dict lookup: the last write to a key wins. -/
def rowGet (r : HRow) (k : ColName) : Option HVal :=
  (r.reverse.find? (fun p => p.1 == k)).map Prod.snd

/-- Dict key order: first insertion wins. -/
def rowKeys (r : HRow) : List ColName := dedupF (r.map Prod.fst)

/-- `event_time.dt.floor('H')` in seconds. -/
def floorHour (t : Int) : Int := (Int.fdiv t 3600) * 3600

/-- Columns the source adds to the working frame before grouping. -/
def syntheticCols : List ColName :=
  ["event_time_hour", "first_event_hour", "nth_hour", "hour_bucket"]

def groupByCols : List ColName := ["hospitalization_id", "event_time_hour", "nth_hour"]

def minList (l : List Int) : Int :=
  match l with
  | [] => 0
  | a :: t => t.foldl min a

def maxList (l : List Int) : Int :=
  match l with
  | [] => 0
  | a :: t => t.foldl max a

/-- `df.groupby('hospitalization_id')['event_time_hour'].min()` for one
hospitalization (pandas skips NaT; callers only reach this with at least
one non-null time). -/
def firstEventHour (df : WideDF) (h : Nat) : Int :=
  minList ((df.rows.filter (fun r => r.hosp == h)).filterMap (fun r => r.et.map floorHour))

def cellVal (r : WRow) (c : ColName) : Option Int :=
  match r.cells.find? (fun p => p.1 == c) with
  | some p => p.2
  | none => none

/-- Value of column `c` at row `r` of the working frame: the synthetic
columns added by the aggregator shadow same-named input columns, exactly
as the source overwrites them by assignment. -/
def getVal (df : WideDF) (r : WRow) (c : ColName) : Option Int :=
  if c = "event_time_hour" then r.et.map floorHour
  else if c = "first_event_hour" then some (firstEventHour df r.hosp)
  else if c = "nth_hour" then r.et.map (fun t => (floorHour t - firstEventHour df r.hosp) / 3600)
  else if c = "hour_bucket" then r.et.map (fun t => Int.fmod (Int.fdiv t 3600) 24)
  else if c = "event_time" then r.et
  else cellVal r c

/-- Columns of the working frame (`group_df.columns`). -/
def availCols (df : WideDF) : List ColName := df.cols ++ syntheticCols

def allAggCols (cfg : AggConfig) : List ColName := (cfg.map Prod.snd).flatten

/-- Lines 586-593: wide columns not named in the config and not grouping
or carried columns. -/
def nonAggCols (df : WideDF) (cfg : AggConfig) : List ColName :=
  df.cols.filter (fun c => decide (c ∉ allAggCols cfg ∧ c ∉ groupByCols ∧
    c ∉ ["patient_id", "day_number", "first_event_hour", "hour_bucket", "event_time"]))

/-- Lines 596-605: the in-place mutation of `aggregation_config`. -/
def updateConfig (df : WideDF) (cfg : AggConfig) : AggConfig :=
  if (nonAggCols df cfg).isEmpty then cfg
  else if cfg.any (fun p => p.1 == "first") then
    cfg.map (fun p => if p.1 == "first" then (p.1, p.2 ++ nonAggCols df cfg) else p)
  else cfg ++ [("first", nonAggCols df cfg)]

/-- groupby key of a row: `(hospitalization_id, event_time_hour)`;
`nth_hour` is a function of these two, so it is dropped from the key. -/
def rowKey (r : WRow) : Nat × Int := (r.hosp, floorHour (r.et.getD 0))

def keyLE (a b : Nat × Int) : Prop := a.1 < b.1 ∨ (a.1 = b.1 ∧ a.2 ≤ b.2)

instance : DecidableRel keyLE := fun a b =>
  inferInstanceAs (Decidable (a.1 < b.1 ∨ (a.1 = b.1 ∧ a.2 ≤ b.2)))

instance : IsTotal (Nat × Int) keyLE := by
  constructor
  intro a b
  rcases Nat.lt_trichotomy a.1 b.1 with h | h | h
  · exact Or.inl (Or.inl h)
  · rcases le_total a.2 b.2 with h2 | h2
    · exact Or.inl (Or.inr ⟨h, h2⟩)
    · exact Or.inr (Or.inr ⟨h.symm, h2⟩)
  · exact Or.inr (Or.inl h)

instance : IsTrans (Nat × Int) keyLE := by
  constructor
  intro a b c hab hbc
  rcases hab with h | ⟨he, h2⟩
  · rcases hbc with h3 | ⟨he3, _⟩
    · exact Or.inl (h.trans h3)
    · exact Or.inl (he3 ▸ h)
  · rcases hbc with h3 | ⟨he3, h4⟩
    · exact Or.inl (he ▸ h3)
    · exact Or.inr ⟨he.trans he3, h2.trans h4⟩

/-- Iteration order of `df.groupby(group_cols)`: distinct keys sorted
ascending. -/
def sortedKeys (df : WideDF) : List (Nat × Int) :=
  List.insertionSort keyLE (dedupF (df.rows.map rowKey))

/-- Members of one group, in the original row order of the frame. -/
def groupRows (df : WideDF) (k : Nat × Int) : List WRow :=
  df.rows.filter (fun r => rowKey r == k)

/-- `group_df[col].dropna()` in group order. -/
def colValues (df : WideDF) (g : List WRow) (c : ColName) : List Int :=
  g.filterMap (fun r => getVal df r c)

def meanQ (l : List Int) : ℚ := ((l.foldl (· + ·) 0 : Int) : ℚ) / (l.length : ℚ)

def medianQ (l : List Int) : ℚ :=
  let s := List.insertionSort (fun a b => a ≤ b) l
  let n := l.length
  if n % 2 = 1 then ((s.getD (n / 2) 0 : Int) : ℚ)
  else (((s.getD (n / 2 - 1) 0 : Int) : ℚ) + ((s.getD (n / 2) 0 : Int) : ℚ)) / 2

/-- Lines 634-676: the writes one `(method, column)` pair performs on
`row_data` for one group, restricted to all-numeric frames (the typed
refinement `tAggWrites` below also covers string-valued cells, where
`mean` and `median` raise). A column absent from the frame is skipped,
and an unknown method writes nothing. -/
def aggWrites (df : WideDF) (na : List ColName) (g : List WRow) (m : String) (c : ColName) :
    List (ColName × HVal) :=
  if c ∈ availCols df then
    let vs := colValues df g c
    if m = "max" then [(c ++ "_max", if vs.isEmpty then HVal.null else HVal.num ((maxList vs : Int) : ℚ))]
    else if m = "min" then [(c ++ "_min", if vs.isEmpty then HVal.null else HVal.num ((minList vs : Int) : ℚ))]
    else if m = "mean" then [(c ++ "_mean", if vs.isEmpty then HVal.null else HVal.num (meanQ vs))]
    else if m = "median" then [(c ++ "_median", if vs.isEmpty then HVal.null else HVal.num (medianQ vs))]
    else if m = "first" then
      if c ∈ na then [(c ++ "_c", hvalOfOpt vs.head?)]
      else [(c ++ "_first", hvalOfOpt vs.head?)]
    else if m = "last" then [(c ++ "_last", hvalOfOpt vs.getLast?)]
    else if m = "boolean" then [(c ++ "_boolean", HVal.num (if vs.isEmpty then 0 else 1))]
    else if m = "one_hot_encode" then
      (dedupF vs).map (fun v => (sanitize (c ++ "_" ++ toString v), HVal.num 1))
    else []
  else []

/-- The `nth_hour` of a group key. -/
def nthOf (df : WideDF) (k : Nat × Int) : Int := (k.2 - firstEventHour df k.1) / 3600

/-- The four writes every `row_data` starts with (lines 618-623). -/
def baseWrites (df : WideDF) (k : Nat × Int) : HRow :=
  [("hospitalization_id", HVal.nat k.1), ("event_time_hour", HVal.time k.2),
    ("nth_hour", HVal.num ((nthOf df k : Int) : ℚ)),
    ("hour_bucket", HVal.num ((Int.fmod (Int.fdiv k.2 3600) 24 : Int) : ℚ))]

/-- The carried `patient_id` / `day_number` writes (lines 626-631). -/
def carriedWrites (df : WideDF) (k : Nat × Int) : HRow :=
  (if "patient_id" ∈ df.cols then
    [("patient_id", hvalOfOpt ((groupRows df k).head?.bind (fun r => getVal df r "patient_id")))]
  else []) ++
  (if "day_number" ∈ df.cols then
    [("day_number", hvalOfOpt ((groupRows df k).head?.bind (fun r => getVal df r "day_number")))]
  else [])

/-- All aggregation writes of one group, in config order (lines 634-676). -/
def aggAllWrites (df : WideDF) (cfg2 : AggConfig) (na : List ColName) (k : Nat × Int) : HRow :=
  cfg2.flatMap (fun p => p.2.flatMap (fun c => aggWrites df na (groupRows df k) p.1 c))

/-- Lines 614-678: `row_data` for the group of key `k`, as a dict write
log: the base keys, the carried `patient_id` / `day_number`, then every
aggregation write in config order. -/
def buildRow (df : WideDF) (cfg2 : AggConfig) (na : List ColName) (k : Nat × Int) : HRow :=
  baseWrites df k ++ carriedWrites df k ++ aggAllWrites df cfg2 na k

structure HourlyDF where
  cols : List ColName
  rows : List HRow
deriving DecidableEq, Repr

instance : DecidableEq (Except String HourlyDF)
  | Except.ok a, Except.ok b => decidable_of_iff (a = b) (by simp)
  | Except.ok _, Except.error _ => isFalse (by simp)
  | Except.error _, Except.ok _ => isFalse (by simp)
  | Except.error a, Except.error b => decidable_of_iff (a = b) (by simp)

/-- Result of the aggregator together with the final state of the
(caller-owned, mutated in place) aggregation config. -/
structure ConvOut where
  res : Except String HourlyDF
  cfg : AggConfig
deriving DecidableEq, Repr

def hrowKeyQ (r : HRow) : Nat × ℚ :=
  (match rowGet r "hospitalization_id" with
    | some (HVal.nat h) => h
    | _ => 0,
   match rowGet r "nth_hour" with
    | some (HVal.num q) => q
    | _ => 0)

def pairLEQ (a b : Nat × ℚ) : Prop := a.1 < b.1 ∨ (a.1 = b.1 ∧ a.2 ≤ b.2)

def hrowLE (a b : HRow) : Prop := pairLEQ (hrowKeyQ a) (hrowKeyQ b)

instance : DecidableRel pairLEQ := fun a b =>
  inferInstanceAs (Decidable (a.1 < b.1 ∨ (a.1 = b.1 ∧ a.2 ≤ b.2)))

instance : DecidableRel hrowLE := fun a b =>
  inferInstanceAs (Decidable (pairLEQ (hrowKeyQ a) (hrowKeyQ b)))

instance : IsTotal HRow hrowLE := by
  constructor
  intro a b
  rcases Nat.lt_trichotomy (hrowKeyQ a).1 (hrowKeyQ b).1 with h | h | h
  · exact Or.inl (Or.inl h)
  · rcases le_total (hrowKeyQ a).2 (hrowKeyQ b).2 with h2 | h2
    · exact Or.inl (Or.inr ⟨h, h2⟩)
    · exact Or.inr (Or.inr ⟨h.symm, h2⟩)
  · exact Or.inr (Or.inl h)

instance : IsTrans HRow hrowLE := by
  constructor
  intro a b c hab hbc
  rcases hab with h | ⟨he, h2⟩
  · rcases hbc with h3 | ⟨he3, _⟩
    · exact Or.inl (h.trans h3)
    · exact Or.inl (he3 ▸ h)
  · rcases hbc with h3 | ⟨he3, h4⟩
    · exact Or.inl (he ▸ h3)
    · exact Or.inr ⟨he.trans he3, h2.trans h4⟩

/-- `astype(int)` truncation toward zero of a float. -/
def truncRat (q : ℚ) : Int := Int.tdiv q.num (q.den : Int)

/-- `fillna(0).astype(int)` on one numeric cell (the typed refinement
`tFillVal` below also covers the failing string case). -/
def fillVal : Option HVal → HVal
  | none => HVal.num 0
  | some HVal.null => HVal.num 0
  | some (HVal.num q) => HVal.num ((truncRat q : Int) : ℚ)
  | some v => v

def fillRowFor (k : ColName) (r : HRow) : HRow := r ++ [(k, fillVal (rowGet r k))]

/-- Lines 687-693: the columns the one-hot fill pass touches, in pass
order: for each configured one-hot source column, every frame column
whose name starts with `col + "_"`. -/
def oneHotFillCols (cfg2 : AggConfig) (cols : List ColName) : List ColName :=
  cfg2.flatMap (fun p =>
    if p.1 = "one_hot_encode" then
      p.2.flatMap (fun c => cols.filter (fun k => (c ++ "_").data.isPrefixOf k.data))
    else [])

def fillAll (ks : List ColName) (r : HRow) : HRow := ks.foldl (fun r k => fillRowFor k r) r

/-- The per-group result rows, in groupby (sorted-key) order. -/
def builtRowsOf (df : WideDF) (cfg : AggConfig) : List HRow :=
  (sortedKeys df).map (buildRow df (updateConfig df cfg) (nonAggCols df cfg))

/-- The columns of `pd.DataFrame(aggregated_data)`: the union of the dict
keys in first-appearance order. -/
def hourlyColsOf (df : WideDF) (cfg : AggConfig) : List ColName :=
  dedupF ((builtRowsOf df cfg).flatMap (fun r => r.map Prod.fst))

/-- The result rows after the final sort and the one-hot fill pass. -/
def hourlyRowsOf (df : WideDF) (cfg : AggConfig) : List HRow :=
  (oneHotFillCols (updateConfig df cfg) (hourlyColsOf df cfg)).foldl
    (fun rs k => rs.map (fillRowFor k))
    (List.insertionSort hrowLE (builtRowsOf df cfg))

/-- `convert_wide_to_hourly` (lines 519-697). Validation errors, the
failing integer cast on a null `event_time`, and the `KeyError` raised by
sorting the empty, column-less result frame are `Except.error`; the final
aggregation config (the caller's dict after the call) is returned next to
the result. -/
def convert_wide_to_hourly (df : WideDF) (cfg : AggConfig) : ConvOut :=
  if "event_time" ∉ df.cols then
    ⟨Except.error "wide_df must contain event_time column", cfg⟩
  else if "hospitalization_id" ∉ df.cols then
    ⟨Except.error "wide_df must contain hospitalization_id column", cfg⟩
  else if "day_number" ∉ df.cols then
    ⟨Except.error "wide_df must contain day_number column", cfg⟩
  else if df.rows.any (fun r => r.et.isNone) then
    ⟨Except.error "cannot convert non-finite values (NA or inf) to integer", cfg⟩
  else if (builtRowsOf df cfg).isEmpty then
    ⟨Except.error "KeyError: hospitalization_id", updateConfig df cfg⟩
  else
    ⟨Except.ok ⟨hourlyColsOf df cfg, hourlyRowsOf df cfg⟩, updateConfig df cfg⟩

/-! ## The wide-dataset builder (`create_wide_dataset`, lines 11-300)

The embedding specialises the builder to its default cohort mode
(`hospitalization_ids=None`, `sample=False`: all hospitalizations) and to
`base_table_columns=None` (no base-column projection, under which
`_filter_base_table_columns` returns its frame unchanged). The base
tables are embedded with their identity columns (plus `in_dttm` /
`location_category` for the location-transfer table), which are the only
base columns the algorithm reads. -/

/-- A cell of an optional event table: a timestamp, a numeric value, or a
categorical string; a missing cell is `Option.none`. -/
inductive Cell where
  | t : Int → Cell
  | v : Int → Cell
  | s : String → Cell
deriving DecidableEq, Repr

/-- A row of an optional event table: its `hospitalization_id` plus the
remaining columns as an association list. -/
structure ORow where
  hosp : String
  cells : List (ColName × Option Cell)
deriving DecidableEq, Repr

structure OptTable where
  cols : List ColName
  rows : List ORow
deriving DecidableEq, Repr

/-- A location-transfer (ADT) row. -/
structure AdtRow where
  hosp : String
  in_dttm : Option Int
  location_category : Option String
deriving DecidableEq, Repr

/-- The loaded tables of a CLIF instance: patient ids, hospitalization
rows `(hospitalization_id, patient_id)`, location transfers, and the
loaded optional tables by name (a selected but unloaded table is simply
absent from this list). -/
structure CLIFData where
  patient : List String
  hospitalization : List (String × String)
  adt : List AdtRow
  tables : List (String × OptTable)
deriving Repr

def cellOf (r : ORow) (c : ColName) : Option Cell :=
  match r.cells.find? (fun p => p.1 == c) with
  | some p => p.2
  | none => none

def cellTime : Option Cell → Option Int
  | some (Cell.t x) => some x
  | _ => none

def cellStr : Option Cell → Option String
  | some (Cell.s x) => some x
  | _ => none

/-- `_get_timestamp_column` (lines 303-312). -/
def tsPrimary (name : String) : Option String :=
  if name = "vitals" then some "recorded_dttm"
  else if name = "labs" then some "lab_result_dttm"
  else if name = "medication_admin_continuous" then some "admin_dttm"
  else if name = "patient_assessments" then some "recorded_dttm"
  else if name = "respiratory_support" then some "recorded_dttm"
  else none

/-- Timestamp-column resolution with per-table fallbacks (lines 118-132
and, identically, lines 201-216): the primary name, and when it is absent
the alternatives in order; when nothing is present the (absent) primary
name is kept, exactly as the source leaves `timestamp_col` unchanged. -/
def resolveTs (name : String) (cols : List ColName) : Option String :=
  match tsPrimary name with
  | none => none
  | some p =>
    if p ∈ cols then some p
    else if name = "labs" then
      if "lab_collect_dttm" ∈ cols then some "lab_collect_dttm"
      else if "recorded_dttm" ∈ cols then some "recorded_dttm"
      else if "lab_order_dttm" ∈ cols then some "lab_order_dttm"
      else some p
    else if name = "vitals" then
      if "recorded_dttm_min" ∈ cols then some "recorded_dttm_min" else some p
    else some p

def catColOf (name : String) : Option String :=
  if name = "vitals" then some "vital_category"
  else if name = "labs" then some "lab_category"
  else if name = "medication_admin_continuous" then some "med_category"
  else if name = "patient_assessments" then some "assessment_category"
  else none

def valColOf (name : String) : Option String :=
  if name = "vitals" then some "vital_value"
  else if name = "labs" then some "lab_value_numeric"
  else if name = "medication_admin_continuous" then some "med_dose"
  else if name = "patient_assessments" then some "assessment_value"
  else none

def pivotableNames : List String :=
  ["vitals", "labs", "medication_admin_continuous", "patient_assessments"]

/-- `combo_id`: hospitalization id joined with the minute of the
timestamp. `strftime(t, '%Y%m%d%H%M')` is embedded as the minute number;
both renderings agree on the property every use depends on: two
timestamps produce the same text exactly when they fall in the same
minute. -/
def comboId (h : String) (t : Int) : String := h ++ "_" ++ toString (Int.fdiv t 60)

def rowCombo (h : String) (et : Option Int) : Option String := et.map (comboId h)

/-- The `IN ('...')` filter clause built from a category list: an empty
list renders as `IN ('')`, matching only the empty string. -/
def catFilterOk (filt : Option (List String)) (cat : String) : Bool :=
  match filt with
  | none => true
  | some cats => cat ∈ (if cats.isEmpty then [""] else cats)

def filtersFor (filters : List (String × List String)) (name : String) : Option (List String) :=
  (filters.find? (fun p => p.1 == name)).map Prod.snd

/-- The deduplicated `(value, category, combo_id)` triples of the pivot
CTE (lines 348-357), in scan order. Rows with a null timestamp, a null or
non-string category, are not pivoted. -/
def pivotTriples (t : OptTable) (tsCol catCol valCol : String)
    (filt : Option (List String)) : List (Option Cell × String × String) :=
  dedupF (t.rows.filterMap (fun r =>
    match cellTime (cellOf r tsCol), cellStr (cellOf r catCol) with
    | some ts, some cat =>
      if catFilterOk filt cat then some (cellOf r valCol, cat, comboId r.hosp ts) else none
    | _, _ => none))

/-- A pivoted table: the generated category columns and one row per
`combo_id` carrying `first(value)` per category. -/
structure PivotTable where
  cats : List String
  rows : List (String × List (ColName × Option Cell))
deriving DecidableEq, Repr

def pivotCatsOf (t : OptTable) (tsCol catCol valCol : String)
    (filt : Option (List String)) : List String :=
  dedupF ((pivotTriples t tsCol catCol valCol filt).map (fun x => x.2.1))

def pivotCombosOf (t : OptTable) (tsCol catCol valCol : String)
    (filt : Option (List String)) : List String :=
  dedupF ((pivotTriples t tsCol catCol valCol filt).map (fun x => x.2.2))

def pivotTable (t : OptTable) (tsCol catCol valCol : String)
    (filt : Option (List String)) : PivotTable :=
  ⟨pivotCatsOf t tsCol catCol valCol filt,
   (pivotCombosOf t tsCol catCol valCol filt).map (fun cb =>
    (cb, (pivotCatsOf t tsCol catCol valCol filt).map (fun cat =>
      (cat, match (pivotTriples t tsCol catCol valCol filt).find?
              (fun x => x.2.1 == cat && x.2.2 == cb) with
            | some x => x.1
            | none => none))))⟩

/-- `_pivot_table_duckdb` (lines 315-380): the pivot query fails (and the
table is treated as unpivoted) exactly when the category or value column
is missing from the frame. -/
def tryPivot (name : String) (t : OptTable) (tsCol : String)
    (filters : List (String × List String)) : Option PivotTable :=
  match catColOf name, valColOf name with
  | some catCol, some valCol =>
    if catCol ∈ t.cols ∧ valCol ∈ t.cols then
      some (pivotTable t tsCol catCol valCol (filtersFor filters name))
    else none
  | _, _ => none

/-- One selected optional table after the first processing loop (lines
100-145): its cohort-filtered frame, the resolved timestamp column, and
its pivot result when pivoting succeeded. -/
structure Prepped where
  name : String
  table : OptTable
  tsCol : Option String
  pivoted : Option PivotTable
deriving Repr

/-- Cohort filtering of an optional table (line 110). -/
def cohortFilter (t : OptTable) (requiredIds : List String) : OptTable :=
  ⟨t.cols, t.rows.filter (fun r => r.hosp ∈ requiredIds)⟩

def prepTable (c : CLIFData) (filters : List (String × List String))
    (requiredIds : List String) (name : String) : Option Prepped :=
  match (c.tables.find? (fun p => p.1 == name)).map Prod.snd with
  | none => none
  | some t0 =>
    match resolveTs name (cohortFilter t0 requiredIds).cols with
    | none => some ⟨name, cohortFilter t0 requiredIds, none, none⟩
    | some tsc =>
      if tsc ∈ (cohortFilter t0 requiredIds).cols ∧ name ∈ pivotableNames then
        some ⟨name, cohortFilter t0 requiredIds, some tsc,
          tryPivot name (cohortFilter t0 requiredIds) tsc filters⟩
      else some ⟨name, cohortFilter t0 requiredIds, some tsc, none⟩

/-- Whether a prepped table contributes event timestamps (line 133). -/
def contributes (p : Prepped) : Bool :=
  match p.tsCol with
  | some tsc => tsc ∈ p.table.cols
  | none => false

def adtEvents (adtF : List AdtRow) : List (String × Int) :=
  dedupF (adtF.filterMap (fun r => r.in_dttm.map (fun t => (r.hosp, t))))

def tableEvents (t : OptTable) (tsCol : String) : List (String × Int) :=
  dedupF (t.rows.filterMap (fun r => (cellTime (cellOf r tsCol)).map (fun ts => (r.hosp, ts))))

/-- One row of the joined wide frame before day numbering: the base-cohort
fields, the `event_time`, and the blocks contributed by the left joins
(none = the all-null block of an unmatched left join). -/
structure WideRow where
  hosp : String
  patient : String
  et : Option Int
  adt : Option AdtRow
  pivots : List (String × Option (List (ColName × Option Cell)))
  second : List (String × Option ORow)
deriving DecidableEq, Repr

/-- `pd.merge(hospitalization_df, patient_df, on='patient_id', how='inner')`. -/
def baseCohort (c : CLIFData) : List (String × String) :=
  c.hospitalization.flatMap (fun hr =>
    (c.patient.filter (fun p => p == hr.2)).map (fun p => (hr.1, p)))

/-- The event times of one hospitalization in the unified list. -/
def hospEvents (events : List (String × Int)) (h : String) : List Int :=
  (events.filter (fun e => e.1 == h)).map Prod.snd

/-- The `LEFT JOIN` of the base cohort against the unified event times on
`hospitalization_id`, with the `SELECT DISTINCT` of `expanded_df`. -/
def expandedRows (base : List (String × String)) (events : List (String × Int)) :
    List WideRow :=
  dedupF (base.flatMap (fun bp =>
    if (hospEvents events bp.1).isEmpty then [⟨bp.1, bp.2, none, none, [], []⟩]
    else (hospEvents events bp.1).map (fun t => ⟨bp.1, bp.2, some t, none, [], []⟩)))

def adtMatches (adtF : List AdtRow) (cb : Option String) : List AdtRow :=
  match cb with
  | none => []
  | some s => adtF.filter (fun a =>
      match a.in_dttm with
      | some t => comboId a.hosp t == s
      | none => false)

def joinAdt (adtF : List AdtRow) (rows : List WideRow) : List WideRow :=
  rows.flatMap (fun r =>
    if (adtMatches adtF (rowCombo r.hosp r.et)).isEmpty then [r]
    else (adtMatches adtF (rowCombo r.hosp r.et)).map (fun m => { r with adt := some m }))

def pivotMatch (pt : PivotTable) (cb : Option String) : Option (List (ColName × Option Cell)) :=
  cb.bind (fun s => (pt.rows.find? (fun p => p.1 == s)).map Prod.snd)

/-- The `LEFT JOIN ... USING (combo_id)` against the pivoted tables:
combo ids are unique in a pivot (`GROUP BY combo_id`), so each join
attaches at most one block. -/
def joinPivots (ps : List (String × PivotTable)) (rows : List WideRow) : List WideRow :=
  ps.foldl (fun rs np => rs.map (fun r =>
    { r with pivots := r.pivots ++ [(np.1, pivotMatch np.2 (rowCombo r.hosp r.et))] })) rows

def secondMatches (t : OptTable) (tsCol : String) (cb : Option String) : List ORow :=
  match cb with
  | none => []
  | some s => t.rows.filter (fun r =>
      match cellTime (cellOf r tsCol) with
      | some ts => comboId r.hosp ts == s
      | none => false)

def joinSecond (ss : List (String × OptTable × String)) (rows : List WideRow) : List WideRow :=
  ss.foldl (fun rs nts => rs.flatMap (fun r =>
    if (secondMatches nts.2.1 nts.2.2 (rowCombo r.hosp r.et)).isEmpty then
      [{ r with second := r.second ++ [(nts.1, none)] }]
    else (secondMatches nts.2.1 nts.2.2 (rowCombo r.hosp r.et)).map
      (fun m => { r with second := r.second ++ [(nts.1, some m)] }))) rows

/-- Calendar date of a timestamp. -/
def dateOf (t : Int) : Int := Int.fdiv t 86400

/-- Codepoint-lexicographic strict order on character lists (the order
pandas uses when sorting string keys). -/
def listLTb : List Char → List Char → Bool
  | [], [] => false
  | [], _ :: _ => true
  | _ :: _, [] => false
  | c :: cs, d :: ds => c.toNat < d.toNat || (c.toNat == d.toNat && listLTb cs ds)

def strLTb (a b : String) : Bool := listLTb a.data b.data

def wrowLE (a b : WideRow) : Prop :=
  strLTb a.hosp b.hosp = true ∨ (a.hosp = b.hosp ∧ a.et.getD 0 ≤ b.et.getD 0)

instance : DecidableRel wrowLE := fun a b =>
  inferInstanceAs
    (Decidable (strLTb a.hosp b.hosp = true ∨ (a.hosp = b.hosp ∧ a.et.getD 0 ≤ b.et.getD 0)))

/-- `day_number`: dense rank of the calendar date within the
hospitalization, starting at 1 (rank is order-based, so it does not
depend on the row sort). -/
def dayNumber (rows : List WideRow) (h : String) (t : Int) : Int :=
  1 + ((dedupF ((rows.filter (fun r => r.hosp == h)).filterMap
        (fun r => r.et.map dateOf))).filter (fun d => decide (d < dateOf t))).length

/-- A row of the final wide output. -/
structure FinalRow where
  w : WideRow
  day : Int
  key : String
deriving DecidableEq, Repr

structure WideOut where
  cols : List ColName
  rows : List FinalRow
deriving DecidableEq, Repr

inductive WideResult where
  | ok : WideOut → WideResult
  | baseOnly : List (String × String) → WideResult
  | err : String → WideResult
deriving DecidableEq, Repr

/-- Result-column accretion with the engine renaming of duplicate names. -/
def renameDups (acc : List ColName) (new : List ColName) : List ColName :=
  new.foldl (fun a c => a ++ [if c ∈ a then c ++ "_1" else c]) acc

/-- `df[category] = np.nan` for one requested category: append the
column when absent. -/
def ghostInsert (cs2 : List ColName) (cat : String) : List ColName :=
  if cat ∈ cs2 then cs2 else cs2 ++ [cat]

/-- `_add_missing_columns` (lines 461-477) on the column list: requested
categories of tables that are in `optional_tables` and absent from the
frame are appended; other filter entries have no effect. -/
def addGhosts (cols : List ColName) (filters : List (String × List String))
    (opt : List String) : List ColName :=
  filters.foldl (fun cs p =>
    if p.1 ∈ opt then p.2.foldl ghostInsert cs else cs) cols

def adtColNames : List ColName := ["hospitalization_id", "in_dttm", "location_category"]

def requiredIdsOf (c : CLIFData) : List String := dedupF (c.hospitalization.map Prod.fst)

def adtFOf (c : CLIFData) : List AdtRow :=
  c.adt.filter (fun r => r.hosp ∈ requiredIdsOf c)

def preppedOf (c : CLIFData) (opt : List String)
    (filters : List (String × List String)) : List Prepped :=
  opt.filterMap (prepTable c filters (requiredIdsOf c))

/-- The unified distinct `(hospitalization_id, event_time)` pairs. -/
def eventsOf (c : CLIFData) (opt : List String)
    (filters : List (String × List String)) : List (String × Int) :=
  dedupF (adtEvents (adtFOf c) ++
    ((preppedOf c opt filters).filter contributes).flatMap
      (fun p => tableEvents p.table (p.tsCol.getD "")))

def pivotAssocOf (c : CLIFData) (opt : List String)
    (filters : List (String × List String)) : List (String × PivotTable) :=
  dedupF ((preppedOf c opt filters).filterMap
    (fun p => p.pivoted.map (fun pt => (p.name, pt))))

def secondListOf (c : CLIFData) (opt : List String)
    (filters : List (String × List String)) : List (String × OptTable × String) :=
  (preppedOf c opt filters).filterMap (fun p =>
    match p.pivoted, p.tsCol with
    | none, some tsc => some (p.name, p.table, tsc)
    | _, _ => none)

/-- The fully joined (pre-day-numbering, deduplicated) wide rows. -/
def joinedOf (c : CLIFData) (opt : List String)
    (filters : List (String × List String)) : List WideRow :=
  dedupF (joinSecond (secondListOf c opt filters) (joinPivots (pivotAssocOf c opt filters)
    (joinAdt (adtFOf c) (expandedRows (baseCohort c) (eventsOf c opt filters)))))

/-- The column list of the joined frame after day numbering, before
`_add_missing_columns` and the final column drop. -/
def joinedColsOf (c : CLIFData) (opt : List String)
    (filters : List (String × List String)) : List ColName :=
  renameDups (renameDups (renameDups
    ["hospitalization_id", "patient_id", "event_time", "combo_id"] adtColNames)
    ((pivotAssocOf c opt filters).flatMap (fun np => np.2.cats)))
    ((secondListOf c opt filters).flatMap (fun nts => nts.2.1.cols)) ++
  ["date", "day_number", "hosp_id_day_key"]

/-- The final wide rows: sorted by `(hospitalization_id, event_time)`,
with `day_number` and `hosp_id_day_key` attached. -/
def finalRowsOf (c : CLIFData) (opt : List String)
    (filters : List (String × List String)) : List FinalRow :=
  (List.insertionSort wrowLE (joinedOf c opt filters)).map (fun r =>
    FinalRow.mk r (dayNumber (joinedOf c opt filters) r.hosp (r.et.getD 0))
      (r.hosp ++ "_day_" ++ toString (dayNumber (joinedOf c opt filters) r.hosp (r.et.getD 0))))

/-- The final column list: ghost columns appended, `combo_id` and `date`
dropped. -/
def finalColsOf (c : CLIFData) (opt : List String)
    (filters : List (String × List String)) : List ColName :=
  (addGhosts (joinedColsOf c opt filters) filters opt).filter
    (fun cl => decide (cl ∉ ["combo_id", "date"]))

/-- `create_wide_dataset` (lines 11-300), specialised as described above.
`optional_tables` and `category_filters` given as `None` are embedded as
empty lists (the source treats both as falsy / skips them). -/
def create_wide_dataset (c : CLIFData) (optional_tables : List String)
    (category_filters : List (String × List String)) : WideResult :=
  -- a second-pass table whose resolved timestamp column is absent is
  -- still interpolated into the join query (lines 218-232), which then
  -- fails to bind the column at execution (line 236)
  if (secondListOf c optional_tables category_filters).any
      (fun nts => decide (nts.2.2 ∉ nts.2.1.cols)) then
    WideResult.err "Binder Error: column not found in second-pass join"
  else if (joinedOf c optional_tables category_filters).any (fun r => r.et.isNone) then
    WideResult.err "Cannot convert non-finite values (NA or inf) to integer"
  else
    WideResult.ok ⟨finalColsOf c optional_tables category_filters,
      finalRowsOf c optional_tables category_filters⟩

/-! ## Infrastructure: first-occurrence deduplication -/

theorem mem_dedupAux {α : Type} [DecidableEq α] (l : List α) :
    ∀ (seen : List α) (x : α), x ∈ dedupAux seen l ↔ x ∈ l ∧ x ∉ seen := by
  induction l with
  | nil => intro seen x; simp [dedupAux]
  | cons a l ih =>
    intro seen x
    by_cases h : a ∈ seen
    · rw [dedupAux, if_pos h, ih]
      simp only [List.mem_cons]
      constructor
      · rintro ⟨hx, hs⟩; exact ⟨Or.inr hx, hs⟩
      · rintro ⟨hx | hx, hs⟩
        · exact absurd (hx ▸ h) hs
        · exact ⟨hx, hs⟩
    · rw [dedupAux, if_neg h]
      simp only [List.mem_cons, ih, not_or]
      constructor
      · rintro (rfl | ⟨hx, hs⟩)
        · exact ⟨Or.inl rfl, h⟩
        · exact ⟨Or.inr hx, hs.2⟩
      · rintro ⟨hx | hx, hs⟩
        · exact Or.inl hx
        · by_cases hxa : x = a
          · exact Or.inl hxa
          · exact Or.inr ⟨hx, hxa, hs⟩

theorem mem_dedupF {α : Type} [DecidableEq α] (l : List α) (x : α) :
    x ∈ dedupF l ↔ x ∈ l := by
  rw [dedupF, mem_dedupAux]; simp

theorem nodup_dedupAux {α : Type} [DecidableEq α] (l : List α) :
    ∀ seen : List α, (dedupAux seen l).Nodup := by
  induction l with
  | nil => intro seen; simp [dedupAux]
  | cons a l ih =>
    intro seen
    by_cases h : a ∈ seen
    · rw [dedupAux, if_pos h]; exact ih seen
    · rw [dedupAux, if_neg h]
      refine List.Nodup.cons ?_ (ih (a :: seen))
      intro hc
      exact ((mem_dedupAux l (a :: seen) a).1 hc).2 (List.mem_cons_self a seen)

theorem nodup_dedupF {α : Type} [DecidableEq α] (l : List α) : (dedupF l).Nodup :=
  nodup_dedupAux l []

theorem dedupAux_congr {α : Type} [DecidableEq α] (l : List α) :
    ∀ (s1 s2 : List α), (∀ x, x ∈ s1 ↔ x ∈ s2) → dedupAux s1 l = dedupAux s2 l := by
  induction l with
  | nil => intro s1 s2 _; rfl
  | cons a l ih =>
    intro s1 s2 h
    by_cases ha : a ∈ s1
    · rw [dedupAux, if_pos ha, dedupAux, if_pos ((h a).1 ha)]
      exact ih s1 s2 h
    · rw [dedupAux, if_neg ha, dedupAux, if_neg (fun hc => ha ((h a).2 hc))]
      refine congrArg (List.cons a) (ih (a :: s1) (a :: s2) ?_)
      intro x; simp [h x]

theorem dedupAux_cons_of_not_mem {α : Type} [DecidableEq α] (l : List α) :
    ∀ (seen : List α) (b : α), b ∉ l → dedupAux (b :: seen) l = dedupAux seen l := by
  induction l with
  | nil => intro seen b _; rfl
  | cons c l ih =>
    intro seen b hb
    have hcb : c ≠ b := fun he => hb (he ▸ List.mem_cons_self c l)
    have hbl : b ∉ l := fun hc => hb (List.mem_cons_of_mem c hc)
    by_cases hc : c ∈ seen
    · rw [dedupAux, if_pos (List.mem_cons_of_mem b hc), dedupAux, if_pos hc]
      exact ih seen b hbl
    · have hc2 : c ∉ b :: seen := by
        simp only [List.mem_cons, not_or]; exact ⟨hcb, hc⟩
      rw [dedupAux, if_neg hc2, dedupAux, if_neg hc]
      refine congrArg (List.cons c) ?_
      calc dedupAux (c :: b :: seen) l = dedupAux (b :: c :: seen) l := by
            refine dedupAux_congr _ _ _ ?_
            intro x; simp only [List.mem_cons]; tauto
        _ = dedupAux (c :: seen) l := ih (c :: seen) b hbl

theorem filter_dedupAux {α : Type} [DecidableEq α] (p : α → Bool) (l : List α) :
    ∀ seen : List α, (dedupAux seen l).filter p = dedupAux seen (l.filter p) := by
  induction l with
  | nil => intro seen; rfl
  | cons a l ih =>
    intro seen
    by_cases ha : a ∈ seen
    · rw [dedupAux, if_pos ha]
      by_cases hp : p a
      · rw [List.filter_cons_of_pos hp, dedupAux, if_pos ha]; exact ih seen
      · rw [List.filter_cons_of_neg (by simpa using hp)]; exact ih seen
    · rw [dedupAux, if_neg ha]
      by_cases hp : p a
      · rw [List.filter_cons_of_pos hp, List.filter_cons_of_pos hp, dedupAux, if_neg ha]
        exact congrArg (List.cons a) (ih (a :: seen))
      · rw [List.filter_cons_of_neg (by simpa using hp),
            List.filter_cons_of_neg (by simpa using hp)]
        rw [ih (a :: seen)]
        exact dedupAux_cons_of_not_mem (l.filter p) seen a
          (fun hc => (by simpa using hp : ¬ p a = true) (List.of_mem_filter hc))

theorem filter_dedupF {α : Type} [DecidableEq α] (p : α → Bool) (l : List α) :
    (dedupF l).filter p = dedupF (l.filter p) :=
  filter_dedupAux p l []

theorem dedupAux_eq_self {α : Type} [DecidableEq α] (l : List α) :
    ∀ seen : List α, l.Nodup → (∀ x ∈ l, x ∉ seen) → dedupAux seen l = l := by
  induction l with
  | nil => intro seen _ _; rfl
  | cons a l ih =>
    intro seen hn hs
    rw [dedupAux, if_neg (hs a (List.mem_cons_self a l))]
    refine congrArg (List.cons a) (ih (a :: seen) hn.of_cons ?_)
    intro x hx
    simp only [List.mem_cons, not_or]
    exact ⟨fun he => (List.nodup_cons.1 hn).1 (he ▸ hx), hs x (List.mem_cons_of_mem a hx)⟩

theorem dedupF_eq_self {α : Type} [DecidableEq α] (l : List α) (h : l.Nodup) :
    dedupF l = l :=
  dedupAux_eq_self l [] h (by simp)

/-! ## Infrastructure: disjointness of generated column names -/

theorem string_append_ne_fixed (u w : String)
    (h : ¬ u.data.reverse <+: w.data.reverse) : ∀ s : String, s ++ u ≠ w := by
  intro s he
  apply h
  have hd : s.data ++ u.data = w.data := by
    have h2 := congrArg String.data he
    simpa [String.data_append] using h2
  have hr : u.data.reverse ++ s.data.reverse = w.data.reverse := by
    have h2 := congrArg List.reverse hd
    simpa [List.reverse_append] using h2
  exact ⟨s.data.reverse, hr⟩

theorem string_fixed_ne_append (u w : String)
    (h : ¬ u.data.reverse <+: w.data.reverse) : ∀ s : String, w ≠ s ++ u :=
  fun s he => string_append_ne_fixed u w h s he.symm

theorem string_append_ne_append (u v : String)
    (h1 : ¬ u.data.reverse <+: v.data.reverse) (h2 : ¬ v.data.reverse <+: u.data.reverse) :
    ∀ s t : String, s ++ u ≠ t ++ v := by
  intro s t he
  have hd : s.data ++ u.data = t.data ++ v.data := by
    have h3 := congrArg String.data he
    simpa [String.data_append] using h3
  have hr : u.data.reverse ++ s.data.reverse = v.data.reverse ++ t.data.reverse := by
    have h3 := congrArg List.reverse hd
    simpa [List.reverse_append] using h3
  have hu : u.data.reverse <+: v.data.reverse ++ t.data.reverse := ⟨s.data.reverse, hr⟩
  have hv : v.data.reverse <+: v.data.reverse ++ t.data.reverse := ⟨t.data.reverse, rfl⟩
  rcases le_total u.data.reverse.length v.data.reverse.length with hle | hle
  · exact h1 (List.prefix_of_prefix_length_le hu hv hle)
  · exact h2 (List.prefix_of_prefix_length_le hv hu hle)

theorem string_append_right_cancel {s t u : String} (h : s ++ u = t ++ u) : s = t := by
  apply String.ext
  have hd : s.data ++ u.data = t.data ++ u.data := by
    have h2 := congrArg String.data h
    simpa [String.data_append] using h2
  exact List.append_cancel_right hd

theorem mem_of_getLast? {α : Type} {l : List α} {c : α} (h : l.getLast? = some c) : c ∈ l := by
  induction l with
  | nil => simp at h
  | cons a l ih =>
    cases l with
    | nil =>
      simp only [List.getLast?_singleton, Option.some.injEq] at h
      exact h ▸ List.mem_singleton_self a
    | cons b t =>
      rw [List.getLast?_cons_cons] at h
      exact List.mem_cons_of_mem a (ih h)

theorem getLast?_of_ne_nil {α : Type} {l : List α} (h : l ≠ []) : ∃ c, l.getLast? = some c := by
  cases hl : l.getLast? with
  | some c => exact ⟨c, rfl⟩
  | none => exact absurd (List.getLast?_eq_none_iff.1 hl) h

theorem digitChar_isDigit (n : ℕ) (h : n < 10) : (Nat.digitChar n).isDigit = true := by
  interval_cases n <;> decide

theorem toDigitsCore_isDigit (fuel : ℕ) :
    ∀ (n : ℕ) (ds : List Char), (∀ c ∈ ds, c.isDigit = true) →
      ∀ c ∈ Nat.toDigitsCore 10 fuel n ds, c.isDigit = true := by
  induction fuel with
  | zero =>
    intro n ds h c hc
    simp only [Nat.toDigitsCore] at hc
    exact h c hc
  | succ fuel ih =>
    intro n ds h c hc
    have hd : ∀ x ∈ (Nat.digitChar (n % 10) :: ds), x.isDigit = true := by
      intro x hx
      rcases List.mem_cons.1 hx with rfl | hx
      · exact digitChar_isDigit _ (Nat.mod_lt n (by norm_num))
      · exact h x hx
    simp only [Nat.toDigitsCore] at hc
    split at hc
    · exact hd c hc
    · exact ih (n / 10) _ hd c hc

theorem toDigitsCore_length (fuel : ℕ) : ∀ (n : ℕ) (ds : List Char),
    ds.length < (Nat.toDigitsCore 10 (fuel + 1) n ds).length := by
  induction fuel with
  | zero =>
    intro n ds
    simp only [Nat.toDigitsCore]
    split <;> simp [Nat.toDigitsCore]
  | succ fuel ih =>
    intro n ds
    have h := ih (n / 10) ((n % 10).digitChar :: ds)
    simp only [Nat.toDigitsCore] at h ⊢
    split
    · simp
    · exact Nat.lt_trans (Nat.lt_succ_self ds.length) h

theorem natRepr_ne_nil (n : ℕ) : (Nat.repr n).data ≠ [] := by
  intro h
  have h2 := toDigitsCore_length n n []
  have h3 : (Nat.repr n).data = Nat.toDigitsCore 10 (n + 1) n [] := rfl
  rw [h3] at h
  rw [h] at h2
  simp at h2

theorem natRepr_isDigit (n : ℕ) : ∀ c ∈ (Nat.repr n).data, c.isDigit = true := by
  intro c hc
  have h3 : (Nat.repr n).data = Nat.toDigitsCore 10 (n + 1) n [] := rfl
  rw [h3] at hc
  exact toDigitsCore_isDigit (n + 1) n [] (by simp) c hc

theorem intToString_last_isDigit (v : ℤ) :
    ∃ ch, (toString v).data.getLast? = some ch ∧ ch.isDigit = true := by
  have hts : toString v = Int.repr v := rfl
  rw [hts]
  cases v with
  | ofNat n =>
    obtain ⟨ch, hch⟩ := getLast?_of_ne_nil (natRepr_ne_nil n)
    exact ⟨ch, hch, natRepr_isDigit n ch (mem_of_getLast? hch)⟩
  | negSucc n =>
    obtain ⟨ch, hch⟩ := getLast?_of_ne_nil (natRepr_ne_nil (n + 1))
    refine ⟨ch, ?_, natRepr_isDigit (n + 1) ch (mem_of_getLast? hch)⟩
    show (("-" : String) ++ Nat.repr (n + 1)).data.getLast? = some ch
    rw [String.data_append, List.getLast?_append, hch]
    rfl

theorem sanitizeChar_of_isDigit (c : Char) (h : c.isDigit = true) : sanitizeChar c = c := by
  unfold sanitizeChar
  rw [if_pos]
  exact Or.inr (Or.inl (by simpa using h))

theorem sanitize_last_isDigit (s : String) (v : ℤ) :
    ∃ ch, (sanitize (s ++ "_" ++ toString v)).data.getLast? = some ch ∧ ch.isDigit = true := by
  obtain ⟨ch, hlast, hdig⟩ := intToString_last_isDigit v
  refine ⟨ch, ?_, hdig⟩
  show ((s ++ "_" ++ toString v).data.map sanitizeChar).getLast? = some ch
  rw [List.getLast?_map]
  have h1 : (s ++ "_" ++ toString v).data.getLast? = some ch := by
    show ((s ++ "_") ++ toString v).data.getLast? = some ch
    rw [String.data_append, List.getLast?_append, hlast]
    rfl
  rw [h1]
  simp [sanitizeChar_of_isDigit ch hdig]

/-- A sanitized one-hot column name ends in a digit, so it differs from
any string whose last character is not a digit. -/
theorem oneHot_key_ne_fixed (s : String) (v : ℤ) (w : String)
    (hw : ∀ ch, w.data.getLast? = some ch → ch.isDigit = false) :
    sanitize (s ++ "_" ++ toString v) ≠ w := by
  intro he
  obtain ⟨ch, hl, hd⟩ := sanitize_last_isDigit s v
  rw [he] at hl
  rw [hw ch hl] at hd
  exact Bool.false_ne_true hd

theorem oneHot_key_ne_suffix (s : String) (v : ℤ) (b sfx : String)
    (hsfx : sfx.data ≠ [])
    (hlast : ∀ ch, sfx.data.getLast? = some ch → ch.isDigit = false) :
    sanitize (s ++ "_" ++ toString v) ≠ b ++ sfx := by
  intro he
  obtain ⟨ch, hl, hd⟩ := sanitize_last_isDigit s v
  rw [he, String.data_append, List.getLast?_append] at hl
  obtain ⟨c2, hc2⟩ := getLast?_of_ne_nil hsfx
  rw [hc2] at hl
  have : c2 = ch := by simpa using hl
  rw [← this] at hd
  rw [hlast c2 hc2] at hd
  exact Bool.false_ne_true hd

/-! ## Infrastructure: python dict semantics of the row write log -/

theorem rowGet_append (r1 r2 : HRow) (k : ColName) :
    rowGet (r1 ++ r2) k = (rowGet r2 k).or (rowGet r1 k) := by
  unfold rowGet
  rw [List.reverse_append, List.find?_append]
  cases List.find? (fun p => p.1 == k) r2.reverse <;> simp

theorem rowGet_nil (k : ColName) : rowGet [] k = none := rfl

theorem rowGet_single (k k2 : ColName) (v : HVal) :
    rowGet [(k, v)] k2 = if k = k2 then some v else none := by
  unfold rowGet
  by_cases h : k = k2
  · simp [h]
  · have hb : (k == k2) = false := beq_eq_false_iff_ne.2 h
    simp [List.find?, hb, h]

theorem rowGet_eq_of_mem_unique (r : HRow) (k : ColName) (v : HVal)
    (hmem : (k, v) ∈ r) (huni : ∀ p ∈ r, p.1 = k → p.2 = v) :
    rowGet r k = some v := by
  unfold rowGet
  cases hf : List.find? (fun p => p.1 == k) r.reverse with
  | none =>
    exfalso
    have := List.find?_eq_none.1 hf (k, v) (List.mem_reverse.2 hmem)
    simp at this
  | some p =>
    have h1 : p.1 = k := by simpa using List.find?_some hf
    have h2 : p ∈ r := List.mem_reverse.1 (List.mem_of_find?_eq_some hf)
    simp [huni p h2 h1]

theorem rowGet_eq_none (r : HRow) (k : ColName)
    (h : ∀ p ∈ r, p.1 ≠ k) : rowGet r k = none := by
  unfold rowGet
  have hf : List.find? (fun p => p.1 == k) r.reverse = none := by
    rw [List.find?_eq_none]
    intro p hp
    simpa using h p (List.mem_reverse.1 hp)
  rw [hf]
  rfl

/-! ## Infrastructure: column accretion, ghost columns, filter lookups -/

theorem renameDups_sub_left (new : List ColName) :
    ∀ (acc : List ColName) (x : ColName), x ∈ acc → x ∈ renameDups acc new := by
  induction new with
  | nil => intro acc x h; exact h
  | cons y new ih =>
    intro acc x h
    exact ih (acc ++ [if y ∈ acc then y ++ "_1" else y]) x (List.mem_append_left _ h)

theorem renameDups_mem_new (new : List ColName) :
    ∀ (acc : List ColName) (x : ColName), x ∈ new → x ∈ renameDups acc new := by
  induction new with
  | nil => intro acc x h; simp at h
  | cons y new ih =>
    intro acc x h
    rcases List.mem_cons.1 h with rfl | h
    · by_cases hy : x ∈ acc
      · exact renameDups_sub_left new _ x (List.mem_append_left _ hy)
      · refine renameDups_sub_left new _ x (List.mem_append_right _ ?_)
        rw [if_neg hy]
        exact List.mem_singleton_self x
    · exact ih _ x h

theorem ghostFold_sub (cats : List String) :
    ∀ (cs : List ColName) (x : ColName), x ∈ cs → x ∈ cats.foldl ghostInsert cs := by
  induction cats with
  | nil => intro cs x h; exact h
  | cons ct cats ih =>
    intro cs x h
    refine ih (ghostInsert cs ct) x ?_
    unfold ghostInsert
    split_ifs
    · exact h
    · exact List.mem_append_left _ h

theorem ghostFold_mem (cats : List String) :
    ∀ (cs : List ColName) (x : ColName), x ∈ cats → x ∈ cats.foldl ghostInsert cs := by
  induction cats with
  | nil => intro cs x h; simp at h
  | cons ct cats ih =>
    intro cs x h
    rcases List.mem_cons.1 h with rfl | h
    · refine ghostFold_sub cats _ x ?_
      unfold ghostInsert
      split_ifs with hc
      · exact hc
      · exact List.mem_append_right _ (List.mem_singleton_self x)
    · exact ih _ x h

theorem addGhosts_sub (filters : List (String × List String)) :
    ∀ (cols : List ColName) (opt : List String) (x : ColName),
      x ∈ cols → x ∈ addGhosts cols filters opt := by
  induction filters with
  | nil => intro cols opt x h; exact h
  | cons p fs ih =>
    intro cols opt x h
    refine ih (if p.1 ∈ opt then p.2.foldl ghostInsert cols else cols) opt x ?_
    split_ifs
    · exact ghostFold_sub p.2 cols x h
    · exact h

theorem addGhosts_mem_of (filters : List (String × List String)) :
    ∀ (cols : List ColName) (opt : List String) (tbl : String) (cats : List String)
      (cat : String), (tbl, cats) ∈ filters → tbl ∈ opt → cat ∈ cats →
      cat ∈ addGhosts cols filters opt := by
  induction filters with
  | nil => intro cols opt tbl cats cat h; simp at h
  | cons p fs ih =>
    intro cols opt tbl cats cat hf ht hc
    rcases List.mem_cons.1 hf with he | hf
    · subst he
      refine addGhosts_sub fs _ opt cat ?_
      show cat ∈ (if tbl ∈ opt then cats.foldl ghostInsert cols else cols)
      rw [if_pos ht]
      exact ghostFold_mem cats cols cat hc
    · exact ih _ opt tbl cats cat hf ht hc

theorem addGhosts_filter_out (filters : List (String × List String)) :
    ∀ (cols : List ColName) (opt : List String) (tbl : String), tbl ∉ opt →
      addGhosts cols (filters.filter (fun p => !(p.1 == tbl))) opt
        = addGhosts cols filters opt := by
  induction filters with
  | nil => intro cols opt tbl _; rfl
  | cons p fs ih =>
    intro cols opt tbl h
    by_cases hp : p.1 = tbl
    · rw [List.filter_cons_of_neg (by simp [hp])]
      have hstep : (if p.1 ∈ opt then p.2.foldl ghostInsert cols else cols) = cols :=
        if_neg (hp ▸ h)
      show addGhosts cols (fs.filter _) opt
        = addGhosts (if p.1 ∈ opt then p.2.foldl ghostInsert cols else cols) fs opt
      rw [hstep]
      exact ih cols opt tbl h
    · rw [List.filter_cons_of_pos (by simp [hp])]
      show addGhosts (if p.1 ∈ opt then p.2.foldl ghostInsert cols else cols)
          (fs.filter _) opt
        = addGhosts (if p.1 ∈ opt then p.2.foldl ghostInsert cols else cols) fs opt
      exact ih _ opt tbl h

theorem filtersFor_filter_ne (filters : List (String × List String)) (tbl name : String)
    (h : name ≠ tbl) :
    filtersFor (filters.filter (fun p => !(p.1 == tbl))) name = filtersFor filters name := by
  unfold filtersFor
  congr 1
  induction filters with
  | nil => rfl
  | cons p fs ih =>
    by_cases hp : p.1 = tbl
    · rw [List.filter_cons_of_neg (by simp [hp])]
      have hn : (p.1 == name) = false := by
        rw [hp]
        exact beq_eq_false_iff_ne.2 (fun he => h he.symm)
      simp only [List.find?_cons, hn]
      exact ih
    · rw [List.filter_cons_of_pos (by simp [hp])]
      simp only [List.find?_cons]
      cases hm : (p.1 == name) with
      | true => simp [hm]
      | false => simp only [hm]; exact ih

theorem filterMap_congr_mem {α β : Type} (l : List α) (f g : α → Option β)
    (h : ∀ x ∈ l, f x = g x) : l.filterMap f = l.filterMap g := by
  induction l with
  | nil => rfl
  | cons a l ih =>
    rw [List.filterMap_cons, List.filterMap_cons, h a (List.mem_cons_self a l),
      ih (fun x hx => h x (List.mem_cons_of_mem a hx))]

/-! ## Infrastructure: tracing rows through the join pipeline -/

theorem mem_expandedRows {base : List (String × String)} {events : List (String × Int)}
    {r : WideRow} (h : r ∈ expandedRows base events) :
    ∃ bp ∈ base, (r = ⟨bp.1, bp.2, none, none, [], []⟩ ∨
      ∃ t ∈ hospEvents events bp.1, r = ⟨bp.1, bp.2, some t, none, [], []⟩) := by
  unfold expandedRows at h
  rw [mem_dedupF] at h
  obtain ⟨bp, hbp, hmem⟩ := List.mem_flatMap.1 h
  refine ⟨bp, hbp, ?_⟩
  split_ifs at hmem with hi
  · rw [List.mem_singleton] at hmem
    exact Or.inl hmem
  · obtain ⟨t, ht, he⟩ := List.mem_map.1 hmem
    exact Or.inr ⟨t, ht, he.symm⟩

theorem mem_joinAdt {adtF : List AdtRow} {rows : List WideRow} {r2 : WideRow}
    (h : r2 ∈ joinAdt adtF rows) :
    ∃ r1 ∈ rows, r2.hosp = r1.hosp ∧ r2.patient = r1.patient ∧ r2.et = r1.et ∧
      r2.pivots = r1.pivots ∧ r2.second = r1.second := by
  unfold joinAdt at h
  obtain ⟨r1, hr1, hmem⟩ := List.mem_flatMap.1 h
  refine ⟨r1, hr1, ?_⟩
  split_ifs at hmem with hi
  · rw [List.mem_singleton] at hmem
    subst hmem
    exact ⟨rfl, rfl, rfl, rfl, rfl⟩
  · obtain ⟨m, hm, he⟩ := List.mem_map.1 hmem
    subst he
    exact ⟨rfl, rfl, rfl, rfl, rfl⟩

theorem mem_joinPivots {ps : List (String × PivotTable)} :
    ∀ {rows : List WideRow} {r2 : WideRow}, r2 ∈ joinPivots ps rows →
      ∃ r1 ∈ rows, r2.hosp = r1.hosp ∧ r2.patient = r1.patient ∧ r2.et = r1.et ∧
        r2.adt = r1.adt ∧ r2.second = r1.second ∧
        r2.pivots = r1.pivots ++
          ps.map (fun np => (np.1, pivotMatch np.2 (rowCombo r1.hosp r1.et))) := by
  induction ps with
  | nil =>
    intro rows r2 h
    exact ⟨r2, h, rfl, rfl, rfl, rfl, rfl, by simp⟩
  | cons np ps ih =>
    intro rows r2 h
    obtain ⟨r1b, hr1b, q1, q2, q3, q4, q5, q6⟩ := ih h
    obtain ⟨r1, hr1, he⟩ := List.mem_map.1 hr1b
    subst he
    refine ⟨r1, hr1, q1, q2, q3, q4, q5, ?_⟩
    rw [q6]
    simp [List.append_assoc]

theorem mem_joinSecond {ss : List (String × OptTable × String)} :
    ∀ {rows : List WideRow} {r2 : WideRow}, r2 ∈ joinSecond ss rows →
      ∃ r1 ∈ rows, r2.hosp = r1.hosp ∧ r2.patient = r1.patient ∧ r2.et = r1.et ∧
        r2.adt = r1.adt ∧ r2.pivots = r1.pivots ∧
        ∀ nb ∈ r2.second, nb ∈ r1.second ∨ nb.2 = none ∨
          ∃ nts ∈ ss, ∃ m ∈ nts.2.1.rows, nb.2 = some m := by
  induction ss with
  | nil =>
    intro rows r2 h
    exact ⟨r2, h, rfl, rfl, rfl, rfl, rfl, fun nb hnb => Or.inl hnb⟩
  | cons nts ss ih =>
    intro rows r2 h
    obtain ⟨r1b, hr1b, q1, q2, q3, q4, q5, q6⟩ := ih h
    obtain ⟨r1, hr1, hmem⟩ := List.mem_flatMap.1 hr1b
    split_ifs at hmem with hi
    · rw [List.mem_singleton] at hmem
      subst hmem
      refine ⟨r1, hr1, q1, q2, q3, q4, q5, ?_⟩
      intro nb hnb
      rcases q6 nb hnb with hin | hrest
      · rcases List.mem_append.1 hin with hl | hl
        · exact Or.inl hl
        · rw [List.mem_singleton] at hl
          subst hl
          exact Or.inr (Or.inl rfl)
      · rcases hrest with hn | ⟨nts2, hnts2, hm⟩
        · exact Or.inr (Or.inl hn)
        · exact Or.inr (Or.inr ⟨nts2, List.mem_cons_of_mem _ hnts2, hm⟩)
    · obtain ⟨m, hm, he⟩ := List.mem_map.1 hmem
      subst he
      refine ⟨r1, hr1, q1, q2, q3, q4, q5, ?_⟩
      intro nb hnb
      rcases q6 nb hnb with hin | hrest
      · rcases List.mem_append.1 hin with hl | hl
        · exact Or.inl hl
        · rw [List.mem_singleton] at hl
          subst hl
          refine Or.inr (Or.inr ⟨nts, List.mem_cons_self _ _, m, ?_, rfl⟩)
          unfold secondMatches at hm
          cases hcb : rowCombo r1.hosp r1.et with
          | none => rw [hcb] at hm; simp at hm
          | some s =>
            rw [hcb] at hm
            exact List.mem_of_mem_filter hm
      · rcases hrest with hn | ⟨nts2, hnts2, hm2⟩
        · exact Or.inr (Or.inl hn)
        · exact Or.inr (Or.inr ⟨nts2, List.mem_cons_of_mem _ hnts2, hm2⟩)

/-- The keys of a pivot block are exactly the pivot category columns. -/
theorem pivotMatch_keys (t : OptTable) (tsCol catCol valCol : String)
    (filt : Option (List String)) (cb : Option String)
    (cells : List (ColName × Option Cell))
    (h : pivotMatch (pivotTable t tsCol catCol valCol filt) cb = some cells) :
    cells.map Prod.fst = pivotCatsOf t tsCol catCol valCol filt := by
  unfold pivotMatch at h
  cases cb with
  | none => simp at h
  | some s =>
    have h2 : ((pivotTable t tsCol catCol valCol filt).rows.find?
        (fun p => p.1 == s)).map Prod.snd = some cells := h
    cases hfind : (pivotTable t tsCol catCol valCol filt).rows.find? (fun p => p.1 == s) with
    | none => rw [hfind] at h2; simp at h2
    | some row =>
      rw [hfind] at h2
      have hcells : row.2 = cells := by simpa using h2
      have hrow := List.mem_of_find?_eq_some hfind
      unfold pivotTable at hrow
      obtain ⟨cb2, _, he⟩ := List.mem_map.1 hrow
      rw [← hcells, ← he]
      show (List.map _ (pivotCatsOf t tsCol catCol valCol filt)).map Prod.fst
        = pivotCatsOf t tsCol catCol valCol filt
      rw [List.map_map]
      exact List.map_id _

/-- Every pivoted table attached by the builder was produced by the
pivot query. -/
theorem mem_pivotAssocOf_exists (c : CLIFData) (opt : List String)
    (filters : List (String × List String)) (np : String × PivotTable)
    (h : np ∈ pivotAssocOf c opt filters) :
    ∃ t tsc catCol valCol, np.2 = pivotTable t tsc catCol valCol (filtersFor filters np.1) := by
  unfold pivotAssocOf at h
  rw [mem_dedupF] at h
  obtain ⟨p, hp, hpe⟩ := List.mem_filterMap.1 h
  cases hpv : p.pivoted with
  | none => rw [hpv] at hpe; simp at hpe
  | some pt =>
    rw [hpv] at hpe
    have hpe2 : (p.name, pt) = np := by simpa using hpe
    subst hpe2
    unfold preppedOf at hp
    obtain ⟨name, _, hprep⟩ := List.mem_filterMap.1 hp
    unfold prepTable at hprep
    cases hfind : (c.tables.find? (fun q => q.1 == name)).map Prod.snd with
    | none => rw [hfind] at hprep; simp at hprep
    | some t0 =>
      rw [hfind] at hprep
      have hprep2 : (match resolveTs name (cohortFilter t0 (requiredIdsOf c)).cols with
          | none => some (Prepped.mk name (cohortFilter t0 (requiredIdsOf c)) none none)
          | some tsc =>
            if tsc ∈ (cohortFilter t0 (requiredIdsOf c)).cols ∧ name ∈ pivotableNames then
              some (Prepped.mk name (cohortFilter t0 (requiredIdsOf c)) (some tsc)
                (tryPivot name (cohortFilter t0 (requiredIdsOf c)) tsc filters))
            else some (Prepped.mk name (cohortFilter t0 (requiredIdsOf c)) (some tsc) none))
          = some p := hprep
      clear hprep
      rename' hprep2 => hprep
      cases hts : resolveTs name (cohortFilter t0 (requiredIdsOf c)).cols with
      | none =>
        rw [hts] at hprep
        have hp2 : Prepped.mk name (cohortFilter t0 (requiredIdsOf c)) none none = p := by
          simpa using hprep
        rw [← hp2] at hpv
        simp at hpv
      | some tsc =>
        rw [hts] at hprep
        have hprep3 : (if tsc ∈ (cohortFilter t0 (requiredIdsOf c)).cols ∧
              name ∈ pivotableNames then
            some (Prepped.mk name (cohortFilter t0 (requiredIdsOf c)) (some tsc)
              (tryPivot name (cohortFilter t0 (requiredIdsOf c)) tsc filters))
          else some (Prepped.mk name (cohortFilter t0 (requiredIdsOf c)) (some tsc) none))
            = some p := hprep
        clear hprep
        rename' hprep3 => hprep
        split_ifs at hprep with hcond
        · have hp2 : Prepped.mk name (cohortFilter t0 (requiredIdsOf c)) (some tsc)
              (tryPivot name (cohortFilter t0 (requiredIdsOf c)) tsc filters) = p := by
            simpa using hprep
          rw [← hp2] at hpv
          simp only at hpv
          unfold tryPivot at hpv
          cases hcat : catColOf name with
          | none => rw [hcat] at hpv; simp at hpv
          | some catCol =>
            cases hval : valColOf name with
            | none => rw [hcat, hval] at hpv; simp at hpv
            | some valCol =>
              rw [hcat, hval] at hpv
              have hpv2 : (if catCol ∈ (cohortFilter t0 (requiredIdsOf c)).cols ∧
                    valCol ∈ (cohortFilter t0 (requiredIdsOf c)).cols then
                  some (pivotTable (cohortFilter t0 (requiredIdsOf c)) tsc catCol valCol
                    (filtersFor filters name))
                else none) = some pt := hpv
              clear hpv
              rename' hpv2 => hpv
              split_ifs at hpv with hcv
              · have hpt2 : pivotTable (cohortFilter t0 (requiredIdsOf c)) tsc catCol valCol
                    (filtersFor filters name) = pt := by simpa using hpv
                refine ⟨cohortFilter t0 (requiredIdsOf c), tsc, catCol, valCol, ?_⟩
                show pt = pivotTable _ _ _ _ (filtersFor filters p.name)
                rw [← hp2, ← hpt2]
        · have hp2 : Prepped.mk name (cohortFilter t0 (requiredIdsOf c)) (some tsc) none
              = p := by simpa using hprep
          rw [← hp2] at hpv
          simp at hpv

/-- The value of output column `c` at a final wide row: the named base
columns, then the pivoted category columns, then the second-pass raw
columns; `none` is a null cell (in particular every ghost column is
null everywhere). -/
def wideValue (fr : FinalRow) (c : ColName) : Option Cell :=
  if c = "hospitalization_id" then some (Cell.s fr.w.hosp)
  else if c = "patient_id" then some (Cell.s fr.w.patient)
  else if c = "event_time" then fr.w.et.map Cell.t
  else if c = "in_dttm" then (fr.w.adt.bind AdtRow.in_dttm).map Cell.t
  else if c = "location_category" then (fr.w.adt.bind AdtRow.location_category).map Cell.s
  else if c = "day_number" then some (Cell.v fr.day)
  else if c = "hosp_id_day_key" then some (Cell.s fr.key)
  else
    match fr.w.pivots.findSome? (fun np => np.2.bind (fun cells =>
      (cells.find? (fun pc => pc.1 == c)).bind Prod.snd)) with
    | some v => some v
    | none => fr.w.second.findSome? (fun ns => ns.2.bind (fun r => cellOf r c))

theorem joinedCols_base (c : CLIFData) (opt : List String)
    (filters : List (String × List String)) :
    "hospitalization_id" ∈ joinedColsOf c opt filters ∧
    "patient_id" ∈ joinedColsOf c opt filters ∧
    "event_time" ∈ joinedColsOf c opt filters ∧
    "combo_id" ∈ joinedColsOf c opt filters ∧
    "in_dttm" ∈ joinedColsOf c opt filters ∧
    "location_category" ∈ joinedColsOf c opt filters ∧
    "date" ∈ joinedColsOf c opt filters ∧
    "day_number" ∈ joinedColsOf c opt filters ∧
    "hosp_id_day_key" ∈ joinedColsOf c opt filters := by
  unfold joinedColsOf
  refine ⟨?_, ?_, ?_, ?_, ?_, ?_, ?_, ?_, ?_⟩
  · exact List.mem_append_left _ (renameDups_sub_left _ _ _
      (renameDups_sub_left _ _ _ (renameDups_sub_left _ _ _ (by simp))))
  · exact List.mem_append_left _ (renameDups_sub_left _ _ _
      (renameDups_sub_left _ _ _ (renameDups_sub_left _ _ _ (by simp))))
  · exact List.mem_append_left _ (renameDups_sub_left _ _ _
      (renameDups_sub_left _ _ _ (renameDups_sub_left _ _ _ (by simp))))
  · exact List.mem_append_left _ (renameDups_sub_left _ _ _
      (renameDups_sub_left _ _ _ (renameDups_sub_left _ _ _ (by simp))))
  · exact List.mem_append_left _ (renameDups_sub_left _ _ _
      (renameDups_sub_left _ _ _ (renameDups_mem_new _ _ _ (by simp [adtColNames]))))
  · exact List.mem_append_left _ (renameDups_sub_left _ _ _
      (renameDups_sub_left _ _ _ (renameDups_mem_new _ _ _ (by simp [adtColNames]))))
  · exact List.mem_append_right _ (by simp)
  · exact List.mem_append_right _ (by simp)
  · exact List.mem_append_right _ (by simp)

theorem pivot_cats_sub_joinedCols (c : CLIFData) (opt : List String)
    (filters : List (String × List String)) (np : String × PivotTable)
    (h : np ∈ pivotAssocOf c opt filters) (x : ColName) (hx : x ∈ np.2.cats) :
    x ∈ joinedColsOf c opt filters := by
  unfold joinedColsOf
  refine List.mem_append_left _ (renameDups_sub_left _ _ _ (renameDups_mem_new _ _ _ ?_))
  exact List.mem_flatMap.2 ⟨np, h, hx⟩

theorem second_cols_sub_joinedCols (c : CLIFData) (opt : List String)
    (filters : List (String × List String)) (nts : String × OptTable × String)
    (h : nts ∈ secondListOf c opt filters) (x : ColName) (hx : x ∈ nts.2.1.cols) :
    x ∈ joinedColsOf c opt filters := by
  unfold joinedColsOf
  exact List.mem_append_left _ (renameDups_mem_new _ _ _ (List.mem_flatMap.2 ⟨nts, h, hx⟩))

theorem tryPivot_congr (name : String) (t : OptTable) (tsc : String)
    (f1 f2 : List (String × List String)) (h : filtersFor f1 name = filtersFor f2 name) :
    tryPivot name t tsc f1 = tryPivot name t tsc f2 := by
  unfold tryPivot
  rw [h]

theorem prepTable_congr (c : CLIFData) (f1 f2 : List (String × List String))
    (rid : List String) (name : String)
    (h : filtersFor f1 name = filtersFor f2 name) :
    prepTable c f1 rid name = prepTable c f2 rid name := by
  unfold prepTable
  cases (c.tables.find? (fun q => q.1 == name)).map Prod.snd with
  | none => rfl
  | some t0 =>
    show (match resolveTs name (cohortFilter t0 rid).cols with
      | none => some (Prepped.mk name (cohortFilter t0 rid) none none)
      | some tsc =>
        if tsc ∈ (cohortFilter t0 rid).cols ∧ name ∈ pivotableNames then
          some (Prepped.mk name (cohortFilter t0 rid) (some tsc)
            (tryPivot name (cohortFilter t0 rid) tsc f1))
        else some (Prepped.mk name (cohortFilter t0 rid) (some tsc) none))
      = (match resolveTs name (cohortFilter t0 rid).cols with
      | none => some (Prepped.mk name (cohortFilter t0 rid) none none)
      | some tsc =>
        if tsc ∈ (cohortFilter t0 rid).cols ∧ name ∈ pivotableNames then
          some (Prepped.mk name (cohortFilter t0 rid) (some tsc)
            (tryPivot name (cohortFilter t0 rid) tsc f2))
        else some (Prepped.mk name (cohortFilter t0 rid) (some tsc) none))
    cases resolveTs name (cohortFilter t0 rid).cols with
    | none => rfl
    | some tsc =>
      show (if tsc ∈ (cohortFilter t0 rid).cols ∧ name ∈ pivotableNames then
          some (Prepped.mk name (cohortFilter t0 rid) (some tsc)
            (tryPivot name (cohortFilter t0 rid) tsc f1))
        else some (Prepped.mk name (cohortFilter t0 rid) (some tsc) none))
        = (if tsc ∈ (cohortFilter t0 rid).cols ∧ name ∈ pivotableNames then
          some (Prepped.mk name (cohortFilter t0 rid) (some tsc)
            (tryPivot name (cohortFilter t0 rid) tsc f2))
        else some (Prepped.mk name (cohortFilter t0 rid) (some tsc) none))
      split_ifs with hc
      · rw [tryPivot_congr name (cohortFilter t0 rid) tsc f1 f2 h]
      · rfl

theorem create_wide_filter_out (c : CLIFData) (opt : List String)
    (filters : List (String × List String)) (tbl : String) (h : tbl ∉ opt) :
    create_wide_dataset c opt (filters.filter (fun p => !(p.1 == tbl)))
      = create_wide_dataset c opt filters := by
  have hprep : preppedOf c opt (filters.filter (fun p => !(p.1 == tbl)))
      = preppedOf c opt filters := by
    unfold preppedOf
    refine filterMap_congr_mem opt _ _ ?_
    intro name hn
    exact prepTable_congr c _ filters (requiredIdsOf c) name
      (filtersFor_filter_ne filters tbl name (fun he => h (he ▸ hn)))
  have hpa : pivotAssocOf c opt (filters.filter (fun p => !(p.1 == tbl)))
      = pivotAssocOf c opt filters := by
    unfold pivotAssocOf
    rw [hprep]
  have hsl : secondListOf c opt (filters.filter (fun p => !(p.1 == tbl)))
      = secondListOf c opt filters := by
    unfold secondListOf
    rw [hprep]
  have hev : eventsOf c opt (filters.filter (fun p => !(p.1 == tbl)))
      = eventsOf c opt filters := by
    unfold eventsOf
    rw [hprep]
  have hjo : joinedOf c opt (filters.filter (fun p => !(p.1 == tbl)))
      = joinedOf c opt filters := by
    unfold joinedOf
    rw [hsl, hpa, hev]
  have hjc : joinedColsOf c opt (filters.filter (fun p => !(p.1 == tbl)))
      = joinedColsOf c opt filters := by
    unfold joinedColsOf
    rw [hpa, hsl]
  have hfr : finalRowsOf c opt (filters.filter (fun p => !(p.1 == tbl)))
      = finalRowsOf c opt filters := by
    unfold finalRowsOf
    rw [hjo]
  have hfc : finalColsOf c opt (filters.filter (fun p => !(p.1 == tbl)))
      = finalColsOf c opt filters := by
    unfold finalColsOf
    rw [hjc, addGhosts_filter_out filters _ opt tbl h]
  unfold create_wide_dataset
  rw [hsl, hjo, hfc, hfr]

/-! ## Statement-support definitions -/

/-- The hourly frame of a successful aggregation (empty on error). -/
def outOf (co : ConvOut) : HourlyDF :=
  match co.res with
  | Except.ok o => o
  | Except.error _ => ⟨[], []⟩

/-- The `nth_hour` values of one hospitalization, in output row order. -/
def nthList (out : HourlyDF) (h : Nat) : List ℚ :=
  out.rows.filterMap (fun r =>
    match rowGet r "hospitalization_id", rowGet r "nth_hour" with
    | some (HVal.nat h2), some (HVal.num q) => if h2 = h then some q else none
    | _, _ => none)

/-- The (non-null) `event_time` values of one hospitalization in the
wide input. -/
def etList (df : WideDF) (h : Nat) : List Int :=
  (df.rows.filter (fun r => r.hosp == h)).filterMap (fun r => r.et)

/-- Dict lookup into an aggregation config. -/
def lookupCfg (cfg : AggConfig) (m : String) : Option (List ColName) :=
  (cfg.find? (fun p => p.1 == m)).map Prod.snd

theorem sortedKeys_eq_nil_iff (df : WideDF) : sortedKeys df = [] ↔ df.rows = [] := by
  constructor
  · intro h
    by_contra hne
    obtain ⟨r, hr⟩ := List.exists_mem_of_ne_nil df.rows hne
    have hm : rowKey r ∈ sortedKeys df := by
      unfold sortedKeys
      rw [List.mem_insertionSort, mem_dedupF]
      exact List.mem_map_of_mem rowKey hr
    rw [h] at hm
    simp at hm
  · intro h
    unfold sortedKeys
    rw [h]
    rfl

/-! ## Claim C3 -/

def C3df : WideDF := ⟨["hospitalization_id", "event_time", "day_number"], []⟩

/-- C3: the claim (and the spec) say a zero-row wide input with the
required columns yields an empty result carrying the output schema. The
code instead fails: with no rows the aggregation list is empty,
`pd.DataFrame([])` carries no columns at all, and
`sort_values(['hospitalization_id', 'nth_hour'])` raises `KeyError`. The
embedding returns exactly that error on the empty frame. -/
theorem C3_empty_input_raises :
    (convert_wide_to_hourly C3df []).res = Except.error "KeyError: hospitalization_id" := by
  decide

/-! ## Claim C8 -/

def C8labs : OptTable := ⟨["hospitalization_id", "lab_category", "lab_value_numeric"],
  [⟨"H1", [("lab_category", some (Cell.s "ph")), ("lab_value_numeric", some (Cell.v 7))]⟩]⟩

def C8data : CLIFData :=
  ⟨["P1"], [("H1", "P1")], [⟨"H1", some 30000, some "icu"⟩], [("labs", C8labs)]⟩

/-- C8: the fallback order for the labs timestamp column is as claimed
(`lab_result_dttm`, then `lab_collect_dttm`, then `recorded_dttm`, then
`lab_order_dttm`); but when none of the four is present the build does
not continue: the source still interpolates the absent `lab_result_dttm`
into the fallback join CTE (lines 218-232), and executing the join query
fails, so `create_wide_dataset` raises instead of proceeding without
labs. -/
theorem C8_labs_timestamp_resolution :
    resolveTs "labs" ["lab_result_dttm", "lab_collect_dttm", "recorded_dttm", "lab_order_dttm"]
      = some "lab_result_dttm" ∧
    resolveTs "labs" ["lab_collect_dttm", "recorded_dttm", "lab_order_dttm"]
      = some "lab_collect_dttm" ∧
    resolveTs "labs" ["recorded_dttm", "lab_order_dttm"] = some "recorded_dttm" ∧
    resolveTs "labs" ["lab_order_dttm"] = some "lab_order_dttm" ∧
    create_wide_dataset C8data ["labs"] []
      = WideResult.err "Binder Error: column not found in second-pass join" := by
  decide

/-! ## Claim C2, counterexample part -/

def C2df : WideDF := ⟨["hospitalization_id", "event_time", "day_number"],
  [⟨1, some 39000, [("day_number", some 1)]⟩, ⟨1, some 40200, [("day_number", some 1)]⟩]⟩

/-- C2 counterexample: with events at 10:50 and 11:10 the hour buckets
are 10:00 and 11:00, so `nth_hour` takes the values 0 and 1 and its
maximum is 1; but the claimed formula
`floor((max event_time - min event_time) / 1h) = floor(20min / 1h) = 0`.
The maximum `nth_hour` is the difference of the hour-floors, not the
floor of the difference. -/
theorem C2_counterexample :
    nthList (outOf (convert_wide_to_hourly C2df [])) 1 = [0, 1] ∧
    Int.fdiv (maxList (etList C2df 1) - minList (etList C2df 1)) 3600 = 0 := by
  decide

/-! ## Claim C4 -/

def C4df : WideDF := ⟨["day_number", "event_time", "hospitalization_id"], []⟩

def C4cfg : AggConfig := [("mean", ["x"])]

/-- C4 counterexample: a zero-row frame that does contain all three
required columns still makes `convert_wide_to_hourly` abort (the empty
result frame has no columns and the final sort raises), so the abort
condition is not exactly "a required column is missing". -/
theorem C4_counterexample :
    ("event_time" ∈ C4df.cols ∧ "hospitalization_id" ∈ C4df.cols ∧
      "day_number" ∈ C4df.cols) ∧
    (convert_wide_to_hourly C4df C4cfg).res.isOk = false := by
  decide

/-! ## Claim C7 -/

/-- C7: for every `(source, category)` pair requested in
`category_filters`: when the source is in `optional_tables` and no column
with the category name exists in the joined frame, the final output
carries a column of that name whose value is null on every row; when the
source is not in `optional_tables`, dropping its filter entries leaves
the result unchanged (the entry has no effect). The second-pass frames
are assumed schema-consistent (cells keyed by schema columns). -/
theorem C7_ghost_columns (c : CLIFData) (opt : List String)
    (filters : List (String × List String)) (tbl : String) (cats : List String)
    (cat : String) (out : WideOut)
    (hres : create_wide_dataset c opt filters = WideResult.ok out)
    (hf : (tbl, cats) ∈ filters) (hcat : cat ∈ cats)
    (hwf : ∀ nts ∈ secondListOf c opt filters, ∀ r ∈ nts.2.1.rows, ∀ pc ∈ r.cells,
      pc.1 ∈ nts.2.1.cols) :
    (tbl ∈ opt → cat ∉ joinedColsOf c opt filters →
      cat ∈ out.cols ∧ ∀ fr ∈ out.rows, wideValue fr cat = none) ∧
    (tbl ∉ opt →
      create_wide_dataset c opt (filters.filter (fun p => !(p.1 == tbl)))
        = WideResult.ok out) := by
  constructor
  · intro ht hjcol
    obtain hbase := joinedCols_base c opt filters
    unfold create_wide_dataset at hres
    split_ifs at hres with hb1 hb2
    injection hres with hres2
    subst hres2
    constructor
    · show cat ∈ finalColsOf c opt filters
      unfold finalColsOf
      rw [List.mem_filter]
      refine ⟨addGhosts_mem_of filters _ opt tbl cats cat hf ht hcat, ?_⟩
      rw [decide_eq_true_iff]
      intro hmem
      simp only [List.mem_cons, List.not_mem_nil, or_false, List.mem_singleton] at hmem
      rcases hmem with he | he
      · exact hjcol (he ▸ hbase.2.2.2.1)
      · exact hjcol (he ▸ hbase.2.2.2.2.2.2.1)
    · intro fr hfr
      have h1 : cat ≠ "hospitalization_id" := fun he => hjcol (he ▸ hbase.1)
      have h2 : cat ≠ "patient_id" := fun he => hjcol (he ▸ hbase.2.1)
      have h3 : cat ≠ "event_time" := fun he => hjcol (he ▸ hbase.2.2.1)
      have h4 : cat ≠ "in_dttm" := fun he => hjcol (he ▸ hbase.2.2.2.2.1)
      have h5 : cat ≠ "location_category" := fun he => hjcol (he ▸ hbase.2.2.2.2.2.1)
      have h6 : cat ≠ "day_number" := fun he => hjcol (he ▸ hbase.2.2.2.2.2.2.2.1)
      have h7 : cat ≠ "hosp_id_day_key" := fun he => hjcol (he ▸ hbase.2.2.2.2.2.2.2.2)
      show wideValue fr cat = none
      unfold finalRowsOf at hfr
      obtain ⟨r, hr, hfre⟩ := List.mem_map.1 hfr
      have hrj : r ∈ joinedOf c opt filters := (List.mem_insertionSort wrowLE).1 hr
      subst hfre
      unfold joinedOf at hrj
      rw [mem_dedupF] at hrj
      obtain ⟨r1, hr1, _, _, _, _, q5, q6⟩ := mem_joinSecond hrj
      obtain ⟨r2, hr2, _, _, _, _, p5, p6⟩ := mem_joinPivots hr1
      obtain ⟨r3, hr3, _, _, _, a4, a5⟩ := mem_joinAdt hr2
      obtain ⟨bp, _, hcase⟩ := mem_expandedRows hr3
      have hr3p : r3.pivots = [] := by
        rcases hcase with he3 | ⟨t, _, he3⟩ <;> rw [he3]
      have hr3s : r3.second = [] := by
        rcases hcase with he3 | ⟨t, _, he3⟩ <;> rw [he3]
      unfold wideValue
      rw [if_neg h1, if_neg h2, if_neg h3, if_neg h4, if_neg h5,
        if_neg h6, if_neg h7]
      have hpivnone : (FinalRow.mk r (dayNumber (joinedOf c opt filters) r.hosp (r.et.getD 0))
          (r.hosp ++ "_day_" ++ toString (dayNumber (joinedOf c opt filters) r.hosp
            (r.et.getD 0)))).w.pivots.findSome?
          (fun np => np.2.bind (fun cells =>
            (cells.find? (fun pc => pc.1 == cat)).bind Prod.snd)) = none := by
        show r.pivots.findSome? _ = none
        rw [List.findSome?_eq_none_iff]
        intro nb hnb
        rw [q5, p6, a4, hr3p, List.nil_append] at hnb
        obtain ⟨np, hnp, he⟩ := List.mem_map.1 hnb
        subst he
        show (pivotMatch np.2 (rowCombo r2.hosp r2.et)).bind _ = none
        cases hpm : pivotMatch np.2 (rowCombo r2.hosp r2.et) with
        | none => rfl
        | some cells =>
          show (cells.find? (fun pc => pc.1 == cat)).bind Prod.snd = none
          have hfind : cells.find? (fun pc => pc.1 == cat) = none := by
            rw [List.find?_eq_none]
            intro pc hpc
            have hkey : pc.1 ∈ np.2.cats := by
              obtain ⟨t, tsc, catCol, valCol, hform⟩ :=
                mem_pivotAssocOf_exists c opt filters np hnp
              rw [hform] at hpm
              have := pivotMatch_keys t tsc catCol valCol _ _ cells hpm
              rw [hform]
              show pc.1 ∈ (pivotTable t tsc catCol valCol (filtersFor filters np.1)).cats
              unfold pivotTable
              rw [← this]
              exact List.mem_map_of_mem Prod.fst hpc
            intro hbeq
            have : pc.1 = cat := by simpa using hbeq
            exact hjcol (this ▸ pivot_cats_sub_joinedCols c opt filters np hnp pc.1 hkey)
          rw [hfind]
          rfl
      rw [hpivnone]
      show (FinalRow.mk r _ _).w.second.findSome?
        (fun ns => ns.2.bind (fun rr => cellOf rr cat)) = none
      rw [List.findSome?_eq_none_iff]
      intro ns hns
      have hns2 := q6 ns hns
      rw [p5, a5, hr3s] at hns2
      rcases hns2 with hin | hnone | ⟨nts, hnts, m, hm, hsome⟩
      · simp at hin
      · rw [hnone]
        rfl
      · rw [hsome]
        show cellOf m cat = none
        unfold cellOf
        have hfind : m.cells.find? (fun pc => pc.1 == cat) = none := by
          rw [List.find?_eq_none]
          intro pc hpc hbeq
          have hpc1 : pc.1 = cat := by simpa using hbeq
          have hkey := hwf nts hnts m hm pc hpc
          exact hjcol (hpc1 ▸ second_cols_sub_joinedCols c opt filters nts hnts pc.1 hkey)
        rw [hfind]
  · intro ht
    rw [create_wide_filter_out c opt filters tbl ht]
    exact hres

def C7vitals : OptTable := ⟨["hospitalization_id", "recorded_dttm", "vital_category", "vital_value"],
  [⟨"H1", [("recorded_dttm", some (Cell.t 36000)), ("vital_category", some (Cell.s "heart_rate")),
    ("vital_value", some (Cell.v 80))]⟩]⟩

def C7data : CLIFData :=
  ⟨["P1"], [("H1", "P1")], [⟨"H1", some 30000, some "icu"⟩], [("vitals", C7vitals)]⟩

def C7filters : List (String × List String) :=
  [("vitals", ["heart_rate", "map"]), ("labs", ["ph"])]

def C7out : WideOut :=
  match create_wide_dataset C7data ["vitals"] C7filters with
  | WideResult.ok o => o
  | _ => ⟨[], []⟩

theorem C7_witness :
    "map" ∈ C7out.cols ∧
    wideValue (C7out.rows.headD ⟨⟨"", "", none, none, [], []⟩, 0, ""⟩) "map" = none := by
  have hres : create_wide_dataset C7data ["vitals"] C7filters = WideResult.ok C7out := rfl
  have hlen : C7out.rows.length = 2 := rfl
  have h := (C7_ghost_columns C7data ["vitals"] C7filters "vitals" ["heart_rate", "map"]
    "map" C7out hres (by decide) (by decide) (by decide)).1 (by decide) (by decide)
  refine ⟨h.1, h.2 _ ?_⟩
  cases hc : C7out.rows with
  | nil => rw [hc] at hlen; exact absurd hlen (by decide)
  | cons a l => exact List.mem_cons_self a l

/-! ## Claim C9 -/

theorem lookupCfg_map_first (cfg : AggConfig) (na : List ColName) :
    lookupCfg (cfg.map (fun p => if p.1 == "first" then (p.1, p.2 ++ na) else p)) "first"
      = (lookupCfg cfg "first").map (fun l => l ++ na) := by
  induction cfg with
  | nil => rfl
  | cons p cfg ih =>
    by_cases hp : p.1 = "first"
    · simp [lookupCfg, List.find?, hp]
    · have hb : (p.1 == "first") = false := beq_eq_false_iff_ne.2 hp
      simp only [List.map_cons, hb, if_false, lookupCfg, List.find?, Bool.false_eq_true]
      exact ih

theorem lookupCfg_append_absent (cfg : AggConfig) (e : String × List ColName)
    (h : cfg.all (fun p => !(p.1 == e.1)) = true) :
    lookupCfg (cfg ++ [e]) e.1 = some e.2 := by
  unfold lookupCfg
  rw [List.find?_append]
  have hn : cfg.find? (fun p => p.1 == e.1) = none := by
    rw [List.find?_eq_none]
    intro p hp
    have := List.all_eq_true.1 h p hp
    simp at this
    simp [this]
  rw [hn]
  simp [List.find?]

/-- C9: `convert_wide_to_hourly` mutates the caller's
`aggregation_config` in place. Once the input validation and the
`nth_hour` cast pass, the config the caller holds afterwards maps
`"first"` to its previous list extended by every wide column not named
in the config and not a grouping or carried column; whenever such
columns exist the dictionary differs from what was passed, and when none
exist it is untouched. -/
theorem C9_config_mutated_in_place (df : WideDF) (cfg : AggConfig)
    (h1 : "event_time" ∈ df.cols) (h2 : "hospitalization_id" ∈ df.cols)
    (h3 : "day_number" ∈ df.cols) (h4 : ∀ r ∈ df.rows, r.et ≠ none) :
    (nonAggCols df cfg ≠ [] →
      lookupCfg (convert_wide_to_hourly df cfg).cfg "first"
          = some ((lookupCfg cfg "first").getD [] ++ nonAggCols df cfg) ∧
      (convert_wide_to_hourly df cfg).cfg ≠ cfg) ∧
    (nonAggCols df cfg = [] → (convert_wide_to_hourly df cfg).cfg = cfg) := by
  have hcfg : (convert_wide_to_hourly df cfg).cfg = updateConfig df cfg := by
    have h4b : ¬ (df.rows.any fun r => r.et.isNone) = true := by
      intro hc
      obtain ⟨r, hr, hn⟩ := List.any_eq_true.1 hc
      exact h4 r hr (Option.isNone_iff_eq_none.1 hn)
    unfold convert_wide_to_hourly
    rw [if_neg (not_not_intro h1), if_neg (not_not_intro h2), if_neg (not_not_intro h3),
      if_neg h4b]
    split_ifs <;> rfl
  constructor
  · intro hna
    have hne : (nonAggCols df cfg).isEmpty = false := by
      rw [List.isEmpty_eq_false_iff_exists_mem]
      exact List.exists_mem_of_ne_nil _ hna
    constructor
    · rw [hcfg]
      unfold updateConfig
      rw [hne]
      simp only [Bool.false_eq_true, if_false]
      by_cases hf : cfg.any (fun p => p.1 == "first") = true
      · rw [if_pos hf]
        rw [lookupCfg_map_first cfg (nonAggCols df cfg)]
        obtain ⟨p, hp, hpf⟩ := List.any_eq_true.1 hf
        have hpf2 : p.1 = "first" := by simpa using hpf
        have : (lookupCfg cfg "first").isSome = true := by
          unfold lookupCfg
          cases hfind : cfg.find? (fun q => q.1 == "first") with
          | some q => simp
          | none =>
            have hno := List.find?_eq_none.1 hfind p hp
            rw [hpf2] at hno
            simp at hno
        obtain ⟨l, hl⟩ := Option.isSome_iff_exists.1 this
        rw [hl]
        simp
      · rw [if_neg hf]
        have hall : cfg.all (fun p => !(p.1 == "first")) = true := by
          rw [List.all_eq_true]
          intro p hp
          by_contra hc
          exact hf (List.any_eq_true.2 ⟨p, hp, by simpa using hc⟩)
        have hlk : lookupCfg cfg "first" = none := by
          unfold lookupCfg
          have hn : cfg.find? (fun p => p.1 == "first") = none := by
            rw [List.find?_eq_none]
            intro p hp
            have := List.all_eq_true.1 hall p hp
            simpa using this
          rw [hn]
          rfl
        rw [lookupCfg_append_absent cfg ("first", nonAggCols df cfg) hall, hlk]
        simp
    · intro he
      rw [hcfg] at he
      -- compare the "first" entries of the mutated and original configs
      unfold updateConfig at he
      rw [hne] at he
      simp only [Bool.false_eq_true, if_false] at he
      by_cases hf : cfg.any (fun p => p.1 == "first") = true
      · rw [if_pos hf] at he
        have h2 : lookupCfg (cfg.map
              (fun p => if p.1 == "first" then (p.1, p.2 ++ nonAggCols df cfg) else p)) "first"
            = lookupCfg cfg "first" := congrArg (fun x => lookupCfg x "first") he
        rw [lookupCfg_map_first cfg (nonAggCols df cfg)] at h2
        obtain ⟨p, hp, hpf⟩ := List.any_eq_true.1 hf
        have hpf2 : p.1 = "first" := by simpa using hpf
        have hsome : (lookupCfg cfg "first").isSome = true := by
          unfold lookupCfg
          cases hfind : cfg.find? (fun q => q.1 == "first") with
          | some q => simp
          | none =>
            have hno := List.find?_eq_none.1 hfind p hp
            rw [hpf2] at hno
            simp at hno
        obtain ⟨l, hl⟩ := Option.isSome_iff_exists.1 hsome
        rw [hl] at h2
        have h3 : l ++ nonAggCols df cfg = l := by simpa using h2
        have hlen : l.length + (nonAggCols df cfg).length = l.length := by
          simpa [List.length_append] using congrArg List.length h3
        have hz : (nonAggCols df cfg).length = 0 := by omega
        exact hna (List.eq_nil_of_length_eq_zero hz)
      · rw [if_neg hf] at he
        have hlen := congrArg List.length he
        simp at hlen
  · intro hna
    rw [hcfg]
    unfold updateConfig
    have : (nonAggCols df cfg).isEmpty = true := by rw [hna]; rfl
    rw [this]
    simp

def C9df : WideDF := ⟨["hospitalization_id", "event_time", "day_number", "foo"],
  [⟨1, some 0, [("foo", some 2)]⟩]⟩

def C9cfg : AggConfig := [("max", ["bar"])]

theorem C9_witness :
    lookupCfg (convert_wide_to_hourly C9df C9cfg).cfg "first" = some ["foo"] ∧
    (convert_wide_to_hourly C9df C9cfg).cfg ≠ C9cfg := by
  have h := (C9_config_mutated_in_place C9df C9cfg (by decide) (by decide) (by decide)
    (by decide)).1 (by decide)
  exact ⟨by rw [h.1]; decide, h.2⟩

/-! ## Claim C5: the `boolean` reduction -/

theorem rowGet_fillRowFor (k key : ColName) (r : HRow) :
    rowGet (fillRowFor k r) key =
      if k = key then some (fillVal (rowGet r k)) else rowGet r key := by
  unfold fillRowFor
  rw [rowGet_append, rowGet_single]
  by_cases h : k = key
  · simp [h]
  · simp [h]

/-- `truncRat` is the identity on integral rationals. -/
theorem truncRat_intCast (n : Int) : truncRat ((n : Int) : ℚ) = n := by
  unfold truncRat
  rw [Rat.num_intCast, Rat.den_intCast]
  simp

/-- The fill pass never changes a cell that already holds an integral
number: `fillna(0)` skips non-null cells and `astype(int)` fixes
integers. -/
theorem fillAll_preserves_int (ks : List ColName) (r : HRow) (key : ColName) (q : ℚ)
    (hq : ((truncRat q : Int) : ℚ) = q)
    (h : rowGet r key = some (HVal.num q)) :
    rowGet (fillAll ks r) key = some (HVal.num q) := by
  induction ks generalizing r with
  | nil => exact h
  | cons k ks ih =>
    show rowGet (fillAll ks (fillRowFor k r)) key = some (HVal.num q)
    apply ih
    rw [rowGet_fillRowFor]
    by_cases hk : k = key
    · subst hk
      rw [if_pos rfl, h]
      show some (HVal.num ((truncRat q : Int) : ℚ)) = some (HVal.num q)
      rw [hq]
    · rw [if_neg hk]
      exact h

theorem foldl_map_fill (ks : List ColName) (rs : List HRow) :
    ks.foldl (fun rs k => rs.map (fillRowFor k)) rs = rs.map (fillAll ks) := by
  induction ks generalizing rs with
  | nil =>
    show rs = rs.map (fillAll [])
    have : rs.map (fillAll []) = rs.map id := rfl
    rw [this, List.map_id]
  | cons k ks ih =>
    show ks.foldl _ (rs.map (fillRowFor k)) = rs.map (fillAll (k :: ks))
    rw [ih, List.map_map]
    have : fillAll ks ∘ fillRowFor k = fillAll (k :: ks) := funext (fun r => rfl)
    rw [this]

/-- The column-by-column fill loop is the same as filling each row with
the whole column list. -/
theorem hourlyRowsOf_eq (df : WideDF) (cfg : AggConfig) :
    hourlyRowsOf df cfg =
      (List.insertionSort hrowLE (builtRowsOf df cfg)).map
        (fillAll (oneHotFillCols (updateConfig df cfg) (hourlyColsOf df cfg))) := by
  unfold hourlyRowsOf
  exact foldl_map_fill _ _

/-- For a wide column that is neither synthetic nor `event_time`, the
working-frame value is the input cell. -/
theorem getVal_eq_cellVal (df : WideDF) (r : WRow) (c : ColName)
    (h1 : c ∉ syntheticCols) (h2 : c ≠ "event_time") :
    getVal df r c = cellVal r c := by
  have e1 : c ≠ "event_time_hour" := by
    intro he; exact h1 (by rw [he]; decide)
  have e2 : c ≠ "first_event_hour" := by
    intro he; exact h1 (by rw [he]; decide)
  have e3 : c ≠ "nth_hour" := by
    intro he; exact h1 (by rw [he]; decide)
  have e4 : c ≠ "hour_bucket" := by
    intro he; exact h1 (by rw [he]; decide)
  unfold getVal
  rw [if_neg e1, if_neg e2, if_neg e3, if_neg e4, if_neg h2]

/-- A config entry whose method is not `first` survives the in-place
update untouched. -/
theorem mem_updateConfig_of_ne_first (df : WideDF) (cfg : AggConfig)
    (p : String × List ColName) (hp : p ∈ cfg) (hne : p.1 ≠ "first") :
    p ∈ updateConfig df cfg := by
  unfold updateConfig
  split_ifs with h1 h2
  · exact hp
  · have hfp := List.mem_map_of_mem
      (fun q => if q.1 == "first" then (q.1, q.2 ++ nonAggCols df cfg) else q) hp
    simpa [beq_eq_false_iff_ne.2 hne] using hfp
  · exact List.mem_append_left _ hp

theorem ne_boolean_key_of_rev (c b sfx : String)
    (h1 : ¬ sfx.data.reverse <+: "_boolean".data.reverse)
    (h2 : ¬ ("_boolean" : String).data.reverse <+: sfx.data.reverse) :
    c ++ sfx ≠ b ++ "_boolean" :=
  string_append_ne_append sfx "_boolean" h1 h2 c b

/-- Every write an aggregation entry makes on the key `b + "_boolean"`
carries the boolean indicator of `b` for that group: the key is reachable
only through the `boolean` method on column `b` itself. -/
theorem aggWrites_at_boolean (df : WideDF) (na : List ColName) (g : List WRow)
    (m : String) (c : ColName) (b : ColName) (p : ColName × HVal)
    (hp : p ∈ aggWrites df na g m c) (hk : p.1 = b ++ "_boolean") :
    p.2 = HVal.num (if (colValues df g b).isEmpty then 0 else 1) := by
  unfold aggWrites at hp
  by_cases hc : c ∈ availCols df
  · rw [if_pos hc] at hp
    simp only [] at hp
    by_cases h1 : m = "max"
    · rw [if_pos h1, List.mem_singleton] at hp
      have hk2 : c ++ "_max" = b ++ "_boolean" := by rw [hp] at hk; exact hk
      exact absurd hk2 (ne_boolean_key_of_rev c b "_max" (by decide) (by decide))
    rw [if_neg h1] at hp
    by_cases h2 : m = "min"
    · rw [if_pos h2, List.mem_singleton] at hp
      have hk2 : c ++ "_min" = b ++ "_boolean" := by rw [hp] at hk; exact hk
      exact absurd hk2 (ne_boolean_key_of_rev c b "_min" (by decide) (by decide))
    rw [if_neg h2] at hp
    by_cases h3 : m = "mean"
    · rw [if_pos h3, List.mem_singleton] at hp
      have hk2 : c ++ "_mean" = b ++ "_boolean" := by rw [hp] at hk; exact hk
      exact absurd hk2 (ne_boolean_key_of_rev c b "_mean" (by decide) (by decide))
    rw [if_neg h3] at hp
    by_cases h4 : m = "median"
    · rw [if_pos h4, List.mem_singleton] at hp
      have hk2 : c ++ "_median" = b ++ "_boolean" := by rw [hp] at hk; exact hk
      exact absurd hk2 (ne_boolean_key_of_rev c b "_median" (by decide) (by decide))
    rw [if_neg h4] at hp
    by_cases h5 : m = "first"
    · rw [if_pos h5] at hp
      by_cases h6 : c ∈ na
      · rw [if_pos h6, List.mem_singleton] at hp
        have hk2 : c ++ "_c" = b ++ "_boolean" := by rw [hp] at hk; exact hk
        exact absurd hk2 (ne_boolean_key_of_rev c b "_c" (by decide) (by decide))
      · rw [if_neg h6, List.mem_singleton] at hp
        have hk2 : c ++ "_first" = b ++ "_boolean" := by rw [hp] at hk; exact hk
        exact absurd hk2 (ne_boolean_key_of_rev c b "_first" (by decide) (by decide))
    rw [if_neg h5] at hp
    by_cases h7 : m = "last"
    · rw [if_pos h7, List.mem_singleton] at hp
      have hk2 : c ++ "_last" = b ++ "_boolean" := by rw [hp] at hk; exact hk
      exact absurd hk2 (ne_boolean_key_of_rev c b "_last" (by decide) (by decide))
    rw [if_neg h7] at hp
    by_cases h8 : m = "boolean"
    · rw [if_pos h8, List.mem_singleton] at hp
      have hk2 : c ++ "_boolean" = b ++ "_boolean" := by rw [hp] at hk; exact hk
      have hcb : c = b := string_append_right_cancel hk2
      rw [hp]
      show HVal.num (if (colValues df g c).isEmpty then 0 else 1) = _
      rw [hcb]
    rw [if_neg h8] at hp
    by_cases h9 : m = "one_hot_encode"
    · rw [if_pos h9] at hp
      obtain ⟨v, hv, he⟩ := List.mem_map.1 hp
      have hk2 : sanitize (c ++ "_" ++ toString v) = b ++ "_boolean" := by
        rw [← he] at hk; exact hk
      refine absurd hk2 (oneHot_key_ne_suffix c v b "_boolean" (by decide) ?_)
      intro ch hch
      have h3 : ("_boolean" : String).data.getLast? = some 'n' := by decide
      rw [h3] at hch
      injection hch with h4
      rw [← h4]
      decide
    rw [if_neg h9] at hp
    exact absurd hp (List.not_mem_nil p)
  · rw [if_neg hc] at hp
    exact absurd hp (List.not_mem_nil p)

theorem buildRow_at_boolean (df : WideDF) (cfg2 : AggConfig) (na : List ColName)
    (k : Nat × Int) (b : ColName) (p : ColName × HVal)
    (hp : p ∈ buildRow df cfg2 na k) (hk : p.1 = b ++ "_boolean") :
    p.2 = HVal.num (if (colValues df (groupRows df k) b).isEmpty then 0 else 1) := by
  have hfix : ∀ w v, p = (w, v) →
      ¬ ("_boolean" : String).data.reverse <+: w.data.reverse → False := by
    intro w v hpw hw
    have hk2 : w = b ++ "_boolean" := by rw [hpw] at hk; exact hk
    exact string_fixed_ne_append "_boolean" w hw b hk2
  unfold buildRow at hp
  rw [List.append_assoc, List.mem_append] at hp
  rcases hp with hp | hp
  · unfold baseWrites at hp
    simp only [List.mem_cons, List.not_mem_nil, or_false] at hp
    rcases hp with hp | hp | hp | hp
    · exact (hfix _ _ hp (by decide)).elim
    · exact (hfix _ _ hp (by decide)).elim
    · exact (hfix _ _ hp (by decide)).elim
    · exact (hfix _ _ hp (by decide)).elim
  rw [List.mem_append] at hp
  rcases hp with hp | hp
  · unfold carriedWrites at hp
    rw [List.mem_append] at hp
    rcases hp with hp | hp
    · split_ifs at hp
      · rw [List.mem_singleton] at hp
        exact (hfix _ _ hp (by decide)).elim
      · exact absurd hp (List.not_mem_nil p)
    · split_ifs at hp
      · rw [List.mem_singleton] at hp
        exact (hfix _ _ hp (by decide)).elim
      · exact absurd hp (List.not_mem_nil p)
  · unfold aggAllWrites at hp
    obtain ⟨e, he, hp2⟩ := List.mem_flatMap.1 hp
    obtain ⟨c, hc, hp3⟩ := List.mem_flatMap.1 hp2
    exact aggWrites_at_boolean df na (groupRows df k) e.1 c b p hp3 hk

/-- The `boolean` entry does write its key for each group. -/
theorem boolean_write_mem (df : WideDF) (cfg2 : AggConfig) (na : List ColName)
    (k : Nat × Int) (bs : List ColName) (b : ColName)
    (hbs : ("boolean", bs) ∈ cfg2) (hb : b ∈ bs) (hav : b ∈ availCols df) :
    (b ++ "_boolean",
      HVal.num (if (colValues df (groupRows df k) b).isEmpty then 0 else 1)) ∈
      buildRow df cfg2 na k := by
  have hw : aggWrites df na (groupRows df k) "boolean" b =
      [(b ++ "_boolean",
        HVal.num (if (colValues df (groupRows df k) b).isEmpty then 0 else 1))] := by
    unfold aggWrites
    rw [if_pos hav]
    simp only []
    rw [if_neg (by decide : ¬("boolean" : String) = "max"),
      if_neg (by decide : ¬("boolean" : String) = "min"),
      if_neg (by decide : ¬("boolean" : String) = "mean"),
      if_neg (by decide : ¬("boolean" : String) = "median"),
      if_neg (by decide : ¬("boolean" : String) = "first"),
      if_neg (by decide : ¬("boolean" : String) = "last"),
      if_pos trivial]
  unfold buildRow
  apply List.mem_append_right
  unfold aggAllWrites
  apply List.mem_flatMap.2
  refine ⟨("boolean", bs), hbs, ?_⟩
  apply List.mem_flatMap.2
  refine ⟨b, hb, ?_⟩
  rw [hw]
  exact List.mem_singleton.2 rfl

theorem filterMap_isEmpty_eq (g : List WRow) (f : WRow → Option Int) :
    (g.filterMap f).isEmpty = !(g.any (fun r => (f r).isSome)) := by
  induction g with
  | nil => rfl
  | cons r g ih =>
    cases hf : f r with
    | none => simpa [List.filterMap_cons, hf] using ih
    | some v => simp [List.filterMap_cons, hf]

/-- **C5.** On a successful run, for a column `b` of the wide frame listed
under the `boolean` method (and not shadowed by a synthetic column), the
output row of each hourly group `k` is in the result, the column
`b + "_boolean"` is in the result schema, and the cell holds `1` exactly
when some wide row of the group has a non-null `b`, else `0`. -/
theorem C5_boolean_aggregation (df : WideDF) (cfg : AggConfig) (out : HourlyDF)
    (bs : List ColName) (b : ColName) (k : Nat × Int)
    (hok : (convert_wide_to_hourly df cfg).res = Except.ok out)
    (hbs : ("boolean", bs) ∈ cfg) (hb : b ∈ bs)
    (hbc : b ∈ df.cols) (hbsyn : b ∉ syntheticCols) (hbet : b ≠ "event_time")
    (hk : k ∈ sortedKeys df) :
    b ++ "_boolean" ∈ out.cols ∧
    fillAll (oneHotFillCols (updateConfig df cfg) (hourlyColsOf df cfg))
      (buildRow df (updateConfig df cfg) (nonAggCols df cfg) k) ∈ out.rows ∧
    rowGet (fillAll (oneHotFillCols (updateConfig df cfg) (hourlyColsOf df cfg))
        (buildRow df (updateConfig df cfg) (nonAggCols df cfg) k)) (b ++ "_boolean")
      = some (HVal.num
          (if (groupRows df k).any (fun r => (cellVal r b).isSome) then 1 else 0)) := by
  have hav : b ∈ availCols df := List.mem_append_left _ hbc
  have hbs2 : ("boolean", bs) ∈ updateConfig df cfg := by
    apply mem_updateConfig_of_ne_first df cfg ("boolean", bs) hbs
    intro he
    have he2 : ("boolean" : String) = "first" := he
    exact absurd he2 (by decide)
  have hout : out = ⟨hourlyColsOf df cfg, hourlyRowsOf df cfg⟩ := by
    unfold convert_wide_to_hourly at hok
    split_ifs at hok
    injection hok with h2
    exact h2.symm
  have hrmem : buildRow df (updateConfig df cfg) (nonAggCols df cfg) k ∈
      builtRowsOf df cfg :=
    List.mem_map_of_mem (buildRow df (updateConfig df cfg) (nonAggCols df cfg)) hk
  have hwmem := boolean_write_mem df (updateConfig df cfg) (nonAggCols df cfg) k bs b
    hbs2 hb hav
  have hvflip :
      (if (colValues df (groupRows df k) b).isEmpty then (0 : ℚ) else 1) =
      (if (groupRows df k).any (fun r => (cellVal r b).isSome) then 1 else 0) := by
    have hcv : colValues df (groupRows df k) b =
        (groupRows df k).filterMap (fun r => cellVal r b) :=
      filterMap_congr_mem _ _ _
        (fun r _ => getVal_eq_cellVal df r b hbsyn hbet)
    rw [hcv, filterMap_isEmpty_eq]
    cases (groupRows df k).any (fun r => (cellVal r b).isSome) <;> rfl
  refine ⟨?_, ?_, ?_⟩
  · rw [hout]
    show b ++ "_boolean" ∈ hourlyColsOf df cfg
    unfold hourlyColsOf
    rw [mem_dedupF]
    apply List.mem_flatMap.2
    refine ⟨buildRow df (updateConfig df cfg) (nonAggCols df cfg) k, hrmem, ?_⟩
    exact List.mem_map_of_mem Prod.fst hwmem
  · rw [hout]
    show _ ∈ hourlyRowsOf df cfg
    rw [hourlyRowsOf_eq]
    exact List.mem_map_of_mem _ ((List.mem_insertionSort hrowLE).2 hrmem)
  · have hget : rowGet (buildRow df (updateConfig df cfg) (nonAggCols df cfg) k)
        (b ++ "_boolean") = some (HVal.num
          (if (colValues df (groupRows df k) b).isEmpty then 0 else 1)) :=
      rowGet_eq_of_mem_unique _ _ _ hwmem
        (fun p hp hpk =>
          buildRow_at_boolean df (updateConfig df cfg) (nonAggCols df cfg) k b p hp hpk)
    have hq : ((truncRat
        (if (colValues df (groupRows df k) b).isEmpty then (0 : ℚ) else 1) : Int) : ℚ) =
        (if (colValues df (groupRows df k) b).isEmpty then (0 : ℚ) else 1) := by
      cases (colValues df (groupRows df k) b).isEmpty <;> decide
    rw [← hvflip]
    exact fillAll_preserves_int _ _ _ _ hq hget

def C5df : WideDF := ⟨["hospitalization_id", "event_time", "day_number", "spo2"],
  [⟨1, some 3600, [("day_number", some 1), ("spo2", some 95)]⟩,
   ⟨1, some 7200, [("day_number", some 1), ("spo2", none)]⟩]⟩

def C5cfg : AggConfig := [("boolean", ["spo2"])]

def C5out : HourlyDF :=
  match (convert_wide_to_hourly C5df C5cfg).res with
  | Except.ok o => o
  | Except.error _ => ⟨[], []⟩

theorem C5_witness :
    ("spo2" ++ "_boolean" ∈ C5out.cols ∧
      rowGet (fillAll (oneHotFillCols (updateConfig C5df C5cfg) (hourlyColsOf C5df C5cfg))
          (buildRow C5df (updateConfig C5df C5cfg) (nonAggCols C5df C5cfg) (1, 3600)))
        ("spo2" ++ "_boolean") = some (HVal.num
          (if (groupRows C5df (1, 3600)).any (fun r => (cellVal r "spo2").isSome)
            then 1 else 0))) ∧
    rowGet (fillAll (oneHotFillCols (updateConfig C5df C5cfg) (hourlyColsOf C5df C5cfg))
        (buildRow C5df (updateConfig C5df C5cfg) (nonAggCols C5df C5cfg) (1, 7200)))
      ("spo2" ++ "_boolean") = some (HVal.num
        (if (groupRows C5df (1, 7200)).any (fun r => (cellVal r "spo2").isSome)
          then 1 else 0)) := by
  have h1 := C5_boolean_aggregation C5df C5cfg C5out ["spo2"] "spo2" (1, 3600)
    (by rfl) (by decide) (by decide) (by decide) (by decide) (by decide) (by decide)
  have h2 := C5_boolean_aggregation C5df C5cfg C5out ["spo2"] "spo2" (1, 7200)
    (by rfl) (by decide) (by decide) (by decide) (by decide) (by decide) (by decide)
  exact ⟨⟨h1.1, h1.2.2⟩, h2.2.2⟩


/-! ## Claim C6: one-hot encoding -/

/-- The output column name one-hot encoding writes for value `v` of
source column `c` (line 668: `re.sub` over `f"{col}_{val}"`). -/
def oneHotKey (c : ColName) (v : Int) : ColName := sanitize (c ++ "_" ++ toString v)

/-- Distinct non-null values of a working-frame column over the whole
wide input, in first-appearance order. -/
def dfVals (df : WideDF) (c : ColName) : List Int :=
  dedupF (df.rows.filterMap (fun r => getVal df r c))

/-- Numeric reading of an output cell (0 for anything non-numeric). -/
def cellQ (r : HRow) (key : ColName) : ℚ :=
  match rowGet r key with
  | some (HVal.num q) => q
  | _ => 0

theorem lastCharNotDigit (w : String) (ch : Char)
    (hch : w.data.getLast? = some ch) (hd : ch.isDigit = false) :
    ∀ ch2, w.data.getLast? = some ch2 → ch2.isDigit = false := by
  intro ch2 h2
  rw [hch] at h2
  injection h2 with h3
  rw [← h3]
  exact hd

theorem aggWrites_one_hot_eq (df : WideDF) (na : List ColName) (g : List WRow)
    (c : ColName) (hav : c ∈ availCols df) :
    aggWrites df na g "one_hot_encode" c =
      (dedupF (colValues df g c)).map (fun v => (oneHotKey c v, HVal.num 1)) := by
  unfold aggWrites
  rw [if_pos hav]
  simp only []
  rw [if_neg (by decide : ¬("one_hot_encode" : String) = "max"),
    if_neg (by decide : ¬("one_hot_encode" : String) = "min"),
    if_neg (by decide : ¬("one_hot_encode" : String) = "mean"),
    if_neg (by decide : ¬("one_hot_encode" : String) = "median"),
    if_neg (by decide : ¬("one_hot_encode" : String) = "first"),
    if_neg (by decide : ¬("one_hot_encode" : String) = "last"),
    if_neg (by decide : ¬("one_hot_encode" : String) = "boolean"),
    if_pos trivial]
  rfl

/-- Any aggregation write that lands on a one-hot key carries value 1 and
comes from the one-hot branch of some source column. -/
theorem aggWrites_oneHot_shape (df : WideDF) (na : List ColName) (g : List WRow)
    (m : String) (c2 : ColName) (c : ColName) (v : Int) (p : ColName × HVal)
    (hp : p ∈ aggWrites df na g m c2) (hk : p.1 = oneHotKey c v) :
    p.2 = HVal.num 1 ∧ m = "one_hot_encode" ∧
      ∃ v2 ∈ dedupF (colValues df g c2), p.1 = oneHotKey c2 v2 := by
  unfold aggWrites at hp
  by_cases hc : c2 ∈ availCols df
  · rw [if_pos hc] at hp
    simp only [] at hp
    by_cases h1 : m = "max"
    · rw [if_pos h1, List.mem_singleton] at hp
      have hk2 : oneHotKey c v = c2 ++ "_max" := by rw [hp] at hk; exact hk.symm
      exact absurd hk2 (oneHot_key_ne_suffix c v c2 "_max" (by decide)
        (lastCharNotDigit _ 'x' (by decide) (by decide)))
    rw [if_neg h1] at hp
    by_cases h2 : m = "min"
    · rw [if_pos h2, List.mem_singleton] at hp
      have hk2 : oneHotKey c v = c2 ++ "_min" := by rw [hp] at hk; exact hk.symm
      exact absurd hk2 (oneHot_key_ne_suffix c v c2 "_min" (by decide)
        (lastCharNotDigit _ 'n' (by decide) (by decide)))
    rw [if_neg h2] at hp
    by_cases h3 : m = "mean"
    · rw [if_pos h3, List.mem_singleton] at hp
      have hk2 : oneHotKey c v = c2 ++ "_mean" := by rw [hp] at hk; exact hk.symm
      exact absurd hk2 (oneHot_key_ne_suffix c v c2 "_mean" (by decide)
        (lastCharNotDigit _ 'n' (by decide) (by decide)))
    rw [if_neg h3] at hp
    by_cases h4 : m = "median"
    · rw [if_pos h4, List.mem_singleton] at hp
      have hk2 : oneHotKey c v = c2 ++ "_median" := by rw [hp] at hk; exact hk.symm
      exact absurd hk2 (oneHot_key_ne_suffix c v c2 "_median" (by decide)
        (lastCharNotDigit _ 'n' (by decide) (by decide)))
    rw [if_neg h4] at hp
    by_cases h5 : m = "first"
    · rw [if_pos h5] at hp
      by_cases h6 : c2 ∈ na
      · rw [if_pos h6, List.mem_singleton] at hp
        have hk2 : oneHotKey c v = c2 ++ "_c" := by rw [hp] at hk; exact hk.symm
        exact absurd hk2 (oneHot_key_ne_suffix c v c2 "_c" (by decide)
          (lastCharNotDigit _ 'c' (by decide) (by decide)))
      · rw [if_neg h6, List.mem_singleton] at hp
        have hk2 : oneHotKey c v = c2 ++ "_first" := by rw [hp] at hk; exact hk.symm
        exact absurd hk2 (oneHot_key_ne_suffix c v c2 "_first" (by decide)
          (lastCharNotDigit _ 't' (by decide) (by decide)))
    rw [if_neg h5] at hp
    by_cases h7 : m = "last"
    · rw [if_pos h7, List.mem_singleton] at hp
      have hk2 : oneHotKey c v = c2 ++ "_last" := by rw [hp] at hk; exact hk.symm
      exact absurd hk2 (oneHot_key_ne_suffix c v c2 "_last" (by decide)
        (lastCharNotDigit _ 't' (by decide) (by decide)))
    rw [if_neg h7] at hp
    by_cases h8 : m = "boolean"
    · rw [if_pos h8, List.mem_singleton] at hp
      have hk2 : oneHotKey c v = c2 ++ "_boolean" := by rw [hp] at hk; exact hk.symm
      exact absurd hk2 (oneHot_key_ne_suffix c v c2 "_boolean" (by decide)
        (lastCharNotDigit _ 'n' (by decide) (by decide)))
    rw [if_neg h8] at hp
    by_cases h9 : m = "one_hot_encode"
    · rw [if_pos h9] at hp
      obtain ⟨v2, hv2, he⟩ := List.mem_map.1 hp
      refine ⟨by rw [← he], h9, v2, hv2, ?_⟩
      rw [← he]
      exact rfl
    rw [if_neg h9] at hp
    exact absurd hp (List.not_mem_nil p)
  · rw [if_neg hc] at hp
    exact absurd hp (List.not_mem_nil p)

/-- Any `row_data` write that lands on a one-hot key carries value 1 and
originates in the one-hot branch of some config entry. -/
theorem buildRow_oneHot_shape (df : WideDF) (cfg2 : AggConfig) (na : List ColName)
    (k : Nat × Int) (c : ColName) (v : Int) (p : ColName × HVal)
    (hp : p ∈ buildRow df cfg2 na k) (hk : p.1 = oneHotKey c v) :
    p.2 = HVal.num 1 ∧ ∃ e ∈ cfg2, e.1 = "one_hot_encode" ∧ ∃ c2 ∈ e.2,
      ∃ v2 ∈ dedupF (colValues df (groupRows df k) c2), p.1 = oneHotKey c2 v2 := by
  have hfix : ∀ w v0, p = (w, v0) →
      (∀ ch, w.data.getLast? = some ch → ch.isDigit = false) → False := by
    intro w v0 hpw hw
    have hk2 : oneHotKey c v = w := by rw [hpw] at hk; exact hk.symm
    exact oneHot_key_ne_fixed c v w hw hk2
  unfold buildRow at hp
  rw [List.mem_append] at hp
  rcases hp with hp | hp
  · rw [List.mem_append] at hp
    rcases hp with hp | hp
    · unfold baseWrites at hp
      simp only [List.mem_cons, List.not_mem_nil, or_false] at hp
      rcases hp with hp | hp | hp | hp
      · exact (hfix _ _ hp (lastCharNotDigit _ 'd' (by decide) (by decide))).elim
      · exact (hfix _ _ hp (lastCharNotDigit _ 'r' (by decide) (by decide))).elim
      · exact (hfix _ _ hp (lastCharNotDigit _ 'r' (by decide) (by decide))).elim
      · exact (hfix _ _ hp (lastCharNotDigit _ 't' (by decide) (by decide))).elim
    · unfold carriedWrites at hp
      rw [List.mem_append] at hp
      rcases hp with hp | hp
      · split_ifs at hp
        · rw [List.mem_singleton] at hp
          exact (hfix _ _ hp (lastCharNotDigit _ 'd' (by decide) (by decide))).elim
        · exact absurd hp (List.not_mem_nil p)
      · split_ifs at hp
        · rw [List.mem_singleton] at hp
          exact (hfix _ _ hp (lastCharNotDigit _ 'r' (by decide) (by decide))).elim
        · exact absurd hp (List.not_mem_nil p)
  · unfold aggAllWrites at hp
    obtain ⟨e, he, hp2⟩ := List.mem_flatMap.1 hp
    obtain ⟨c2, hc2, hp3⟩ := List.mem_flatMap.1 hp2
    obtain ⟨h1, h2, v2, hv2, h3⟩ :=
      aggWrites_oneHot_shape df na (groupRows df k) e.1 c2 c v p hp3 hk
    exact ⟨h1, e, he, h2, c2, hc2, v2, hv2, h3⟩

/-- The in-place update touches only the `first` entry, so one-hot
entries of the updated config come from the caller config. -/
theorem mem_cfg_of_updateConfig_oneHot (df : WideDF) (cfg : AggConfig)
    (e : String × List ColName) (he : e ∈ updateConfig df cfg)
    (hm : e.1 = "one_hot_encode") : e ∈ cfg := by
  unfold updateConfig at he
  split_ifs at he with h1 h2
  · exact he
  · obtain ⟨q, hq, hfq⟩ := List.mem_map.1 he
    by_cases hqf : q.1 = "first"
    · rw [if_pos (by simpa using hqf)] at hfq
      have hm2 : q.1 = "one_hot_encode" := by rw [← hfq] at hm; exact hm
      rw [hqf] at hm2
      exact absurd hm2 (by decide)
    · rw [if_neg (by simpa using hqf)] at hfq
      rw [← hfq]
      exact hq
  · rw [List.mem_append] at he
    rcases he with he | he
    · exact he
    · rw [List.mem_singleton] at he
      rw [he] at hm
      have hm2 : ("first" : String) = "one_hot_encode" := hm
      exact absurd hm2 (by decide)

theorem colValues_sub_dfVals (df : WideDF) (k : Nat × Int) (c : ColName) (x : Int)
    (hx : x ∈ colValues df (groupRows df k) c) : x ∈ dfVals df c := by
  unfold colValues at hx
  obtain ⟨r, hr, hgr⟩ := List.mem_filterMap.1 hx
  unfold dfVals
  rw [mem_dedupF]
  exact List.mem_filterMap.2 ⟨r, List.mem_of_mem_filter hr, hgr⟩

theorem rowKey_mem_sortedKeys (df : WideDF) (r : WRow) (hr : r ∈ df.rows) :
    rowKey r ∈ sortedKeys df := by
  unfold sortedKeys
  rw [List.mem_insertionSort, mem_dedupF]
  exact List.mem_map_of_mem rowKey hr

theorem mem_groupRows_self (df : WideDF) (r : WRow) (hr : r ∈ df.rows) :
    r ∈ groupRows df (rowKey r) := by
  unfold groupRows
  rw [List.mem_filter]
  exact ⟨hr, by simp⟩

theorem oneHot_write_mem (df : WideDF) (cfg2 : AggConfig) (na : List ColName)
    (k : Nat × Int) (cs : List ColName) (c : ColName) (v : Int)
    (hcs : ("one_hot_encode", cs) ∈ cfg2) (hc : c ∈ cs) (hav : c ∈ availCols df)
    (hv : v ∈ dedupF (colValues df (groupRows df k) c)) :
    (oneHotKey c v, HVal.num 1) ∈ buildRow df cfg2 na k := by
  unfold buildRow
  apply List.mem_append_right
  unfold aggAllWrites
  apply List.mem_flatMap.2
  refine ⟨("one_hot_encode", cs), hcs, ?_⟩
  apply List.mem_flatMap.2
  refine ⟨c, hc, ?_⟩
  rw [aggWrites_one_hot_eq df na (groupRows df k) c hav]
  exact List.mem_map.2 ⟨v, hv, rfl⟩

theorem oneHotKey_mem_hourlyCols (df : WideDF) (cfg : AggConfig) (cs : List ColName)
    (c : ColName) (v : Int)
    (hcs : ("one_hot_encode", cs) ∈ updateConfig df cfg) (hc : c ∈ cs)
    (hav : c ∈ availCols df) (hv : v ∈ dfVals df c) :
    oneHotKey c v ∈ hourlyColsOf df cfg := by
  unfold dfVals at hv
  rw [mem_dedupF] at hv
  obtain ⟨r0, hr0, hget⟩ := List.mem_filterMap.1 hv
  have hkmem : rowKey r0 ∈ sortedKeys df := rowKey_mem_sortedKeys df r0 hr0
  have hvg : v ∈ dedupF (colValues df (groupRows df (rowKey r0)) c) := by
    rw [mem_dedupF]
    exact List.mem_filterMap.2 ⟨r0, mem_groupRows_self df r0 hr0, hget⟩
  have hw := oneHot_write_mem df (updateConfig df cfg) (nonAggCols df cfg) (rowKey r0)
    cs c v hcs hc hav hvg
  unfold hourlyColsOf
  rw [mem_dedupF]
  apply List.mem_flatMap.2
  refine ⟨buildRow df (updateConfig df cfg) (nonAggCols df cfg) (rowKey r0), ?_, ?_⟩
  · exact List.mem_map_of_mem _ hkmem
  · exact List.mem_map_of_mem Prod.fst hw

theorem oneHotKey_prefix (c : ColName) (v : Int) (hsan : sanitize c = c) :
    ((c ++ "_").data.isPrefixOf (oneHotKey c v).data) = true := by
  rw [List.isPrefixOf_iff_prefix]
  show (c ++ "_").data <+: (sanitize (c ++ "_" ++ toString v)).data
  have h1 : (sanitize (c ++ "_" ++ toString v)).data =
      (c ++ "_").data ++ (toString v).data.map sanitizeChar := by
    show ((c ++ "_" ++ toString v).data.map sanitizeChar) = _
    rw [String.data_append, String.data_append, List.map_append, List.map_append]
    have hc2 : c.data.map sanitizeChar = c.data := congrArg String.data hsan
    have hu : (("_" : String).data.map sanitizeChar) = ("_" : String).data := by decide
    rw [hc2, hu]
  rw [h1]
  exact List.prefix_append _ _

theorem oneHotKey_mem_fillCols (cfg2 : AggConfig) (cols : List ColName)
    (cs : List ColName) (c : ColName) (v : Int)
    (hcs : ("one_hot_encode", cs) ∈ cfg2) (hc : c ∈ cs) (hsan : sanitize c = c)
    (hmemcols : oneHotKey c v ∈ cols) :
    oneHotKey c v ∈ oneHotFillCols cfg2 cols := by
  unfold oneHotFillCols
  apply List.mem_flatMap.2
  refine ⟨("one_hot_encode", cs), hcs, ?_⟩
  rw [if_pos rfl]
  apply List.mem_flatMap.2
  refine ⟨c, hc, ?_⟩
  rw [List.mem_filter]
  exact ⟨hmemcols, oneHotKey_prefix c v hsan⟩

theorem fillAll_none_to_zero (ks : List ColName) (r : HRow) (key : ColName)
    (h : rowGet r key = none) (hk : key ∈ ks) :
    rowGet (fillAll ks r) key = some (HVal.num 0) := by
  induction ks generalizing r with
  | nil => exact absurd hk (List.not_mem_nil key)
  | cons k ks ih =>
    show rowGet (fillAll ks (fillRowFor k r)) key = some (HVal.num 0)
    by_cases hkk : k = key
    · subst hkk
      apply fillAll_preserves_int ks _ k 0 (by decide)
      rw [rowGet_fillRowFor, if_pos rfl, h]
      rfl
    · apply ih
      · rw [rowGet_fillRowFor, if_neg hkk]
        exact h
      · cases hk with
        | head => exact absurd rfl hkk
        | tail _ hk2 => exact hk2

theorem indicator_sum (L : List Int) :
    ∀ S : List Int, L.Nodup → S.Nodup → (∀ x ∈ S, x ∈ L) →
      ((L.map (fun v => if v ∈ S then (1 : ℚ) else 0)).sum) = (S.length : ℚ) := by
  induction L with
  | nil =>
    intro S _ _ hsub
    cases S with
    | nil => simp
    | cons s S => exact absurd (hsub s (List.mem_cons_self s S)) (List.not_mem_nil s)
  | cons a L ih =>
    intro S hLn hSn hsub
    rw [List.map_cons, List.sum_cons]
    have hna : a ∉ L := (List.nodup_cons.1 hLn).1
    have hLn2 : L.Nodup := (List.nodup_cons.1 hLn).2
    by_cases haS : a ∈ S
    · rw [if_pos haS]
      have hsub2 : ∀ x ∈ S.erase a, x ∈ L := by
        intro x hx
        have hxa : x ≠ a := (List.Nodup.mem_erase_iff hSn).1 hx |>.1
        have hxS : x ∈ S := List.mem_of_mem_erase hx
        cases hsub x hxS with
        | head => exact absurd rfl hxa
        | tail _ h2 => exact h2
      have hcong : L.map (fun v => if v ∈ S then (1 : ℚ) else 0)
          = L.map (fun v => if v ∈ S.erase a then (1 : ℚ) else 0) := by
        apply List.map_congr_left
        intro x hx
        have hxa : x ≠ a := fun he => hna (he ▸ hx)
        by_cases hxS : x ∈ S
        · rw [if_pos hxS, if_pos ((List.Nodup.mem_erase_iff hSn).2 ⟨hxa, hxS⟩)]
        · rw [if_neg hxS, if_neg (fun hxe => hxS (List.mem_of_mem_erase hxe))]
      rw [hcong, ih (S.erase a) hLn2 (List.Nodup.erase a hSn) hsub2,
        List.length_erase_of_mem haS]
      have hpos : 0 < S.length := List.length_pos_of_mem haS
      have hss : ((S.length - 1 : ℕ) : ℚ) = (S.length : ℚ) - 1 := by
        rw [Nat.cast_sub (by omega)]
        simp
      rw [hss]
      ring
    · rw [if_neg haS]
      have hsub2 : ∀ x ∈ S, x ∈ L := by
        intro x hx
        cases hsub x hx with
        | head => exact absurd hx haS
        | tail _ h2 => exact h2
      rw [ih S hLn2 hSn hsub2, zero_add]

/-- **C6.** On a successful run, for a wide column `c` listed under
`one_hot_encode` with a sanitizer-stable name and collision-free one-hot
keys: every distinct non-null value of `c` in the input yields an output
column; each hourly group row holds 1 there exactly when the value occurs
in that hour and 0 otherwise (the fill pass writes the 0); and the row
sum over those columns is the number of distinct values of `c` in the
hour. -/
theorem C6_one_hot_encoding (df : WideDF) (cfg : AggConfig) (out : HourlyDF)
    (cs : List ColName) (c : ColName) (k : Nat × Int)
    (hok : (convert_wide_to_hourly df cfg).res = Except.ok out)
    (hcs : ("one_hot_encode", cs) ∈ cfg) (hc : c ∈ cs) (hcc : c ∈ df.cols)
    (hsan : sanitize c = c) (hk : k ∈ sortedKeys df)
    (hinj : ∀ e ∈ cfg, e.1 = "one_hot_encode" → ∀ c2 ∈ e.2, ∀ v2 ∈ dfVals df c2,
      ∀ v1 ∈ dfVals df c, oneHotKey c2 v2 = oneHotKey c v1 → c2 = c ∧ v2 = v1) :
    (∀ v ∈ dfVals df c, oneHotKey c v ∈ out.cols) ∧
    fillAll (oneHotFillCols (updateConfig df cfg) (hourlyColsOf df cfg))
      (buildRow df (updateConfig df cfg) (nonAggCols df cfg) k) ∈ out.rows ∧
    (∀ v ∈ dfVals df c,
      rowGet (fillAll (oneHotFillCols (updateConfig df cfg) (hourlyColsOf df cfg))
          (buildRow df (updateConfig df cfg) (nonAggCols df cfg) k)) (oneHotKey c v)
        = some (HVal.num
            (if v ∈ dedupF (colValues df (groupRows df k) c) then 1 else 0))) ∧
    ((dfVals df c).map (fun v => cellQ
        (fillAll (oneHotFillCols (updateConfig df cfg) (hourlyColsOf df cfg))
          (buildRow df (updateConfig df cfg) (nonAggCols df cfg) k)) (oneHotKey c v))).sum
      = ((dedupF (colValues df (groupRows df k) c)).length : ℚ) := by
  have hav : c ∈ availCols df := List.mem_append_left _ hcc
  have hcs2 : ("one_hot_encode", cs) ∈ updateConfig df cfg := by
    apply mem_updateConfig_of_ne_first df cfg ("one_hot_encode", cs) hcs
    intro he
    have he2 : ("one_hot_encode" : String) = "first" := he
    exact absurd he2 (by decide)
  have hout : out = ⟨hourlyColsOf df cfg, hourlyRowsOf df cfg⟩ := by
    unfold convert_wide_to_hourly at hok
    split_ifs at hok
    injection hok with h2
    exact h2.symm
  have hpt : ∀ v ∈ dfVals df c,
      rowGet (fillAll (oneHotFillCols (updateConfig df cfg) (hourlyColsOf df cfg))
          (buildRow df (updateConfig df cfg) (nonAggCols df cfg) k)) (oneHotKey c v)
        = some (HVal.num
            (if v ∈ dedupF (colValues df (groupRows df k) c) then 1 else 0)) := by
    intro v hv
    by_cases hvg : v ∈ dedupF (colValues df (groupRows df k) c)
    · rw [if_pos hvg]
      have hw := oneHot_write_mem df (updateConfig df cfg) (nonAggCols df cfg) k
        cs c v hcs2 hc hav hvg
      have hget : rowGet (buildRow df (updateConfig df cfg) (nonAggCols df cfg) k)
          (oneHotKey c v) = some (HVal.num 1) :=
        rowGet_eq_of_mem_unique _ _ _ hw (fun p hp hpk =>
          (buildRow_oneHot_shape df (updateConfig df cfg) (nonAggCols df cfg)
            k c v p hp hpk).1)
      exact fillAll_preserves_int _ _ _ 1 (by decide) hget
    · rw [if_neg hvg]
      have hnone : rowGet (buildRow df (updateConfig df cfg) (nonAggCols df cfg) k)
          (oneHotKey c v) = none := by
        apply rowGet_eq_none
        intro p hp hpk
        obtain ⟨h1, e, he, hme, c2, hc2, v2, hv2, hkey⟩ :=
          buildRow_oneHot_shape df (updateConfig df cfg) (nonAggCols df cfg)
            k c v p hp hpk
        have he0 : e ∈ cfg := mem_cfg_of_updateConfig_oneHot df cfg e he hme
        have hv2d : v2 ∈ dfVals df c2 :=
          colValues_sub_dfVals df k c2 v2 ((mem_dedupF _ _).1 hv2)
        obtain ⟨hc2c, hv2v⟩ := hinj e he0 hme c2 hc2 v2 hv2d v hv
          (hkey.symm.trans hpk)
        rw [hc2c, hv2v] at hv2
        exact hvg hv2
      have hkf : oneHotKey c v ∈
          oneHotFillCols (updateConfig df cfg) (hourlyColsOf df cfg) :=
        oneHotKey_mem_fillCols (updateConfig df cfg) (hourlyColsOf df cfg) cs c v
          hcs2 hc hsan (oneHotKey_mem_hourlyCols df cfg cs c v hcs2 hc hav hv)
      exact fillAll_none_to_zero _ _ _ hnone hkf
  refine ⟨?_, ?_, hpt, ?_⟩
  · intro v hv
    rw [hout]
    exact oneHotKey_mem_hourlyCols df cfg cs c v hcs2 hc hav hv
  · rw [hout]
    show _ ∈ hourlyRowsOf df cfg
    rw [hourlyRowsOf_eq]
    exact List.mem_map_of_mem _ ((List.mem_insertionSort hrowLE).2
      (List.mem_map_of_mem _ hk))
  · have hcong : (dfVals df c).map (fun v => cellQ
        (fillAll (oneHotFillCols (updateConfig df cfg) (hourlyColsOf df cfg))
          (buildRow df (updateConfig df cfg) (nonAggCols df cfg) k)) (oneHotKey c v))
        = (dfVals df c).map (fun v =>
            if v ∈ dedupF (colValues df (groupRows df k) c) then (1 : ℚ) else 0) := by
      apply List.map_congr_left
      intro v hv
      unfold cellQ
      rw [hpt v hv]
    rw [hcong]
    apply indicator_sum
    · exact nodup_dedupF _
    · exact nodup_dedupF _
    · intro x hx
      exact colValues_sub_dfVals df k c x ((mem_dedupF _ _).1 hx)

def C6df : WideDF := ⟨["hospitalization_id", "event_time", "day_number", "med"],
  [⟨1, some 3600, [("day_number", some 1), ("med", some 3)]⟩,
   ⟨1, some 3900, [("day_number", some 1), ("med", some 5)]⟩,
   ⟨1, some 7200, [("day_number", some 1), ("med", some 3)]⟩]⟩

def C6cfg : AggConfig := [("one_hot_encode", ["med"])]

def C6out : HourlyDF :=
  match (convert_wide_to_hourly C6df C6cfg).res with
  | Except.ok o => o
  | Except.error _ => ⟨[], []⟩

theorem C6_witness :
    oneHotKey "med" 3 ∈ C6out.cols ∧
    ((dfVals C6df "med").map (fun v => cellQ
        (fillAll (oneHotFillCols (updateConfig C6df C6cfg) (hourlyColsOf C6df C6cfg))
          (buildRow C6df (updateConfig C6df C6cfg) (nonAggCols C6df C6cfg) (1, 3600)))
        (oneHotKey "med" v))).sum
      = ((dedupF (colValues C6df (groupRows C6df (1, 3600)) "med")).length : ℚ) := by
  have h := C6_one_hot_encoding C6df C6cfg C6out ["med"] "med" (1, 3600)
    (by rfl) (by decide) (by decide) (by decide) (by decide) (by decide) (by decide)
  exact ⟨h.1 3 (by decide), h.2.2.2⟩


/-! ## Claim C2, amended theorem: nth_hour invariants -/

theorem convert_ok_inv (df : WideDF) (cfg : AggConfig) (out : HourlyDF)
    (hok : (convert_wide_to_hourly df cfg).res = Except.ok out) :
    out = ⟨hourlyColsOf df cfg, hourlyRowsOf df cfg⟩ ∧ ∀ r ∈ df.rows, r.et ≠ none := by
  unfold convert_wide_to_hourly at hok
  split_ifs at hok with h1 h2 h3 h4 h5
  injection hok with h
  refine ⟨h.symm, ?_⟩
  intro r hr hre
  apply h4
  rw [List.any_eq_true]
  refine ⟨r, hr, ?_⟩
  rw [hre]
  rfl

theorem foldlMin_mem : ∀ (t : List Int) (a : Int), t.foldl min a ∈ a :: t := by
  intro t
  induction t with
  | nil => intro a; exact List.mem_singleton.2 rfl
  | cons b t ih =>
    intro a
    show t.foldl min (min a b) ∈ a :: b :: t
    rcases List.mem_cons.1 (ih (min a b)) with h2 | h2
    · rcases le_total a b with hab | hab
      · rw [h2, min_eq_left hab]
        exact List.mem_cons_self _ _
      · rw [h2, min_eq_right hab]
        exact List.mem_cons_of_mem _ (List.mem_cons_self _ _)
    · exact List.mem_cons_of_mem _ (List.mem_cons_of_mem _ h2)

theorem foldlMin_le_init : ∀ (t : List Int) (a : Int), t.foldl min a ≤ a := by
  intro t
  induction t with
  | nil => intro a; exact le_refl a
  | cons b t ih => intro a; exact le_trans (ih (min a b)) (min_le_left a b)

theorem foldlMin_le_mem : ∀ (t : List Int) (a x : Int), x ∈ t → t.foldl min a ≤ x := by
  intro t
  induction t with
  | nil => intro a x hx; exact absurd hx (List.not_mem_nil x)
  | cons b t ih =>
    intro a x hx
    cases hx with
    | head => exact le_trans (foldlMin_le_init t (min a b)) (min_le_right a b)
    | tail _ h2 => exact ih (min a b) x h2

theorem minList_mem (l : List Int) (h : l ≠ []) : minList l ∈ l := by
  cases l with
  | nil => exact absurd rfl h
  | cons a t => exact foldlMin_mem t a

theorem minList_le (l : List Int) (x : Int) (hx : x ∈ l) : minList l ≤ x := by
  cases l with
  | nil => exact absurd hx (List.not_mem_nil x)
  | cons a t =>
    cases hx with
    | head => exact foldlMin_le_init t x
    | tail _ h2 => exact foldlMin_le_mem t a x h2

theorem foldlMax_mem : ∀ (t : List Int) (a : Int), t.foldl max a ∈ a :: t := by
  intro t
  induction t with
  | nil => intro a; exact List.mem_singleton.2 rfl
  | cons b t ih =>
    intro a
    show t.foldl max (max a b) ∈ a :: b :: t
    rcases List.mem_cons.1 (ih (max a b)) with h2 | h2
    · rcases le_total a b with hab | hab
      · rw [h2, max_eq_right hab]
        exact List.mem_cons_of_mem _ (List.mem_cons_self _ _)
      · rw [h2, max_eq_left hab]
        exact List.mem_cons_self _ _
    · exact List.mem_cons_of_mem _ (List.mem_cons_of_mem _ h2)

theorem le_foldlMax_init : ∀ (t : List Int) (a : Int), a ≤ t.foldl max a := by
  intro t
  induction t with
  | nil => intro a; exact le_refl a
  | cons b t ih => intro a; exact le_trans (le_max_left a b) (ih (max a b))

theorem le_foldlMax_mem : ∀ (t : List Int) (a x : Int), x ∈ t → x ≤ t.foldl max a := by
  intro t
  induction t with
  | nil => intro a x hx; exact absurd hx (List.not_mem_nil x)
  | cons b t ih =>
    intro a x hx
    cases hx with
    | head => exact le_trans (le_max_right a b) (le_foldlMax_init t (max a b))
    | tail _ h2 => exact ih (max a b) x h2

theorem maxList_mem (l : List Int) (h : l ≠ []) : maxList l ∈ l := by
  cases l with
  | nil => exact absurd rfl h
  | cons a t => exact foldlMax_mem t a

theorem le_maxList (l : List Int) (x : Int) (hx : x ∈ l) : x ≤ maxList l := by
  cases l with
  | nil => exact absurd hx (List.not_mem_nil x)
  | cons a t =>
    cases hx with
    | head => exact le_foldlMax_init t x
    | tail _ h2 => exact le_foldlMax_mem t a x h2

theorem fdiv3600_mono {a b : Int} (h : a ≤ b) : Int.fdiv a 3600 ≤ Int.fdiv b 3600 := by
  rw [Int.fdiv_eq_ediv a (by norm_num), Int.fdiv_eq_ediv b (by norm_num)]
  exact Int.ediv_le_ediv (by norm_num) h

theorem floorHour_mono {a b : Int} (h : a ≤ b) : floorHour a ≤ floorHour b := by
  unfold floorHour
  exact mul_le_mul_of_nonneg_right (fdiv3600_mono h) (by norm_num)

theorem floorHour_min (a b : Int) :
    floorHour (min a b) = min (floorHour a) (floorHour b) := by
  rcases le_total a b with h | h
  · rw [min_eq_left h, min_eq_left (floorHour_mono h)]
  · rw [min_eq_right h, min_eq_right (floorHour_mono h)]

theorem foldlMin_map_floorHour : ∀ (t : List Int) (a : Int),
    (t.map floorHour).foldl min (floorHour a) = floorHour (t.foldl min a) := by
  intro t
  induction t with
  | nil => intro a; rfl
  | cons b t ih =>
    intro a
    show (t.map floorHour).foldl min (min (floorHour a) (floorHour b)) = _
    rw [← floorHour_min]
    exact ih (min a b)

theorem minList_map_floorHour (l : List Int) :
    minList (l.map floorHour) = floorHour (minList l) := by
  cases l with
  | nil => decide
  | cons a t => exact foldlMin_map_floorHour t a

/-- `first_event_hour` is the hour floor of the earliest event time. -/
theorem firstEventHour_floor (df : WideDF) (h : Nat) :
    firstEventHour df h = floorHour (minList (etList df h)) := by
  have h1 : firstEventHour df h = minList ((etList df h).map floorHour) := by
    unfold firstEventHour etList
    rw [List.map_filterMap]
  rw [h1, minList_map_floorHour]

theorem floorHour_sub_div (x y : Int) :
    (floorHour x - floorHour y) / 3600 = Int.fdiv x 3600 - Int.fdiv y 3600 := by
  unfold floorHour
  rw [← sub_mul, Int.mul_ediv_cancel _ (by norm_num)]

/-- No aggregation write lands on a fixed column name that ends in a
letter and carries none of the method suffixes. -/
theorem aggWrites_key_ne (df : WideDF) (na : List ColName) (g : List WRow)
    (m : String) (c : ColName) (w : String)
    (n1 : ¬ ("_max" : String).data.reverse <+: w.data.reverse)
    (n2 : ¬ ("_min" : String).data.reverse <+: w.data.reverse)
    (n3 : ¬ ("_mean" : String).data.reverse <+: w.data.reverse)
    (n4 : ¬ ("_median" : String).data.reverse <+: w.data.reverse)
    (n5 : ¬ ("_c" : String).data.reverse <+: w.data.reverse)
    (n6 : ¬ ("_first" : String).data.reverse <+: w.data.reverse)
    (n7 : ¬ ("_last" : String).data.reverse <+: w.data.reverse)
    (n8 : ¬ ("_boolean" : String).data.reverse <+: w.data.reverse)
    (hd : ∀ ch, w.data.getLast? = some ch → ch.isDigit = false) :
    ∀ p ∈ aggWrites df na g m c, p.1 ≠ w := by
  intro p hp hpk
  unfold aggWrites at hp
  by_cases hc : c ∈ availCols df
  · rw [if_pos hc] at hp
    simp only [] at hp
    by_cases hm1 : m = "max"
    · rw [if_pos hm1, List.mem_singleton] at hp
      have h2 : c ++ "_max" = w := by rw [hp] at hpk; exact hpk
      exact string_append_ne_fixed "_max" w n1 c h2
    rw [if_neg hm1] at hp
    by_cases hm2 : m = "min"
    · rw [if_pos hm2, List.mem_singleton] at hp
      have h2 : c ++ "_min" = w := by rw [hp] at hpk; exact hpk
      exact string_append_ne_fixed "_min" w n2 c h2
    rw [if_neg hm2] at hp
    by_cases hm3 : m = "mean"
    · rw [if_pos hm3, List.mem_singleton] at hp
      have h2 : c ++ "_mean" = w := by rw [hp] at hpk; exact hpk
      exact string_append_ne_fixed "_mean" w n3 c h2
    rw [if_neg hm3] at hp
    by_cases hm4 : m = "median"
    · rw [if_pos hm4, List.mem_singleton] at hp
      have h2 : c ++ "_median" = w := by rw [hp] at hpk; exact hpk
      exact string_append_ne_fixed "_median" w n4 c h2
    rw [if_neg hm4] at hp
    by_cases hm5 : m = "first"
    · rw [if_pos hm5] at hp
      by_cases hm6 : c ∈ na
      · rw [if_pos hm6, List.mem_singleton] at hp
        have h2 : c ++ "_c" = w := by rw [hp] at hpk; exact hpk
        exact string_append_ne_fixed "_c" w n5 c h2
      · rw [if_neg hm6, List.mem_singleton] at hp
        have h2 : c ++ "_first" = w := by rw [hp] at hpk; exact hpk
        exact string_append_ne_fixed "_first" w n6 c h2
    rw [if_neg hm5] at hp
    by_cases hm7 : m = "last"
    · rw [if_pos hm7, List.mem_singleton] at hp
      have h2 : c ++ "_last" = w := by rw [hp] at hpk; exact hpk
      exact string_append_ne_fixed "_last" w n7 c h2
    rw [if_neg hm7] at hp
    by_cases hm8 : m = "boolean"
    · rw [if_pos hm8, List.mem_singleton] at hp
      have h2 : c ++ "_boolean" = w := by rw [hp] at hpk; exact hpk
      exact string_append_ne_fixed "_boolean" w n8 c h2
    rw [if_neg hm8] at hp
    by_cases hm9 : m = "one_hot_encode"
    · rw [if_pos hm9] at hp
      obtain ⟨v, hv, he⟩ := List.mem_map.1 hp
      have h2 : sanitize (c ++ "_" ++ toString v) = w := by rw [← he] at hpk; exact hpk
      exact oneHot_key_ne_fixed c v w hd h2
    rw [if_neg hm9] at hp
    exact absurd hp (List.not_mem_nil p)
  · rw [if_neg hc] at hp
    exact absurd hp (List.not_mem_nil p)

theorem buildRow_hosp_get (df : WideDF) (cfg2 : AggConfig) (na : List ColName)
    (k : Nat × Int) :
    rowGet (buildRow df cfg2 na k) "hospitalization_id" = some (HVal.nat k.1) := by
  apply rowGet_eq_of_mem_unique
  · show _ ∈ baseWrites df k ++ carriedWrites df k ++ aggAllWrites df cfg2 na k
    apply List.mem_append_left
    apply List.mem_append_left
    exact List.mem_cons_self _ _
  · intro p hp hpk
    unfold buildRow at hp
    rw [List.mem_append] at hp
    rcases hp with hp | hp
    · rw [List.mem_append] at hp
      rcases hp with hp | hp
      · unfold baseWrites at hp
        simp only [List.mem_cons, List.not_mem_nil, or_false] at hp
        rcases hp with hp | hp | hp | hp
        · rw [hp]
        · exfalso
          rw [hp] at hpk
          have h2 : ("event_time_hour" : String) = "hospitalization_id" := hpk
          exact absurd h2 (by decide)
        · exfalso
          rw [hp] at hpk
          have h2 : ("nth_hour" : String) = "hospitalization_id" := hpk
          exact absurd h2 (by decide)
        · exfalso
          rw [hp] at hpk
          have h2 : ("hour_bucket" : String) = "hospitalization_id" := hpk
          exact absurd h2 (by decide)
      · exfalso
        unfold carriedWrites at hp
        rw [List.mem_append] at hp
        rcases hp with hp | hp
        · split_ifs at hp
          · rw [List.mem_singleton] at hp
            rw [hp] at hpk
            have h2 : ("patient_id" : String) = "hospitalization_id" := hpk
            exact absurd h2 (by decide)
          · exact absurd hp (List.not_mem_nil p)
        · split_ifs at hp
          · rw [List.mem_singleton] at hp
            rw [hp] at hpk
            have h2 : ("day_number" : String) = "hospitalization_id" := hpk
            exact absurd h2 (by decide)
          · exact absurd hp (List.not_mem_nil p)
    · exfalso
      unfold aggAllWrites at hp
      obtain ⟨e, he, hp2⟩ := List.mem_flatMap.1 hp
      obtain ⟨c, hc, hp3⟩ := List.mem_flatMap.1 hp2
      exact aggWrites_key_ne df na (groupRows df k) e.1 c "hospitalization_id"
        (by decide) (by decide) (by decide) (by decide) (by decide) (by decide)
        (by decide) (by decide)
        (lastCharNotDigit _ 'd' (by decide) (by decide)) p hp3 hpk

theorem buildRow_nth_get (df : WideDF) (cfg2 : AggConfig) (na : List ColName)
    (k : Nat × Int) :
    rowGet (buildRow df cfg2 na k) "nth_hour"
      = some (HVal.num ((nthOf df k : Int) : ℚ)) := by
  apply rowGet_eq_of_mem_unique
  · show _ ∈ baseWrites df k ++ carriedWrites df k ++ aggAllWrites df cfg2 na k
    apply List.mem_append_left
    apply List.mem_append_left
    exact List.mem_cons_of_mem _ (List.mem_cons_of_mem _ (List.mem_cons_self _ _))
  · intro p hp hpk
    unfold buildRow at hp
    rw [List.mem_append] at hp
    rcases hp with hp | hp
    · rw [List.mem_append] at hp
      rcases hp with hp | hp
      · unfold baseWrites at hp
        simp only [List.mem_cons, List.not_mem_nil, or_false] at hp
        rcases hp with hp | hp | hp | hp
        · exfalso
          rw [hp] at hpk
          have h2 : ("hospitalization_id" : String) = "nth_hour" := hpk
          exact absurd h2 (by decide)
        · exfalso
          rw [hp] at hpk
          have h2 : ("event_time_hour" : String) = "nth_hour" := hpk
          exact absurd h2 (by decide)
        · rw [hp]
        · exfalso
          rw [hp] at hpk
          have h2 : ("hour_bucket" : String) = "nth_hour" := hpk
          exact absurd h2 (by decide)
      · exfalso
        unfold carriedWrites at hp
        rw [List.mem_append] at hp
        rcases hp with hp | hp
        · split_ifs at hp
          · rw [List.mem_singleton] at hp
            rw [hp] at hpk
            have h2 : ("patient_id" : String) = "nth_hour" := hpk
            exact absurd h2 (by decide)
          · exact absurd hp (List.not_mem_nil p)
        · split_ifs at hp
          · rw [List.mem_singleton] at hp
            rw [hp] at hpk
            have h2 : ("day_number" : String) = "nth_hour" := hpk
            exact absurd h2 (by decide)
          · exact absurd hp (List.not_mem_nil p)
    · exfalso
      unfold aggAllWrites at hp
      obtain ⟨e, he, hp2⟩ := List.mem_flatMap.1 hp
      obtain ⟨c, hc, hp3⟩ := List.mem_flatMap.1 hp2
      exact aggWrites_key_ne df na (groupRows df k) e.1 c "nth_hour"
        (by decide) (by decide) (by decide) (by decide) (by decide) (by decide)
        (by decide) (by decide)
        (lastCharNotDigit _ 'r' (by decide) (by decide)) p hp3 hpk

theorem fillAll_preserves_nat (ks : List ColName) (r : HRow) (key : ColName) (n : Nat)
    (h : rowGet r key = some (HVal.nat n)) :
    rowGet (fillAll ks r) key = some (HVal.nat n) := by
  induction ks generalizing r with
  | nil => exact h
  | cons k ks ih =>
    show rowGet (fillAll ks (fillRowFor k r)) key = some (HVal.nat n)
    apply ih
    rw [rowGet_fillRowFor]
    by_cases hk : k = key
    · subst hk
      rw [if_pos rfl, h]
      rfl
    · rw [if_neg hk]
      exact h

theorem hourlyRow_hosp (df : WideDF) (cfg2 : AggConfig) (na ks : List ColName)
    (k : Nat × Int) :
    rowGet (fillAll ks (buildRow df cfg2 na k)) "hospitalization_id"
      = some (HVal.nat k.1) :=
  fillAll_preserves_nat ks _ _ k.1 (buildRow_hosp_get df cfg2 na k)

theorem hourlyRow_nth (df : WideDF) (cfg2 : AggConfig) (na ks : List ColName)
    (k : Nat × Int) :
    rowGet (fillAll ks (buildRow df cfg2 na k)) "nth_hour"
      = some (HVal.num ((nthOf df k : Int) : ℚ)) :=
  fillAll_preserves_int ks _ _ _ (by rw [truncRat_intCast]) (buildRow_nth_get df cfg2 na k)

theorem hrowKeyQ_buildRow (df : WideDF) (cfg2 : AggConfig) (na : List ColName)
    (k : Nat × Int) :
    hrowKeyQ (buildRow df cfg2 na k) = (k.1, ((nthOf df k : Int) : ℚ)) := by
  unfold hrowKeyQ
  rw [buildRow_hosp_get, buildRow_nth_get]

/-- The per-group result rows come out already sorted by
`(hospitalization_id, nth_hour)`: the groupby iterates keys in ascending
order and `nth_hour` is monotone in the hour within a hospitalization. -/
theorem builtRows_sorted (df : WideDF) (cfg : AggConfig) :
    List.Sorted hrowLE (builtRowsOf df cfg) := by
  unfold builtRowsOf
  apply List.Pairwise.map
  · intro a b hab
    show hrowLE _ _
    unfold hrowLE
    rw [hrowKeyQ_buildRow, hrowKeyQ_buildRow]
    have hab2 : a.1 < b.1 ∨ (a.1 = b.1 ∧ a.2 ≤ b.2) := hab
    rcases hab2 with h | ⟨he, h2⟩
    · exact Or.inl h
    · refine Or.inr ⟨he, ?_⟩
      show ((nthOf df a : Int) : ℚ) ≤ ((nthOf df b : Int) : ℚ)
      rw [Int.cast_le]
      unfold nthOf
      rw [he]
      exact Int.ediv_le_ediv (by norm_num) (by omega)
  · exact List.sorted_insertionSort keyLE _

theorem hourlyRows_eq_keys (df : WideDF) (cfg : AggConfig) :
    hourlyRowsOf df cfg = (sortedKeys df).map (fun k =>
      fillAll (oneHotFillCols (updateConfig df cfg) (hourlyColsOf df cfg))
        (buildRow df (updateConfig df cfg) (nonAggCols df cfg) k)) := by
  rw [hourlyRowsOf_eq, List.Sorted.insertionSort_eq (builtRows_sorted df cfg)]
  unfold builtRowsOf
  rw [List.map_map]
  rfl

theorem nthList_eq (df : WideDF) (cfg : AggConfig) (h : Nat) :
    nthList ⟨hourlyColsOf df cfg, hourlyRowsOf df cfg⟩ h =
      (sortedKeys df).filterMap (fun k =>
        if k.1 = h then some ((nthOf df k : Int) : ℚ) else none) := by
  show (hourlyRowsOf df cfg).filterMap _ = _
  rw [hourlyRows_eq_keys, List.filterMap_map]
  apply filterMap_congr_mem
  intro k hk
  show (match rowGet (fillAll (oneHotFillCols (updateConfig df cfg)
        (hourlyColsOf df cfg)) (buildRow df (updateConfig df cfg)
        (nonAggCols df cfg) k)) "hospitalization_id",
      rowGet (fillAll (oneHotFillCols (updateConfig df cfg) (hourlyColsOf df cfg))
        (buildRow df (updateConfig df cfg) (nonAggCols df cfg) k)) "nth_hour" with
    | some (HVal.nat h2), some (HVal.num q) => if h2 = h then some q else none
    | _, _ => none) = _
  rw [hourlyRow_hosp, hourlyRow_nth]

theorem mem_sortedKeys_iff (df : WideDF) (k : Nat × Int) :
    k ∈ sortedKeys df ↔ ∃ r ∈ df.rows, rowKey r = k := by
  unfold sortedKeys
  rw [List.mem_insertionSort, mem_dedupF, List.mem_map]

theorem sortedKeys_hour_mul (df : WideDF) (k : Nat × Int) (hk : k ∈ sortedKeys df) :
    ∃ x : Int, k.2 = x * 3600 := by
  rw [mem_sortedKeys_iff] at hk
  obtain ⟨r, _, hr⟩ := hk
  exact ⟨Int.fdiv (r.et.getD 0) 3600, by rw [← hr]; rfl⟩

theorem pairwise_mem {α : Type} {R : α → α → Prop} :
    ∀ {l : List α}, l.Pairwise R → l.Pairwise (fun a b => R a b ∧ a ∈ l ∧ b ∈ l) := by
  intro l h
  induction l with
  | nil => exact List.Pairwise.nil
  | cons a t ih =>
    obtain ⟨hhead, htail⟩ := List.pairwise_cons.1 h
    apply List.pairwise_cons.2
    constructor
    · intro b hb
      exact ⟨hhead b hb, List.mem_cons_self a t, List.mem_cons_of_mem a hb⟩
    · exact (ih htail).imp
        (fun hxy => ⟨hxy.1, List.mem_cons_of_mem a hxy.2.1, List.mem_cons_of_mem a hxy.2.2⟩)

theorem etList_exists (df : WideDF) (h : Nat) (t : Int) (ht : t ∈ etList df h) :
    ∃ r ∈ df.rows, r.hosp = h ∧ r.et = some t := by
  unfold etList at ht
  obtain ⟨r, hr, hre⟩ := List.mem_filterMap.1 ht
  rw [List.mem_filter] at hr
  exact ⟨r, hr.1, by simpa using hr.2, hre⟩

theorem key_of_et (df : WideDF) (h : Nat) (t : Int) (ht : t ∈ etList df h) :
    (h, floorHour t) ∈ sortedKeys df := by
  obtain ⟨r, hr, hrh, hre⟩ := etList_exists df h t ht
  rw [mem_sortedKeys_iff]
  refine ⟨r, hr, ?_⟩
  unfold rowKey
  rw [hrh, hre]
  rfl

theorem nthOf_key_hosp (df : WideDF) (h : Nat) (t : Int) :
    nthOf df (h, floorHour t)
      = Int.fdiv t 3600 - Int.fdiv (minList (etList df h)) 3600 := by
  unfold nthOf
  show (floorHour t - firstEventHour df h) / 3600 = _
  rw [firstEventHour_floor, floorHour_sub_div]

/-- **C2 (amended).** On a successful run, for every hospitalization with
at least one wide row: its `nth_hour` values start at 0, are nonnegative,
are strictly increasing in output row order, and their maximum is the
difference of the hour floors of the extreme event times (not the floor
of the event-time difference). -/
theorem C2_nth_hour_invariants (df : WideDF) (cfg : AggConfig) (out : HourlyDF)
    (h : Nat)
    (hok : (convert_wide_to_hourly df cfg).res = Except.ok out)
    (hh : ∃ r ∈ df.rows, r.hosp = h) :
    0 ∈ nthList out h ∧
    (∀ q ∈ nthList out h, 0 ≤ q) ∧
    ((Int.fdiv (maxList (etList df h)) 3600
        - Int.fdiv (minList (etList df h)) 3600 : Int) : ℚ) ∈ nthList out h ∧
    (∀ q ∈ nthList out h, q ≤ ((Int.fdiv (maxList (etList df h)) 3600
        - Int.fdiv (minList (etList df h)) 3600 : Int) : ℚ)) ∧
    List.Pairwise (· < ·) (nthList out h) := by
  obtain ⟨hout, hnn⟩ := convert_ok_inv df cfg out hok
  rw [hout, nthList_eq]
  have hne : etList df h ≠ [] := by
    obtain ⟨r, hr, hrh⟩ := hh
    have hetn := hnn r hr
    cases hre : r.et with
    | none => exact absurd hre hetn
    | some t =>
      apply List.ne_nil_of_mem (a := t)
      unfold etList
      apply List.mem_filterMap.2
      refine ⟨r, ?_, hre⟩
      rw [List.mem_filter]
      exact ⟨hr, by simp [hrh]⟩
  have hkey_val : ∀ t ∈ etList df h,
      ((Int.fdiv t 3600 - Int.fdiv (minList (etList df h)) 3600 : Int) : ℚ) ∈
        (sortedKeys df).filterMap (fun k =>
          if k.1 = h then some ((nthOf df k : Int) : ℚ) else none) := by
    intro t ht
    apply List.mem_filterMap.2
    refine ⟨(h, floorHour t), key_of_et df h t ht, ?_⟩
    rw [if_pos rfl, nthOf_key_hosp]
  have hmem_shape : ∀ q ∈ (sortedKeys df).filterMap (fun k =>
      if k.1 = h then some ((nthOf df k : Int) : ℚ) else none),
      ∃ t ∈ etList df h,
        q = ((Int.fdiv t 3600 - Int.fdiv (minList (etList df h)) 3600 : Int) : ℚ) := by
    intro q hq
    obtain ⟨k, hk, hkq⟩ := List.mem_filterMap.1 hq
    by_cases hkh : k.1 = h
    · rw [if_pos hkh] at hkq
      rw [mem_sortedKeys_iff] at hk
      obtain ⟨r, hr, hrk⟩ := hk
      have hetn := hnn r hr
      cases hre : r.et with
      | none => exact absurd hre hetn
      | some t =>
        have ht : t ∈ etList df h := by
          unfold etList
          apply List.mem_filterMap.2
          refine ⟨r, ?_, hre⟩
          rw [List.mem_filter]
          have hrh : r.hosp = h := by
            rw [← hrk] at hkh
            exact hkh
          exact ⟨hr, by simp [hrh]⟩
        refine ⟨t, ht, ?_⟩
        have hk2 : k.2 = floorHour t := by
          rw [← hrk]
          show floorHour (r.et.getD 0) = floorHour t
          rw [hre]
          rfl
        have hnth : nthOf df k
            = Int.fdiv t 3600 - Int.fdiv (minList (etList df h)) 3600 := by
          have h3 : nthOf df (k.1, k.2) = nthOf df k := rfl
          rw [← h3, hkh, hk2, nthOf_key_hosp]
        have hqe : q = ((nthOf df k : Int) : ℚ) := by
          injection hkq with h4
          exact h4.symm
        rw [hqe, hnth]
    · rw [if_neg hkh] at hkq
      exact absurd hkq (by simp)
  refine ⟨?_, ?_, ?_, ?_, ?_⟩
  · have h0 := hkey_val (minList (etList df h)) (minList_mem _ hne)
    simpa using h0
  · intro q hq
    obtain ⟨t, ht, hte⟩ := hmem_shape q hq
    rw [hte]
    have hd : (0 : Int) ≤ Int.fdiv t 3600 - Int.fdiv (minList (etList df h)) 3600 := by
      have := fdiv3600_mono (minList_le (etList df h) t ht)
      omega
    exact_mod_cast hd
  · exact hkey_val (maxList (etList df h)) (maxList_mem _ hne)
  · intro q hq
    obtain ⟨t, ht, hte⟩ := hmem_shape q hq
    rw [hte]
    have hd : Int.fdiv t 3600 - Int.fdiv (minList (etList df h)) 3600
        ≤ Int.fdiv (maxList (etList df h)) 3600
          - Int.fdiv (minList (etList df h)) 3600 := by
      have := fdiv3600_mono (le_maxList (etList df h) t ht)
      omega
    exact_mod_cast hd
  · apply List.pairwise_filterMap.2
    have hs : (sortedKeys df).Pairwise keyLE := by
      unfold sortedKeys
      exact List.sorted_insertionSort keyLE _
    have hn : (sortedKeys df).Nodup := by
      unfold sortedKeys
      exact ((List.perm_insertionSort keyLE _).symm).nodup (nodup_dedupF _)
    apply (pairwise_mem (hs.and hn)).imp
    intro a b hab
    obtain ⟨⟨hle, hne2⟩, ha, hb⟩ := hab
    intro q hq q2 hq2
    by_cases hah : a.1 = h
    case neg =>
      rw [if_neg hah] at hq
      exact absurd hq (by simp)
    by_cases hbh : b.1 = h
    case neg =>
      rw [if_neg hbh] at hq2
      exact absurd hq2 (by simp)
    rw [if_pos hah] at hq
    rw [if_pos hbh] at hq2
    have hqe : q = ((nthOf df a : Int) : ℚ) := by simpa using hq.symm
    have hqe2 : q2 = ((nthOf df b : Int) : ℚ) := by simpa using hq2.symm
    have hfst : a.1 = b.1 := by rw [hah, hbh]
    have hsnd : a.2 < b.2 := by
      have hle2 : a.1 < b.1 ∨ (a.1 = b.1 ∧ a.2 ≤ b.2) := hle
      rcases hle2 with h2 | ⟨_, h2⟩
      · exfalso
        rw [hfst] at h2
        exact lt_irrefl b.1 h2
      · rcases lt_or_eq_of_le h2 with h3 | h3
        · exact h3
        · exfalso
          apply hne2
          have hpa : a = (a.1, a.2) := rfl
          have hpb : b = (b.1, b.2) := rfl
          rw [hpa, hpb, hfst, h3]
    obtain ⟨x, hx⟩ := sortedKeys_hour_mul df a ha
    obtain ⟨y, hy⟩ := sortedKeys_hour_mul df b hb
    have hxy : x < y := by
      rw [hx, hy] at hsnd
      exact lt_of_mul_lt_mul_right hsnd (by norm_num)
    have hnthlt : nthOf df a < nthOf df b := by
      unfold nthOf
      rw [hfst, hx, hy]
      have hf : ∃ m : Int, firstEventHour df b.1 = m * 3600 := by
        rw [firstEventHour_floor]
        exact ⟨Int.fdiv (minList (etList df b.1)) 3600, rfl⟩
      obtain ⟨m, hm⟩ := hf
      rw [hm, ← sub_mul, ← sub_mul, Int.mul_ediv_cancel _ (by norm_num),
        Int.mul_ediv_cancel _ (by norm_num)]
      omega
    rw [hqe, hqe2]
    exact_mod_cast hnthlt

theorem C2_nth_hour_witness :
    0 ∈ nthList (outOf (convert_wide_to_hourly C2df [])) 1 ∧
    ((Int.fdiv (maxList (etList C2df 1)) 3600
        - Int.fdiv (minList (etList C2df 1)) 3600 : Int) : ℚ)
      ∈ nthList (outOf (convert_wide_to_hourly C2df [])) 1 ∧
    List.Pairwise (· < ·) (nthList (outOf (convert_wide_to_hourly C2df [])) 1) := by
  have h := C2_nth_hour_invariants C2df [] (outOf (convert_wide_to_hourly C2df [])) 1
    (by rfl) (by decide)
  exact ⟨h.1, h.2.2.1, h.2.2.2.2⟩


/-! ## Claim C10: null event_time aborts day numbering -/

theorem joinAdt_null_mem (adtF : List AdtRow) (rows : List WideRow) (r : WideRow)
    (hr : r ∈ rows) (hre : r.et = none) : r ∈ joinAdt adtF rows := by
  unfold joinAdt
  apply List.mem_flatMap.2
  refine ⟨r, hr, ?_⟩
  rw [hre]
  show r ∈ [r]
  exact List.mem_singleton.2 rfl

theorem joinPivots_null_mem (ps : List (String × PivotTable)) :
    ∀ (rows : List WideRow) (r : WideRow), r ∈ rows → r.et = none →
      ∃ r2 ∈ joinPivots ps rows, r2.et = none := by
  induction ps with
  | nil => exact fun rows r hr hre => ⟨r, hr, hre⟩
  | cons np ps ih =>
    intro rows r hr hre
    exact ih _
      ({ r with pivots := r.pivots ++ [(np.1, pivotMatch np.2 (rowCombo r.hosp r.et))] })
      (List.mem_map_of_mem _ hr) hre

theorem joinSecond_null_mem (ss : List (String × OptTable × String)) :
    ∀ (rows : List WideRow) (r : WideRow), r ∈ rows → r.et = none →
      ∃ r2 ∈ joinSecond ss rows, r2.et = none := by
  induction ss with
  | nil => exact fun rows r hr hre => ⟨r, hr, hre⟩
  | cons nts ss ih =>
    intro rows r hr hre
    obtain ⟨rh, rp, ret, ra, rpv, rs⟩ := r
    have hre2 : ret = none := hre
    subst hre2
    apply ih _ (⟨rh, rp, none, ra, rpv, rs ++ [(nts.1, none)]⟩ : WideRow)
    · apply List.mem_flatMap.2
      refine ⟨_, hr, ?_⟩
      show _ ∈ [(⟨rh, rp, none, ra, rpv, rs ++ [(nts.1, none)]⟩ : WideRow)]
      exact List.mem_singleton.2 rfl
    · rfl

/-- **C10.** If the second-pass join binds (no missing timestamp column)
and some hospitalization of the resolved cohort contributes no event to
any included source, the left-outer expansion emits a null `event_time`
row for it and the build aborts at the day-number integer cast instead of
returning a wide table. -/
theorem C10_null_event_time_error (c : CLIFData) (opt : List String)
    (filters : List (String × List String)) (h p : String)
    (hb : ((secondListOf c opt filters).any
      (fun nts => decide (nts.2.2 ∉ nts.2.1.cols))) = false)
    (hcoh : (h, p) ∈ baseCohort c)
    (hnoev : hospEvents (eventsOf c opt filters) h = [])
    (_hev : eventsOf c opt filters ≠ []) :
    create_wide_dataset c opt filters
      = WideResult.err "Cannot convert non-finite values (NA or inf) to integer" := by
  have hr0 : (⟨h, p, none, none, [], []⟩ : WideRow) ∈
      expandedRows (baseCohort c) (eventsOf c opt filters) := by
    unfold expandedRows
    rw [mem_dedupF]
    apply List.mem_flatMap.2
    refine ⟨(h, p), hcoh, ?_⟩
    show _ ∈ if (hospEvents (eventsOf c opt filters) h).isEmpty then _ else _
    rw [hnoev]
    show _ ∈ [(⟨h, p, none, none, [], []⟩ : WideRow)]
    exact List.mem_singleton.2 rfl
  have hr1 : (⟨h, p, none, none, [], []⟩ : WideRow) ∈
      joinAdt (adtFOf c) (expandedRows (baseCohort c) (eventsOf c opt filters)) :=
    joinAdt_null_mem _ _ _ hr0 rfl
  obtain ⟨r2, hr2, hre2⟩ := joinPivots_null_mem (pivotAssocOf c opt filters) _ _ hr1 rfl
  obtain ⟨r3, hr3, hre3⟩ := joinSecond_null_mem (secondListOf c opt filters) _ _ hr2 hre2
  have hany : (joinedOf c opt filters).any (fun r => r.et.isNone) = true := by
    rw [List.any_eq_true]
    refine ⟨r3, ?_, ?_⟩
    · unfold joinedOf
      rw [mem_dedupF]
      exact hr3
    · rw [hre3]
      rfl
  have hb2 : ¬ ((secondListOf c opt filters).any
      (fun nts => decide (nts.2.2 ∉ nts.2.1.cols)) = true) := by
    rw [hb]
    exact Bool.false_ne_true
  unfold create_wide_dataset
  rw [if_neg hb2, if_pos hany]

def C10data : CLIFData :=
  ⟨["P1", "P2"], [("H1", "P1"), ("H2", "P2")], [⟨"H1", some 30000, some "icu"⟩], []⟩

theorem C10_witness :
    create_wide_dataset C10data [] []
      = WideResult.err "Cannot convert non-finite values (NA or inf) to integer" :=
  C10_null_event_time_error C10data [] [] "H2" "P2" (by rfl) (by decide) (by rfl)
    (by decide)


/-! ## Claim C1: wide row multiplicity -/

/-- Success of the builder: the output is the final stage and no joined
row has a null event time. -/
theorem wide_ok_inv (c : CLIFData) (opt : List String)
    (filters : List (String × List String)) (out : WideOut)
    (hok : create_wide_dataset c opt filters = WideResult.ok out) :
    out = ⟨finalColsOf c opt filters, finalRowsOf c opt filters⟩ ∧
    ((joinedOf c opt filters).any (fun r => r.et.isNone)) = false := by
  unfold create_wide_dataset at hok
  split_ifs at hok with h1 h2
  injection hok with h
  refine ⟨h.symm, ?_⟩
  exact Bool.eq_false_iff.2 h2

/-- Under a successful build, every cohort hospitalization has at least
one event. -/
theorem hosp_has_events (c : CLIFData) (opt : List String)
    (filters : List (String × List String)) (out : WideOut) (h p : String)
    (hok : create_wide_dataset c opt filters = WideResult.ok out)
    (hcoh : (h, p) ∈ baseCohort c) :
    hospEvents (eventsOf c opt filters) h ≠ [] := by
  intro hemp
  obtain ⟨_, hnull⟩ := wide_ok_inv c opt filters out hok
  have hr0 : (⟨h, p, none, none, [], []⟩ : WideRow) ∈
      expandedRows (baseCohort c) (eventsOf c opt filters) := by
    unfold expandedRows
    rw [mem_dedupF]
    apply List.mem_flatMap.2
    refine ⟨(h, p), hcoh, ?_⟩
    show _ ∈ if (hospEvents (eventsOf c opt filters) h).isEmpty then _ else _
    rw [hemp]
    show _ ∈ [(⟨h, p, none, none, [], []⟩ : WideRow)]
    exact List.mem_singleton.2 rfl
  have hr1 : (⟨h, p, none, none, [], []⟩ : WideRow) ∈
      joinAdt (adtFOf c) (expandedRows (baseCohort c) (eventsOf c opt filters)) :=
    joinAdt_null_mem _ _ _ hr0 rfl
  obtain ⟨r2, hr2, hre2⟩ := joinPivots_null_mem (pivotAssocOf c opt filters) _ _ hr1 rfl
  obtain ⟨r3, hr3, hre3⟩ := joinSecond_null_mem (secondListOf c opt filters) _ _ hr2 hre2
  have hany : (joinedOf c opt filters).any (fun r => r.et.isNone) = true := by
    rw [List.any_eq_true]
    refine ⟨r3, ?_, ?_⟩
    · unfold joinedOf
      rw [mem_dedupF]
      exact hr3
    · rw [hre3]
      rfl
  rw [hnull] at hany
  exact Bool.false_ne_true hany

/-- The per-hospitalization event times are distinct (the unified event
list is `SELECT DISTINCT` of pairs). -/
theorem hospEvents_nodup (c : CLIFData) (opt : List String)
    (filters : List (String × List String)) (h : String) :
    (hospEvents (eventsOf c opt filters) h).Nodup := by
  unfold hospEvents
  apply List.Nodup.map_on
  · intro x hx y hy hxy
    rw [List.mem_filter] at hx hy
    have hx1 : x.1 = h := by simpa using hx.2
    have hy1 : y.1 = h := by simpa using hy.2
    have h1 : x.1 = y.1 := by rw [hx1, hy1]
    exact Prod.ext_iff.2 ⟨h1, hxy⟩
  · exact List.Nodup.filter _ (nodup_dedupF _)

theorem expandedRows_shape (base : List (String × String))
    (events : List (String × Int)) (r : WideRow)
    (hr : r ∈ expandedRows base events) :
    r = ⟨r.hosp, r.patient, r.et, none, [], []⟩ := by
  obtain ⟨bp, _, hcase⟩ := mem_expandedRows hr
  rcases hcase with he | ⟨t, _, he⟩ <;> rw [he]

theorem expanded_key_pairwise (base : List (String × String))
    (events : List (String × Int)) :
    (expandedRows base events).Pairwise
      (fun a b => ¬(a.hosp = b.hosp ∧ a.patient = b.patient ∧ a.et = b.et)) := by
  have hn : (expandedRows base events).Nodup := nodup_dedupF _
  exact (pairwise_mem hn).imp (fun hab hk => hab.1 (by
    have sa := expandedRows_shape base events _ hab.2.1
    have sb := expandedRows_shape base events _ hab.2.2
    rw [sa, sb, hk.1, hk.2.1, hk.2.2]))

/-- With at most one location match per row, the ADT join emits one
output row per input row and preserves key distinctness. -/
theorem joinAdt_nodup (adtF : List AdtRow) :
    ∀ rows : List WideRow,
      (∀ r ∈ rows, (adtMatches adtF (rowCombo r.hosp r.et)).length ≤ 1) →
      rows.Pairwise (fun a b => ¬(a.hosp = b.hosp ∧ a.patient = b.patient ∧ a.et = b.et)) →
      (joinAdt adtF rows).Nodup := by
  intro rows
  induction rows with
  | nil => intro _ _; exact List.Pairwise.nil
  | cons r rows ih =>
    intro hlen hpw
    obtain ⟨hhead, htail⟩ := List.pairwise_cons.1 hpw
    show ((if (adtMatches adtF (rowCombo r.hosp r.et)).isEmpty then [r]
        else (adtMatches adtF (rowCombo r.hosp r.et)).map (fun m => { r with adt := some m }))
      ++ joinAdt adtF rows).Nodup
    have hbranchkey : ∀ x, x ∈ (if (adtMatches adtF (rowCombo r.hosp r.et)).isEmpty then [r]
        else (adtMatches adtF (rowCombo r.hosp r.et)).map (fun m => { r with adt := some m })) →
        x.hosp = r.hosp ∧ x.patient = r.patient ∧ x.et = r.et := by
      intro x hx
      split_ifs at hx
      · rw [List.mem_singleton] at hx
        rw [hx]
        exact ⟨rfl, rfl, rfl⟩
      · obtain ⟨m, _, he⟩ := List.mem_map.1 hx
        rw [← he]
        exact ⟨rfl, rfl, rfl⟩
    apply List.Nodup.append
    · cases hm : adtMatches adtF (rowCombo r.hosp r.et) with
      | nil =>
        show ([r]).Nodup
        exact List.nodup_singleton r
      | cons m ms =>
        have hms : ms = [] := by
          have h2 := hlen r (List.mem_cons_self r rows)
          rw [hm, List.length_cons] at h2
          exact List.eq_nil_of_length_eq_zero (by omega)
        subst hms
        have hred : (if ([m] : List AdtRow).isEmpty = true then [r]
            else [m].map (fun m => { r with adt := some m }))
            = [{ r with adt := some m }] := rfl
        rw [hred]
        exact List.nodup_singleton _
    · exact ih (fun x hx => hlen x (List.mem_cons_of_mem r hx)) htail
    · intro x hx hx2
      obtain ⟨k1, k2, k3⟩ := hbranchkey x hx
      obtain ⟨r2, hr2, e1, e2, e3, _, _⟩ := mem_joinAdt hx2
      exact hhead r2 hr2 ⟨by rw [← k1, e1], by rw [← k2, e2], by rw [← k3, e3]⟩

theorem joinPivots_nodup (ps : List (String × PivotTable)) :
    ∀ rows : List WideRow, rows.Nodup → (joinPivots ps rows).Nodup := by
  induction ps with
  | nil => exact fun rows hn => hn
  | cons np ps ih =>
    intro rows hn
    apply ih
    apply List.Nodup.map_on ?_ hn
    intro x hx y hy he
    obtain ⟨xh, xp, xe, xa, xpv, xs⟩ := x
    obtain ⟨yh, yp, ye, ya, ypv, ys⟩ := y
    injection he with e1 e2 e3 e4 e5 e6
    subst e1
    subst e2
    subst e3
    subst e4
    subst e6
    have e7 : xpv = ypv := List.append_cancel_right e5
    rw [e7]

theorem joinSecond_nil (rows : List WideRow) : joinSecond [] rows = rows := rfl

theorem countP_joinPivots (ps : List (String × PivotTable)) (h : String) :
    ∀ rows : List WideRow,
      (joinPivots ps rows).countP (fun r => r.hosp == h)
        = rows.countP (fun r => r.hosp == h) := by
  induction ps with
  | nil => intro rows; rfl
  | cons np ps ih =>
    intro rows
    show (joinPivots ps (rows.map _)).countP _ = _
    rw [ih, List.countP_map]
    rfl

theorem countP_joinAdt (adtF : List AdtRow) (h : String) :
    ∀ rows : List WideRow,
      (∀ r ∈ rows, (adtMatches adtF (rowCombo r.hosp r.et)).length ≤ 1) →
      (joinAdt adtF rows).countP (fun r => r.hosp == h)
        = rows.countP (fun r => r.hosp == h) := by
  intro rows
  induction rows with
  | nil => intro _; rfl
  | cons r rows ih =>
    intro hlen
    show ((if (adtMatches adtF (rowCombo r.hosp r.et)).isEmpty then [r]
        else (adtMatches adtF (rowCombo r.hosp r.et)).map (fun m => { r with adt := some m }))
      ++ joinAdt adtF rows).countP (fun r2 => r2.hosp == h) = _
    rw [List.countP_append, ih (fun x hx => hlen x (List.mem_cons_of_mem r hx)),
      List.countP_cons]
    have hbr : (if (adtMatches adtF (rowCombo r.hosp r.et)).isEmpty then [r]
        else (adtMatches adtF (rowCombo r.hosp r.et)).map
          (fun m => { r with adt := some m })).countP (fun r2 => r2.hosp == h)
        = if (r.hosp == h) = true then 1 else 0 := by
      cases hm : adtMatches adtF (rowCombo r.hosp r.et) with
      | nil =>
        show ([r]).countP (fun r2 => r2.hosp == h) = _
        rw [List.countP_cons, List.countP_nil]
        omega
      | cons m ms =>
        have hms : ms = [] := by
          have h2 := hlen r (List.mem_cons_self r rows)
          rw [hm, List.length_cons] at h2
          exact List.eq_nil_of_length_eq_zero (by omega)
        subst hms
        show ([{ r with adt := some m }]).countP (fun r2 => r2.hosp == h) = _
        rw [List.countP_cons, List.countP_nil]
        show 0 + (if (r.hosp == h) = true then 1 else 0) = _
        omega
    rw [hbr]
    omega

theorem flatMap_congr_mem {α β : Type} (l : List α) (f g : α → List β)
    (h : ∀ x ∈ l, f x = g x) : l.flatMap f = l.flatMap g := by
  induction l with
  | nil => rfl
  | cons a l ih =>
    rw [List.flatMap_cons, List.flatMap_cons, h a (List.mem_cons_self a l),
      ih (fun x hx => h x (List.mem_cons_of_mem a hx))]

theorem flatMap_if_single {α β : Type} (p : α → Bool) (g : α → List β) :
    ∀ l : List α, l.countP p = 1 →
      ∃ x ∈ l, p x = true ∧ l.flatMap (fun a => if p a then g a else []) = g x := by
  intro l
  induction l with
  | nil => intro h; simp at h
  | cons a l ih =>
    intro h
    rw [List.countP_cons] at h
    by_cases hpa : p a = true
    · rw [if_pos hpa] at h
      have hz : l.countP p = 0 := by omega
      refine ⟨a, List.mem_cons_self a l, hpa, ?_⟩
      rw [List.flatMap_cons, if_pos hpa]
      have hnil : l.flatMap (fun a => if p a then g a else []) = [] := by
        rw [List.flatMap_eq_nil_iff]
        intro x hx
        rw [if_neg (List.countP_eq_zero.1 hz x hx)]
      rw [hnil, List.append_nil]
    · rw [if_neg hpa] at h
      have h1 : l.countP p = 1 := by omega
      obtain ⟨x, hx, hpx, he⟩ := ih h1
      refine ⟨x, List.mem_cons_of_mem a hx, hpx, ?_⟩
      rw [List.flatMap_cons, if_neg hpa, List.nil_append, he]

def C1vitals : OptTable := ⟨["hospitalization_id", "recorded_dttm", "vital_category",
    "vital_value"],
  [⟨"H1", [("recorded_dttm", some (Cell.t 36000)), ("vital_category", some (Cell.s "heart_rate")),
    ("vital_value", some (Cell.v 80))]⟩,
   ⟨"H1", [("recorded_dttm", some (Cell.t 36045)), ("vital_category", some (Cell.s "heart_rate")),
    ("vital_value", some (Cell.v 82))]⟩]⟩

def C1data : CLIFData :=
  ⟨["P1"], [("H1", "P1")], [⟨"H1", some 30000, some "icu"⟩], [("vitals", C1vitals)]⟩

def C1out : WideOut :=
  match create_wide_dataset C1data ["vitals"] [] with
  | WideResult.ok o => o
  | _ => ⟨[], []⟩

/-- C1 counterexample: two vitals 45 seconds apart in the same minute
(10:00:00 and 10:00:45) plus one location transfer give three wide rows
for the hospitalization, not the two distinct minute-truncated times the
claim predicts: the event union is `SELECT DISTINCT` over raw (second
resolution) timestamps, and same-minute rows do not collapse. -/
theorem C1_counterexample :
    (C1out.rows.filter (fun fr => fr.w.hosp == "H1")).length = 3 ∧
    (dedupF ((hospEvents (eventsOf C1data ["vitals"] []) "H1").map
      (fun t => Int.fdiv t 60))).length = 2 := by
  constructor
  · rfl
  · rfl

/-- **C1 (amended).** On a successful build in which every joined row
has at most one location match and every included table pivots cleanly
(no second-pass joins), a hospitalization appearing exactly once in the
resolved cohort gets exactly one wide row per distinct raw event
timestamp — second resolution, not minute truncation. -/
theorem C1_row_count (c : CLIFData) (opt : List String)
    (filters : List (String × List String)) (out : WideOut) (h : String)
    (hok : create_wide_dataset c opt filters = WideResult.ok out)
    (hsec : secondListOf c opt filters = [])
    (hadt : ∀ r ∈ expandedRows (baseCohort c) (eventsOf c opt filters),
      (adtMatches (adtFOf c) (rowCombo r.hosp r.et)).length ≤ 1)
    (hu1 : (baseCohort c).countP (fun e => e.1 == h) = 1) :
    (out.rows.filter (fun fr => fr.w.hosp == h)).length
      = (hospEvents (eventsOf c opt filters) h).length := by
  obtain ⟨hout, _⟩ := wide_ok_inv c opt filters out hok
  rw [hout]
  show ((finalRowsOf c opt filters).filter (fun fr => fr.w.hosp == h)).length = _
  rw [← List.countP_eq_length_filter]
  unfold finalRowsOf
  rw [List.countP_map]
  have hperm := List.perm_insertionSort wrowLE (joinedOf c opt filters)
  rw [hperm.countP_eq]
  have hJ : joinedOf c opt filters
      = joinPivots (pivotAssocOf c opt filters)
          (joinAdt (adtFOf c) (expandedRows (baseCohort c) (eventsOf c opt filters))) := by
    unfold joinedOf
    rw [hsec, joinSecond_nil]
    apply dedupF_eq_self
    apply joinPivots_nodup
    exact joinAdt_nodup (adtFOf c) _ hadt (expanded_key_pairwise _ _)
  rw [hJ]
  have hcp : ((joinPivots (pivotAssocOf c opt filters)
      (joinAdt (adtFOf c) (expandedRows (baseCohort c) (eventsOf c opt filters))))).countP
        (fun r => r.hosp == h)
      = (expandedRows (baseCohort c) (eventsOf c opt filters)).countP
        (fun r => r.hosp == h) := by
    rw [countP_joinPivots, countP_joinAdt (adtFOf c) h _ hadt]
  show List.countP (fun r => r.hosp == h)
      (joinPivots (pivotAssocOf c opt filters)
        (joinAdt (adtFOf c) (expandedRows (baseCohort c) (eventsOf c opt filters))))
    = (hospEvents (eventsOf c opt filters) h).length
  rw [hcp, List.countP_eq_length_filter]
  have hfe : (expandedRows (baseCohort c) (eventsOf c opt filters)).filter
      (fun r => r.hosp == h)
      = dedupF ((baseCohort c).flatMap (fun bp =>
          if (bp.1 == h) = true then
            (if (hospEvents (eventsOf c opt filters) bp.1).isEmpty then
              [(⟨bp.1, bp.2, none, none, [], []⟩ : WideRow)]
            else (hospEvents (eventsOf c opt filters) bp.1).map
              (fun t => ⟨bp.1, bp.2, some t, none, [], []⟩))
          else [])) := by
    unfold expandedRows
    rw [filter_dedupF, List.filter_flatMap]
    congr 1
    apply flatMap_congr_mem
    intro bp _
    by_cases hbh : bp.1 = h
    · have hc : (bp.1 == h) = true := by simpa using hbh
      rw [hc, if_pos rfl]
      apply List.filter_eq_self.2
      intro a ha
      split_ifs at ha
      · rw [List.mem_singleton] at ha
        rw [ha]
        simpa using hbh
      · obtain ⟨t, _, he⟩ := List.mem_map.1 ha
        rw [← he]
        simpa using hbh
    · have hc : (bp.1 == h) = false := by simpa using hbh
      rw [hc, if_neg (show ¬(false = true) by simp)]
      apply List.filter_eq_nil_iff.2
      intro a ha
      split_ifs at ha
      · rw [List.mem_singleton] at ha
        rw [ha]
        simpa using hbh
      · obtain ⟨t, _, he⟩ := List.mem_map.1 ha
        rw [← he]
        simpa using hbh
  rw [hfe]
  obtain ⟨bp, hbp, hbph, hbfe⟩ := flatMap_if_single (fun e => e.1 == h)
    (fun bp => (if (hospEvents (eventsOf c opt filters) bp.1).isEmpty then
        [(⟨bp.1, bp.2, none, none, [], []⟩ : WideRow)]
      else (hospEvents (eventsOf c opt filters) bp.1).map
        (fun t => ⟨bp.1, bp.2, some t, none, [], []⟩)))
    (baseCohort c) hu1
  rw [hbfe]
  have hbph2 : bp.1 = h := by simpa using hbph
  have hbp2 : (h, bp.2) ∈ baseCohort c := by
    rw [← hbph2]
    exact hbp
  have hne : hospEvents (eventsOf c opt filters) bp.1 ≠ [] := by
    rw [hbph2]
    exact hosp_has_events c opt filters out h bp.2 hok hbp2
  have hie : (hospEvents (eventsOf c opt filters) bp.1).isEmpty = false := by
    cases he2 : hospEvents (eventsOf c opt filters) bp.1 with
    | nil => exact absurd he2 hne
    | cons a l => rfl
  rw [hie]
  show (dedupF ((hospEvents (eventsOf c opt filters) bp.1).map
    (fun t => (⟨bp.1, bp.2, some t, none, [], []⟩ : WideRow)))).length = _
  have hnodup : ((hospEvents (eventsOf c opt filters) bp.1).map
      (fun t => (⟨bp.1, bp.2, some t, none, [], []⟩ : WideRow))).Nodup := by
    apply List.Nodup.map_on
    · intro x _ y _ he
      injection he with e1 e2 e3
      injection e3
    · rw [hbph2]
      exact hospEvents_nodup c opt filters h
  rw [dedupF_eq_self _ hnodup, List.length_map, hbph2]

theorem C1_amended_witness :
    (C1out.rows.filter (fun fr => fr.w.hosp == "H1")).length
      = (hospEvents (eventsOf C1data ["vitals"] []) "H1").length := by
  have h := C1_row_count C1data ["vitals"] [] C1out "H1" (by rfl) (by rfl)
    (by decide) (by rfl)
  exact h


/-! ## Claim C4: a typed refinement of the aggregator

The integer-cell model of the aggregator above cannot express the two
type-dependent aborts of the source: `mean`/`median` on a string-valued
column raise `TypeError` inside the group loop (lines 649-653), and the
one-hot fill pass applies `fillna(0).astype(int)` to every column whose
name starts with `col + "_"` (lines 686-693), which raises when such a
column holds strings (for example a carried `_c` column of a string
source column captured by the prefix). This section re-embeds the
aggregator with each cell labelled by its runtime type (`TVal`): columns
holding only numbers behave as numeric columns, a column holding a
string value behaves as an object column, and the failing operations
return `Except.error`. On all-numeric frames this refinement agrees with
the integer model. -/

/-- A typed wide-frame cell value: a number or a string. -/
inductive TVal where
  | i : Int → TVal
  | s : String → TVal
deriving DecidableEq, Repr

def tIsStr : TVal → Bool
  | TVal.s _ => true
  | _ => false

def tvalStr : TVal → String
  | TVal.i n => toString n
  | TVal.s st => st

def numsOf (vs : List TVal) : List Int :=
  vs.filterMap (fun v => match v with | TVal.i n => some n | _ => none)

def strsOf (vs : List TVal) : List String :=
  vs.filterMap (fun v => match v with | TVal.s st => some st | _ => none)

def valsHaveStr (vs : List TVal) : Bool := vs.any tIsStr

def valsHaveNum (vs : List TVal) : Bool := vs.any (fun v => !(tIsStr v))

/-- Python string max / min (codepoint lexicographic, as pandas applies
to an all-string object column). -/
def strMaxList (l : List String) : String :=
  match l with
  | [] => ""
  | a :: t => t.foldl (fun x y => if strLTb x y then y else x) a

def strMinList (l : List String) : String :=
  match l with
  | [] => ""
  | a :: t => t.foldl (fun x y => if strLTb y x then y else x) a

/-- A typed row of the wide frame handed to the aggregator. -/
structure TWRow where
  hosp : Nat
  et : Option Int
  cells : List (ColName × Option TVal)
deriving DecidableEq, Repr

structure TWideDF where
  cols : List ColName
  rows : List TWRow
deriving DecidableEq, Repr

/-- Typed output cell values: the integer-model values plus strings
(`first`/`last`/`max`/`min` of a string column produce strings). -/
inductive THVal where
  | num : ℚ → THVal
  | nat : Nat → THVal
  | time : Int → THVal
  | str : String → THVal
  | null : THVal
deriving DecidableEq, Repr

abbrev THRow := List (ColName × THVal)

def tRowGet (r : THRow) (k : ColName) : Option THVal :=
  (r.reverse.find? (fun p => p.1 == k)).map Prod.snd

def tIsStrHV : Option THVal → Bool
  | some (THVal.str _) => true
  | _ => false

def thvalOfOpt : Option TVal → THVal
  | some (TVal.i n) => THVal.num (n : ℚ)
  | some (TVal.s st) => THVal.str st
  | none => THVal.null

def tCellVal (r : TWRow) (c : ColName) : Option TVal :=
  match r.cells.find? (fun p => p.1 == c) with
  | some p => p.2
  | none => none

def tFirstEventHour (df : TWideDF) (h : Nat) : Int :=
  minList ((df.rows.filter (fun r => r.hosp == h)).filterMap (fun r => r.et.map floorHour))

def tGetVal (df : TWideDF) (r : TWRow) (c : ColName) : Option TVal :=
  if c = "event_time_hour" then r.et.map (fun t => TVal.i (floorHour t))
  else if c = "first_event_hour" then some (TVal.i (tFirstEventHour df r.hosp))
  else if c = "nth_hour" then
    r.et.map (fun t => TVal.i ((floorHour t - tFirstEventHour df r.hosp) / 3600))
  else if c = "hour_bucket" then r.et.map (fun t => TVal.i (Int.fmod (Int.fdiv t 3600) 24))
  else if c = "event_time" then r.et.map TVal.i
  else tCellVal r c

def tAvailCols (df : TWideDF) : List ColName := df.cols ++ syntheticCols

def tNonAggCols (df : TWideDF) (cfg : AggConfig) : List ColName :=
  df.cols.filter (fun c => decide (c ∉ allAggCols cfg ∧ c ∉ groupByCols ∧
    c ∉ ["patient_id", "day_number", "first_event_hour", "hour_bucket", "event_time"]))

def tUpdateConfig (df : TWideDF) (cfg : AggConfig) : AggConfig :=
  if (tNonAggCols df cfg).isEmpty then cfg
  else if cfg.any (fun p => p.1 == "first") then
    cfg.map (fun p => if p.1 == "first" then (p.1, p.2 ++ tNonAggCols df cfg) else p)
  else cfg ++ [("first", tNonAggCols df cfg)]

def tRowKey (r : TWRow) : Nat × Int := (r.hosp, floorHour (r.et.getD 0))

def tSortedKeys (df : TWideDF) : List (Nat × Int) :=
  List.insertionSort keyLE (dedupF (df.rows.map tRowKey))

def tGroupRows (df : TWideDF) (k : Nat × Int) : List TWRow :=
  df.rows.filter (fun r => tRowKey r == k)

def tColValues (df : TWideDF) (g : List TWRow) (c : ColName) : List TVal :=
  g.filterMap (fun r => tGetVal df r c)

/-- Lines 634-676 over typed cells: `col_values.mean()` / `.median()`
raise `TypeError` when the non-null values contain a string; `max` /
`min` compare lexicographically on an all-string column and raise on a
mixed column; `first`, `last`, `boolean` and `one_hot_encode` never
raise. An absent column (line 635) and an unknown method (line 675) fall
through without writes and without error. -/
def tAggWrites (df : TWideDF) (na : List ColName) (g : List TWRow) (m : String)
    (c : ColName) : Except String (List (ColName × THVal)) :=
  if c ∈ tAvailCols df then
    if m = "max" then
      if (tColValues df g c).isEmpty then Except.ok [(c ++ "_max", THVal.null)]
      else if valsHaveStr (tColValues df g c) && valsHaveNum (tColValues df g c) then
        Except.error "TypeError: unsupported comparison between str and int"
      else if valsHaveStr (tColValues df g c) then
        Except.ok [(c ++ "_max", THVal.str (strMaxList (strsOf (tColValues df g c))))]
      else Except.ok [(c ++ "_max", THVal.num ((maxList (numsOf (tColValues df g c)) : Int) : ℚ))]
    else if m = "min" then
      if (tColValues df g c).isEmpty then Except.ok [(c ++ "_min", THVal.null)]
      else if valsHaveStr (tColValues df g c) && valsHaveNum (tColValues df g c) then
        Except.error "TypeError: unsupported comparison between str and int"
      else if valsHaveStr (tColValues df g c) then
        Except.ok [(c ++ "_min", THVal.str (strMinList (strsOf (tColValues df g c))))]
      else Except.ok [(c ++ "_min", THVal.num ((minList (numsOf (tColValues df g c)) : Int) : ℚ))]
    else if m = "mean" then
      if (tColValues df g c).isEmpty then Except.ok [(c ++ "_mean", THVal.null)]
      else if valsHaveStr (tColValues df g c) then
        Except.error "TypeError: could not convert string to float"
      else Except.ok [(c ++ "_mean", THVal.num (meanQ (numsOf (tColValues df g c))))]
    else if m = "median" then
      if (tColValues df g c).isEmpty then Except.ok [(c ++ "_median", THVal.null)]
      else if valsHaveStr (tColValues df g c) then
        Except.error "TypeError: could not convert string to float"
      else Except.ok [(c ++ "_median", THVal.num (medianQ (numsOf (tColValues df g c))))]
    else if m = "first" then
      if c ∈ na then Except.ok [(c ++ "_c", thvalOfOpt (tColValues df g c).head?)]
      else Except.ok [(c ++ "_first", thvalOfOpt (tColValues df g c).head?)]
    else if m = "last" then Except.ok [(c ++ "_last", thvalOfOpt (tColValues df g c).getLast?)]
    else if m = "boolean" then
      Except.ok [(c ++ "_boolean", THVal.num (if (tColValues df g c).isEmpty then 0 else 1))]
    else if m = "one_hot_encode" then
      Except.ok ((dedupF (tColValues df g c)).map
        (fun v => (sanitize (c ++ "_" ++ tvalStr v), THVal.num 1)))
    else Except.ok []
  else Except.ok []

def tNthOf (df : TWideDF) (k : Nat × Int) : Int := (k.2 - tFirstEventHour df k.1) / 3600

def tBaseWrites (df : TWideDF) (k : Nat × Int) : THRow :=
  [("hospitalization_id", THVal.nat k.1), ("event_time_hour", THVal.time k.2),
    ("nth_hour", THVal.num ((tNthOf df k : Int) : ℚ)),
    ("hour_bucket", THVal.num ((Int.fmod (Int.fdiv k.2 3600) 24 : Int) : ℚ))]

def tCarriedWrites (df : TWideDF) (k : Nat × Int) : THRow :=
  (if "patient_id" ∈ df.cols then
    [("patient_id", thvalOfOpt ((tGroupRows df k).head?.bind (fun r => tGetVal df r "patient_id")))]
  else []) ++
  (if "day_number" ∈ df.cols then
    [("day_number", thvalOfOpt ((tGroupRows df k).head?.bind (fun r => tGetVal df r "day_number")))]
  else [])

/-- Concatenating traversal: the first raising element aborts the whole
loop, as an exception aborts the python `for`. -/
def flatMapE {α β : Type} (f : α → Except String (List β)) : List α → Except String (List β)
  | [] => Except.ok []
  | a :: l =>
    match f a with
    | Except.error e => Except.error e
    | Except.ok bs =>
      match flatMapE f l with
      | Except.error e => Except.error e
      | Except.ok rest => Except.ok (bs ++ rest)

def mapE {α β : Type} (f : α → Except String β) : List α → Except String (List β)
  | [] => Except.ok []
  | a :: l =>
    match f a with
    | Except.error e => Except.error e
    | Except.ok b =>
      match mapE f l with
      | Except.error e => Except.error e
      | Except.ok rest => Except.ok (b :: rest)

def tAggAllWrites (df : TWideDF) (cfg2 : AggConfig) (na : List ColName) (k : Nat × Int) :
    Except String THRow :=
  flatMapE (fun e => flatMapE (fun c => tAggWrites df na (tGroupRows df k) e.1 c) e.2) cfg2

def tBuildRow (df : TWideDF) (cfg2 : AggConfig) (na : List ColName) (k : Nat × Int) :
    Except String THRow :=
  match tAggAllWrites df cfg2 na k with
  | Except.error e => Except.error e
  | Except.ok aw => Except.ok (tBaseWrites df k ++ tCarriedWrites df k ++ aw)

def tBuiltRowsOf (df : TWideDF) (cfg : AggConfig) : Except String (List THRow) :=
  mapE (tBuildRow df (tUpdateConfig df cfg) (tNonAggCols df cfg)) (tSortedKeys df)

def tHourlyColsOf (rs : List THRow) : List ColName :=
  dedupF (rs.flatMap (fun r => r.map Prod.fst))

def tHrowKeyQ (r : THRow) : Nat × ℚ :=
  (match tRowGet r "hospitalization_id" with
    | some (THVal.nat h) => h
    | _ => 0,
   match tRowGet r "nth_hour" with
    | some (THVal.num q) => q
    | _ => 0)

def tHrowLE (a b : THRow) : Prop := pairLEQ (tHrowKeyQ a) (tHrowKeyQ b)

instance : DecidableRel tHrowLE := fun a b =>
  inferInstanceAs (Decidable (pairLEQ (tHrowKeyQ a) (tHrowKeyQ b)))

/-- `fillna(0).astype(int)` on one typed cell: a string cell makes the
cast raise (line 693). -/
def tFillVal : Option THVal → Except String THVal
  | none => Except.ok (THVal.num 0)
  | some THVal.null => Except.ok (THVal.num 0)
  | some (THVal.num q) => Except.ok (THVal.num ((truncRat q : Int) : ℚ))
  | some (THVal.str _) => Except.error "ValueError: invalid literal for int() with base 10"
  | some v => Except.ok v

def tFillCol (rows : List THRow) (k : ColName) : Except String (List THRow) :=
  mapE (fun r =>
    match tFillVal (tRowGet r k) with
    | Except.error e => Except.error e
    | Except.ok v => Except.ok (r ++ [(k, v)])) rows

def tFillPass : List ColName → List THRow → Except String (List THRow)
  | [], rows => Except.ok rows
  | k :: ks, rows =>
    match tFillCol rows k with
    | Except.error e => Except.error e
    | Except.ok rows2 => tFillPass ks rows2

structure THourlyDF where
  cols : List ColName
  rows : List THRow
deriving DecidableEq, Repr

structure TConvOut where
  res : Except String THourlyDF
  cfg : AggConfig
deriving Repr

/-- `convert_wide_to_hourly` over the typed frame (lines 519-697): the
three validations, the failing `nth_hour` cast on a null `event_time`,
the group loop whose `mean`/`median` raise on string values, the
`KeyError` on sorting the empty column-less result, and the one-hot fill
pass whose `astype(int)` raises on captured string columns. -/
def convert_wide_to_hourly_typed (df : TWideDF) (cfg : AggConfig) : TConvOut :=
  if "event_time" ∉ df.cols then
    ⟨Except.error "wide_df must contain event_time column", cfg⟩
  else if "hospitalization_id" ∉ df.cols then
    ⟨Except.error "wide_df must contain hospitalization_id column", cfg⟩
  else if "day_number" ∉ df.cols then
    ⟨Except.error "wide_df must contain day_number column", cfg⟩
  else if df.rows.any (fun r => r.et.isNone) then
    ⟨Except.error "cannot convert non-finite values (NA or inf) to integer", cfg⟩
  else
    match tBuiltRowsOf df cfg with
    | Except.error e => ⟨Except.error e, tUpdateConfig df cfg⟩
    | Except.ok rs =>
      if rs.isEmpty then ⟨Except.error "KeyError: hospitalization_id", tUpdateConfig df cfg⟩
      else
        match tFillPass (oneHotFillCols (tUpdateConfig df cfg) (tHourlyColsOf rs))
            (List.insertionSort tHrowLE rs) with
        | Except.error e => ⟨Except.error e, tUpdateConfig df cfg⟩
        | Except.ok rows2 => ⟨Except.ok ⟨tHourlyColsOf rs, rows2⟩, tUpdateConfig df cfg⟩

theorem mapE_isOk_false {α β : Type} (f : α → Except String β) (l : List α) (a : α)
    (ha : a ∈ l) (hb : (f a).isOk = false) : (mapE f l).isOk = false := by
  induction l with
  | nil => exact absurd ha (List.not_mem_nil a)
  | cons x l ih =>
    show (match f x with
      | Except.error e => Except.error e
      | Except.ok b =>
        match mapE f l with
        | Except.error e => Except.error e
        | Except.ok rest => Except.ok (b :: rest)).isOk = false
    cases hfx : f x with
    | error e => rfl
    | ok b =>
      rcases List.mem_cons.1 ha with he | hmem
      · rw [← he] at hfx
        rw [hfx] at hb
        exact Bool.noConfusion hb
      · have hrec := ih hmem
        cases hrest : mapE f l with
        | error e2 => rfl
        | ok rest =>
          rw [hrest] at hrec
          exact Bool.noConfusion hrec

theorem flatMapE_isOk_false {α β : Type} (f : α → Except String (List β)) (l : List α)
    (a : α) (ha : a ∈ l) (hb : (f a).isOk = false) : (flatMapE f l).isOk = false := by
  induction l with
  | nil => exact absurd ha (List.not_mem_nil a)
  | cons x l ih =>
    show (match f x with
      | Except.error e => Except.error e
      | Except.ok bs =>
        match flatMapE f l with
        | Except.error e => Except.error e
        | Except.ok rest => Except.ok (bs ++ rest)).isOk = false
    cases hfx : f x with
    | error e => rfl
    | ok bs =>
      rcases List.mem_cons.1 ha with he | hmem
      · rw [← he] at hfx
        rw [hfx] at hb
        exact Bool.noConfusion hb
      · have hrec := ih hmem
        cases hrest : flatMapE f l with
        | error e2 => rfl
        | ok rest =>
          rw [hrest] at hrec
          exact Bool.noConfusion hrec

theorem mapE_mem_ok {α β : Type} (f : α → Except String β) :
    ∀ (l : List α) (bs : List β), mapE f l = Except.ok bs →
      ∀ a ∈ l, ∃ b ∈ bs, f a = Except.ok b := by
  intro l
  induction l with
  | nil => intro bs _ a ha; exact absurd ha (List.not_mem_nil a)
  | cons x l ih =>
    intro bs h a ha
    have h2 : (match f x with
      | Except.error e => Except.error e
      | Except.ok b =>
        match mapE f l with
        | Except.error e => Except.error e
        | Except.ok rest => Except.ok (b :: rest)) = Except.ok bs := h
    cases hfx : f x with
    | error e =>
      rw [hfx] at h2
      exact absurd h2 (fun he => Except.noConfusion he)
    | ok b =>
      rw [hfx] at h2
      cases hrest : mapE f l with
      | error e =>
        rw [hrest] at h2
        exact absurd h2 (fun he => Except.noConfusion he)
      | ok rest =>
        rw [hrest] at h2
        injection h2 with h3
        rcases List.mem_cons.1 ha with he | hmem
        · refine ⟨b, ?_, by rw [← he] at hfx; exact hfx⟩
          rw [← h3]
          exact List.mem_cons_self b rest
        · obtain ⟨b2, hb2, hf2⟩ := ih rest hrest a hmem
          refine ⟨b2, ?_, hf2⟩
          rw [← h3]
          exact List.mem_cons_of_mem b hb2

theorem tRowGet_append (r1 r2 : THRow) (k : ColName) :
    tRowGet (r1 ++ r2) k = (tRowGet r2 k).or (tRowGet r1 k) := by
  unfold tRowGet
  rw [List.reverse_append, List.find?_append]
  cases List.find? (fun p => p.1 == k) r2.reverse <;> simp

/-- A fill column that holds a string in some row makes the fill pass
raise (earlier columns may raise first; the pass never succeeds). -/
theorem tFillPass_isOk_false (k : ColName) :
    ∀ (ks : List ColName) (rows : List THRow), k ∈ ks →
      (∃ r ∈ rows, tIsStrHV (tRowGet r k) = true) →
      (tFillPass ks rows).isOk = false := by
  intro ks
  induction ks with
  | nil => intro rows hk _; exact absurd hk (List.not_mem_nil k)
  | cons k0 ks ih =>
    intro rows hk hstr
    show (match tFillCol rows k0 with
      | Except.error e => Except.error e
      | Except.ok rows2 => tFillPass ks rows2).isOk = false
    by_cases hk0 : k0 = k
    · subst hk0
      have hcol : (tFillCol rows k0).isOk = false := by
        obtain ⟨r, hr, hrs⟩ := hstr
        apply mapE_isOk_false _ rows r hr
        show (match tFillVal (tRowGet r k0) with
          | Except.error e => Except.error e
          | Except.ok v => Except.ok (r ++ [(k0, v)])).isOk = false
        cases hro : tRowGet r k0 with
        | none =>
          rw [hro] at hrs
          exact Bool.noConfusion hrs
        | some v =>
          cases v with
          | str st => rfl
          | num q => rw [hro] at hrs; exact Bool.noConfusion hrs
          | nat n => rw [hro] at hrs; exact Bool.noConfusion hrs
          | time t => rw [hro] at hrs; exact Bool.noConfusion hrs
          | null => rw [hro] at hrs; exact Bool.noConfusion hrs
      cases hcol2 : tFillCol rows k0 with
      | error e => rfl
      | ok rows2 =>
        rw [hcol2] at hcol
        exact Bool.noConfusion hcol
    · have hk2 : k ∈ ks := by
        cases hk with
        | head => exact absurd rfl hk0
        | tail _ h2 => exact h2
      cases hcol2 : tFillCol rows k0 with
      | error e => rfl
      | ok rows2 =>
        apply ih rows2 hk2
        obtain ⟨r, hr, hrs⟩ := hstr
        obtain ⟨r2, hr2, hf2⟩ := mapE_mem_ok _ rows rows2 hcol2 r hr
        refine ⟨r2, hr2, ?_⟩
        have hf3 : (match tFillVal (tRowGet r k0) with
          | Except.error e => Except.error e
          | Except.ok v => Except.ok (r ++ [(k0, v)])) = Except.ok r2 := hf2
        cases htv : tFillVal (tRowGet r k0) with
        | error e =>
          rw [htv] at hf3
          exact absurd hf3 (fun he => Except.noConfusion he)
        | ok v =>
          rw [htv] at hf3
          injection hf3 with h4
          rw [← h4, tRowGet_append]
          have hsingle : tRowGet [(k0, v)] k = none := by
            unfold tRowGet
            have hb : (k0 == k) = false := beq_eq_false_iff_ne.2 hk0
            simp [List.find?, hb]
          rw [hsingle]
          exact hrs

/-- The `mean`/`median` branches raise exactly when a string value is
present among the non-null group values. -/
theorem tAggWrites_mean_err (df : TWideDF) (na : List ColName) (g : List TWRow)
    (m : String) (c : ColName) (hm : m = "mean" ∨ m = "median")
    (hav : c ∈ tAvailCols df)
    (hstr : valsHaveStr (tColValues df g c) = true) :
    (tAggWrites df na g m c).isOk = false := by
  have hne : (tColValues df g c).isEmpty = false := by
    cases hvs : tColValues df g c with
    | nil =>
      rw [hvs] at hstr
      exact Bool.noConfusion hstr
    | cons a l => rfl
  unfold tAggWrites
  rw [if_pos hav]
  rcases hm with hm | hm
  · rw [hm,
      if_neg (by decide : ¬("mean" : String) = "max"),
      if_neg (by decide : ¬("mean" : String) = "min"),
      if_pos rfl, hne,
      if_neg (show ¬(false = true) by simp), hstr, if_pos rfl]
    rfl
  · rw [hm,
      if_neg (by decide : ¬("median" : String) = "max"),
      if_neg (by decide : ¬("median" : String) = "min"),
      if_neg (by decide : ¬("median" : String) = "mean"),
      if_pos rfl, hne,
      if_neg (show ¬(false = true) by simp), hstr, if_pos rfl]
    rfl

theorem tConv_built_fail (df : TWideDF) (cfg : AggConfig)
    (h : (tBuiltRowsOf df cfg).isOk = false) :
    (convert_wide_to_hourly_typed df cfg).res.isOk = false := by
  unfold convert_wide_to_hourly_typed
  by_cases hc1 : "event_time" ∉ df.cols
  · rw [if_pos hc1]
    rfl
  · rw [if_neg hc1]
    by_cases hc2 : "hospitalization_id" ∉ df.cols
    · rw [if_pos hc2]
      rfl
    · rw [if_neg hc2]
      by_cases hc3 : "day_number" ∉ df.cols
      · rw [if_pos hc3]
        rfl
      · rw [if_neg hc3]
        by_cases hc4 : df.rows.any (fun r => r.et.isNone) = true
        · rw [if_pos hc4]
          rfl
        · rw [if_neg hc4]
          cases hbr : tBuiltRowsOf df cfg with
          | error e => rfl
          | ok rs =>
            rw [hbr] at h
            exact Bool.noConfusion h

theorem tConv_fill_fail (df : TWideDF) (cfg : AggConfig) (rs : List THRow)
    (hbr : tBuiltRowsOf df cfg = Except.ok rs)
    (h : (tFillPass (oneHotFillCols (tUpdateConfig df cfg) (tHourlyColsOf rs))
        (List.insertionSort tHrowLE rs)).isOk = false) :
    (convert_wide_to_hourly_typed df cfg).res.isOk = false := by
  unfold convert_wide_to_hourly_typed
  by_cases hc1 : "event_time" ∉ df.cols
  · rw [if_pos hc1]
    rfl
  · rw [if_neg hc1]
    by_cases hc2 : "hospitalization_id" ∉ df.cols
    · rw [if_pos hc2]
      rfl
    · rw [if_neg hc2]
      by_cases hc3 : "day_number" ∉ df.cols
      · rw [if_pos hc3]
        rfl
      · rw [if_neg hc3]
        by_cases hc4 : df.rows.any (fun r => r.et.isNone) = true
        · rw [if_pos hc4]
          rfl
        · rw [if_neg hc4, hbr]
          show ((if rs.isEmpty then
              (⟨Except.error "KeyError: hospitalization_id", tUpdateConfig df cfg⟩ : TConvOut)
            else
              match tFillPass (oneHotFillCols (tUpdateConfig df cfg) (tHourlyColsOf rs))
                  (List.insertionSort tHrowLE rs) with
              | Except.error e => ⟨Except.error e, tUpdateConfig df cfg⟩
              | Except.ok rows2 =>
                ⟨Except.ok ⟨tHourlyColsOf rs, rows2⟩, tUpdateConfig df cfg⟩).res).isOk = false
          by_cases hie : rs.isEmpty
          · rw [if_pos hie]
            rfl
          · rw [if_neg hie]
            cases hfp : tFillPass (oneHotFillCols (tUpdateConfig df cfg) (tHourlyColsOf rs))
                (List.insertionSort tHrowLE rs) with
            | error e => rfl
            | ok rows2 =>
              rw [hfp] at h
              exact Bool.noConfusion h

/-- **C4 (amended).** The abort behaviour of the aggregator, over the
typed frame: (i)-(iii) a missing required column aborts; (iv) a null
`event_time` aborts; (v) a zero-row frame aborts; (vi) — against the
original claim — the config itself can abort the call: a `mean` or
`median` entry over a column whose group values contain a string raises
`TypeError`; (vii) a one-hot fill column holding a string in some built
row makes the final `astype(int)` raise; while (viii) an unknown method
name and (ix) a column absent from the frame produce no writes and no
error at the aggregation stage. -/
theorem C4_config_dependent_abort :
    (∀ (df : TWideDF) (cfg : AggConfig), "event_time" ∉ df.cols →
      (convert_wide_to_hourly_typed df cfg).res.isOk = false) ∧
    (∀ (df : TWideDF) (cfg : AggConfig), "hospitalization_id" ∉ df.cols →
      (convert_wide_to_hourly_typed df cfg).res.isOk = false) ∧
    (∀ (df : TWideDF) (cfg : AggConfig), "day_number" ∉ df.cols →
      (convert_wide_to_hourly_typed df cfg).res.isOk = false) ∧
    (∀ (df : TWideDF) (cfg : AggConfig), (∃ r ∈ df.rows, r.et = none) →
      (convert_wide_to_hourly_typed df cfg).res.isOk = false) ∧
    (∀ (df : TWideDF) (cfg : AggConfig), df.rows = [] →
      (convert_wide_to_hourly_typed df cfg).res.isOk = false) ∧
    (∀ (df : TWideDF) (cfg : AggConfig) (e : String × List ColName) (c : ColName)
      (k : Nat × Int), e ∈ tUpdateConfig df cfg → (e.1 = "mean" ∨ e.1 = "median") →
      c ∈ e.2 → c ∈ tAvailCols df → k ∈ tSortedKeys df →
      valsHaveStr (tColValues df (tGroupRows df k) c) = true →
      (convert_wide_to_hourly_typed df cfg).res.isOk = false) ∧
    (∀ (df : TWideDF) (cfg : AggConfig) (rs : List THRow) (k : ColName),
      tBuiltRowsOf df cfg = Except.ok rs →
      k ∈ oneHotFillCols (tUpdateConfig df cfg) (tHourlyColsOf rs) →
      (∃ r ∈ rs, tIsStrHV (tRowGet r k) = true) →
      (convert_wide_to_hourly_typed df cfg).res.isOk = false) ∧
    (∀ (df : TWideDF) (na : List ColName) (g : List TWRow) (m : String) (c : ColName),
      m ∉ ["max", "min", "mean", "median", "first", "last", "boolean", "one_hot_encode"] →
      tAggWrites df na g m c = Except.ok []) ∧
    (∀ (df : TWideDF) (na : List ColName) (g : List TWRow) (m : String) (c : ColName),
      c ∉ tAvailCols df → tAggWrites df na g m c = Except.ok []) := by
  refine ⟨?_, ?_, ?_, ?_, ?_, ?_, ?_, ?_, ?_⟩
  · intro df cfg h1
    unfold convert_wide_to_hourly_typed
    rw [if_pos h1]
    rfl
  · intro df cfg h2
    unfold convert_wide_to_hourly_typed
    by_cases hc1 : "event_time" ∉ df.cols
    · rw [if_pos hc1]
      rfl
    · rw [if_neg hc1, if_pos h2]
      rfl
  · intro df cfg h3
    unfold convert_wide_to_hourly_typed
    by_cases hc1 : "event_time" ∉ df.cols
    · rw [if_pos hc1]
      rfl
    · rw [if_neg hc1]
      by_cases hc2 : "hospitalization_id" ∉ df.cols
      · rw [if_pos hc2]
        rfl
      · rw [if_neg hc2, if_pos h3]
        rfl
  · intro df cfg hex
    unfold convert_wide_to_hourly_typed
    by_cases hc1 : "event_time" ∉ df.cols
    · rw [if_pos hc1]
      rfl
    · rw [if_neg hc1]
      by_cases hc2 : "hospitalization_id" ∉ df.cols
      · rw [if_pos hc2]
        rfl
      · rw [if_neg hc2]
        by_cases hc3 : "day_number" ∉ df.cols
        · rw [if_pos hc3]
          rfl
        · rw [if_neg hc3]
          have hany : df.rows.any (fun r => r.et.isNone) = true := by
            rw [List.any_eq_true]
            obtain ⟨r, hr, hre⟩ := hex
            exact ⟨r, hr, by rw [hre]; rfl⟩
          rw [if_pos hany]
          rfl
  · intro df cfg hrows
    have hbr : tBuiltRowsOf df cfg = Except.ok [] := by
      unfold tBuiltRowsOf tSortedKeys
      rw [hrows]
      rfl
    unfold convert_wide_to_hourly_typed
    by_cases hc1 : "event_time" ∉ df.cols
    · rw [if_pos hc1]
      rfl
    · rw [if_neg hc1]
      by_cases hc2 : "hospitalization_id" ∉ df.cols
      · rw [if_pos hc2]
        rfl
      · rw [if_neg hc2]
        by_cases hc3 : "day_number" ∉ df.cols
        · rw [if_pos hc3]
          rfl
        · rw [if_neg hc3]
          have hne : ¬(df.rows.any (fun r => r.et.isNone) = true) := by
            rw [hrows]
            simp
          rw [if_neg hne, hbr]
          rfl
  · intro df cfg e c k he hm hc hav hk hstr
    apply tConv_built_fail
    apply mapE_isOk_false _ _ k hk
    show (tBuildRow df (tUpdateConfig df cfg) (tNonAggCols df cfg) k).isOk = false
    have hagg : (tAggAllWrites df (tUpdateConfig df cfg) (tNonAggCols df cfg) k).isOk
        = false := by
      apply flatMapE_isOk_false _ _ e he
      apply flatMapE_isOk_false _ _ c hc
      exact tAggWrites_mean_err df (tNonAggCols df cfg) (tGroupRows df k) e.1 c hm hav hstr
    show (match tAggAllWrites df (tUpdateConfig df cfg) (tNonAggCols df cfg) k with
      | Except.error e2 => Except.error e2
      | Except.ok aw =>
        Except.ok (tBaseWrites df k ++ tCarriedWrites df k ++ aw)).isOk = false
    cases hga : tAggAllWrites df (tUpdateConfig df cfg) (tNonAggCols df cfg) k with
    | error e2 => rfl
    | ok aw =>
      rw [hga] at hagg
      exact Bool.noConfusion hagg
  · intro df cfg rs k hbr hkf hex
    apply tConv_fill_fail df cfg rs hbr
    apply tFillPass_isOk_false k _ _ hkf
    obtain ⟨r, hr, hrs⟩ := hex
    exact ⟨r, (List.mem_insertionSort tHrowLE).2 hr, hrs⟩
  · intro df na g m c hm
    have hne1 : m ≠ "max" := fun he => hm (by rw [he]; decide)
    have hne2 : m ≠ "min" := fun he => hm (by rw [he]; decide)
    have hne3 : m ≠ "mean" := fun he => hm (by rw [he]; decide)
    have hne4 : m ≠ "median" := fun he => hm (by rw [he]; decide)
    have hne5 : m ≠ "first" := fun he => hm (by rw [he]; decide)
    have hne6 : m ≠ "last" := fun he => hm (by rw [he]; decide)
    have hne7 : m ≠ "boolean" := fun he => hm (by rw [he]; decide)
    have hne8 : m ≠ "one_hot_encode" := fun he => hm (by rw [he]; decide)
    unfold tAggWrites
    by_cases hav : c ∈ tAvailCols df
    · rw [if_pos hav, if_neg hne1, if_neg hne2, if_neg hne3, if_neg hne4, if_neg hne5,
        if_neg hne6, if_neg hne7, if_neg hne8]
    · rw [if_neg hav]
  · intro df na g m c hav
    unfold tAggWrites
    rw [if_neg hav]

def C4tdf : TWideDF := ⟨["hospitalization_id", "event_time", "day_number", "location_category"],
  [⟨1, some 3600, [("day_number", some (TVal.i 1)), ("location_category", some (TVal.s "icu"))]⟩]⟩

def C4tcfg : AggConfig := [("mean", ["location_category"])]

def C4fdf : TWideDF := ⟨["hospitalization_id", "event_time", "day_number", "med", "med_route"],
  [⟨1, some 3600, [("day_number", some (TVal.i 1)), ("med", some (TVal.i 5)),
    ("med_route", some (TVal.s "oral"))]⟩]⟩

def C4fcfg : AggConfig := [("one_hot_encode", ["med"])]

def C4frs : List THRow :=
  match tBuiltRowsOf C4fdf C4fcfg with
  | Except.ok rs => rs
  | Except.error _ => []

theorem C4_config_abort_witness :
    (convert_wide_to_hourly_typed C4tdf C4tcfg).res.isOk = false ∧
    (convert_wide_to_hourly_typed C4fdf C4fcfg).res.isOk = false := by
  constructor
  · exact C4_config_dependent_abort.2.2.2.2.2.1 C4tdf C4tcfg
      ("mean", ["location_category"]) "location_category" (1, 3600)
      (by decide) (by decide) (by decide) (by decide) (by decide) (by decide)
  · exact C4_config_dependent_abort.2.2.2.2.2.2.1 C4fdf C4fcfg C4frs "med_route_c"
      (by rfl) (by decide) (by decide)


end PyCLIF
